import Mathlib

/-!
# Android RAM console (drivers/staging/android/ram_console.c)

A shallow embedding of the persistent console driver: the circular writer
(`ram_console_write`), the recovery step (`ram_console_save_old`,
`ram_console_init`) and the boot-reason tracker (`record_boot_reason`,
`init_boot_reason`), followed by theorems about them.

Conventions of the embedding
* bytes are `Nat`s, byte arrays are `List Nat`;
* `uint32_t`, `size_t` and `unsigned int` are 32 bits wide on the ARM target,
  `unsigned long long` is 64 bits wide; arithmetic on them is written with an
  explicit `% U32` / `% U64`;
* the file-scope statics of the driver are the fields of `ram_console_state`;
* `CONFIG_ANDROID_RAM_CONSOLE_ERROR_CORRECTION` is the argument
  `cfg : Option ecc_config` (`none`: compiled without error correction);
* what lives outside the driver (the Reed-Solomon library, `kmalloc`, the
  reset-status register, label strings, `sizeof`) is a parameter.
-/

namespace RamConsole

/-! ## Machine words -/

/-- Number of values of a 32-bit word (`uint32_t`, `size_t`, `unsigned int`). -/
def U32 : Nat := 4294967296

/-- Number of values of an `unsigned long long`. -/
def U64 : Nat := 18446744073709551616

/-- Unsigned 32-bit subtraction `a - b`. -/
def sub32 (a b : Nat) : Nat := (a + U32 - b % U32) % U32

/-- Unsigned 32-bit addition `a + b`. -/
def add32 (a b : Nat) : Nat := (a + b) % U32

/-- The kernel helper `DIV_ROUND_UP(n, d)`, which is `((n) + (d) - 1) / (d)`
evaluated in `size_t`. -/
def DIV_ROUND_UP (n d : Nat) : Nat := ((n + d - 1) % U32) / d

/-! ## Raw memory helpers -/

/-- The call `memcpy(dst + off, src, n)`: exactly `n` bytes are stored at
offsets `off .. off + n` of `dst`. A store past the end of `dst` shows up as a
longer list; a load past the end of `src` reads `0`. -/
def memcpy (dst : List Nat) (off : Nat) (src : List Nat) (n : Nat) : List Nat :=
  dst.take off ++ (List.range n).map (fun i => src.getD i 0) ++ dst.drop (off + n)

/-- The library call `strlen`: number of bytes before the first NUL. -/
def strlen (s : List Nat) : Nat := (s.takeWhile (fun b => b != 0)).length

/-- The bytes `mem[off .. off + len)`, as handed to a callee through a pointer
and a length. -/
def bytes_at (mem : List Nat) (off len : Nat) : List Nat := (mem.drop off).take len

/-! ## enum boot_reason -/

def FRESH_BOOT : Nat := 0

def SW_RESTART : Nat := 1

def OOPS_RESTART : Nat := 2

def PANIC_RESTART : Nat := 3

def HALT_RESTART : Nat := 4

def POWEROFF_RESTART : Nat := 5

def KEXEC_RESTART : Nat := 6

def EMERG_RESTART : Nat := 7

def WR_RESET : Nat := 8

def WDT_RESET : Nat := 9

def EXTERNAL_RESET : Nat := 10

def SLEEP_WAKEUP_RESET : Nat := 11

def DIDLE_WAKEUP_RESET : Nat := 12

def DSTOP_WAKEUP_RESET : Nat := 13

def UNKNOWN_REASON : Nat := 14

def END_REASON : Nat := 15

/-- The reasons of `enum kmsg_dump_reason` that `record_boot_reason` switches
on; `KMSG_DUMP_OTHER` stands for every value that reaches `default:`. -/
inductive kmsg_dump_reason where
  | KMSG_DUMP_OOPS
  | KMSG_DUMP_PANIC
  | KMSG_DUMP_KEXEC
  | KMSG_DUMP_RESTART
  | KMSG_DUMP_HALT
  | KMSG_DUMP_POWEROFF
  | KMSG_DUMP_EMERG
  | KMSG_DUMP_OTHER
  deriving DecidableEq, Repr

/-! ## The persistent header and the driver state -/

/-- The record `struct boot_stat`: `reason` and `new_reason` are `int`,
`count` is an array of `END_REASON` 64-bit counters (indexed by reason). -/
structure boot_stat where
  reason : Int
  new_reason : Int
  count : Nat → Nat

/-- The record `struct time_info`: two 20-byte text fields. -/
structure time_info where
  boot_time : List Nat
  update_time : List Nat

/-- The fixed part of `struct ram_console_buffer` (everything before `data`). -/
structure ram_console_header where
  sig : Nat
  start : Nat
  size : Nat
  bs : boot_stat
  ti : time_info

/-- The record `struct ram_console_buffer`: the header followed by the bytes
of the flexible array `data`. -/
structure ram_console_buffer extends ram_console_header where
  data : List Nat

/-- The magic `RAM_CONSOLE_SIG` ("DBGC"). -/
def RAM_CONSOLE_SIG : Nat := 0x43474244

/-- A Reed-Solomon control block as returned by `init_rs` (linux/rslib.h).
`encode_rs8 data par` returns the parity symbols (16-bit each) computed over
`data` starting from the parity array `par`; `decode_rs8 data par` returns the
number of corrected symbols (negative when the block is uncorrectable) and
the data after in-place correction. -/
structure rs_control where
  encode_rs8 : List Nat → List Nat → List Nat
  decode_rs8 : List Nat → List Nat → Int × List Nat

/-- Build-time configuration of the error-correction code together with the
parts of the environment it needs: the two Kconfig sizes, the result of
`init_rs` (`none` is a NULL return), and the memory image of the header
(`hdr_bytes` reads the `sizeof` bytes of the struct, `hdr_of_bytes` is the
header those bytes denote). A block size of zero does not give a driver (it
divides by `ECC_BLOCK_SIZE`), so the configuration carries `block_pos`. -/
structure ecc_config where
  ECC_BLOCK_SIZE : Nat
  ECC_SIZE : Nat
  block_pos : 0 < ECC_BLOCK_SIZE
  init_rs : Option rs_control
  hdr_bytes : ram_console_header → List Nat
  hdr_of_bytes : List Nat → ram_console_header

/-- The file-scope statics of the driver. `buffer` is the mapped region
behind the pointer `ram_console_buffer` and `installed` tells whether that
pointer is non-NULL; `old_log` is `none` while `ram_console_old_log` is
NULL; `recorded` is the function-local static of `record_boot_reason`. -/
structure ram_console_state where
  buffer : ram_console_buffer
  installed : Bool
  buffer_size : Nat
  par_buffer : List Nat
  rs_decoder : Option rs_control
  corrected_bytes : Int
  bad_blocks : Int
  first_boot : Bool
  old_log : Option (List Nat)
  old_log_size : Nat
  recorded : Bool
  console_registered : Bool

/-! ## Error-correction wrappers -/

/-- The function `ram_console_encode_rs8`: the parity array starts zeroed,
the library fills it, and each 16-bit symbol is stored into one byte of
`ecc`. The driver only calls it after `init_rs` returned a decoder; for a
NULL decoder the parity symbols read as absent. -/
def ram_console_encode_rs8 (c : ecc_config) (rs : Option rs_control)
    (data : List Nat) : List Nat :=
  match rs with
  | none => []
  | some r =>
    let par := r.encode_rs8 data (List.replicate c.ECC_SIZE 0)
    (List.range c.ECC_SIZE).map (fun i => par.getD i 0 % 256)

/-- The function `ram_console_decode_rs8`: the `ECC_SIZE` parity bytes are
widened to 16-bit symbols and handed to the library with the data. -/
def ram_console_decode_rs8 (c : ecc_config) (rs : Option rs_control)
    (data : List Nat) (ecc : List Nat) : Int × List Nat :=
  match rs with
  | none => (0, data)
  | some r => r.decode_rs8 data ((List.range c.ECC_SIZE).map (fun i => ecc.getD i 0))

/-! ## The circular writer -/

/-- The `do ... while` loop of `ram_console_update`: `block` and `par` are
offsets into `data` and the parity buffer, `size` is the loop-carried
length, `limit` is `start + count`. One unit of `fuel` is one iteration;
`limit - block + 1` units are enough for the loop to leave through its
condition (`update_loop_fuel`). -/
def ram_console_update_loop (c : ecc_config) (rs : Option rs_control)
    (buffer_size : Nat) (data : List Nat) (limit : Nat) :
    Nat → Nat → Nat → Nat → List Nat → List Nat
  | 0, _, _, _, pb => pb
  | fuel + 1, block, size, par, pb =>
    let size := if block + c.ECC_BLOCK_SIZE > buffer_size then sub32 buffer_size block else size
    let pb := memcpy pb par (ram_console_encode_rs8 c rs (bytes_at data block size)) c.ECC_SIZE
    let block := block + c.ECC_BLOCK_SIZE
    let par := par + c.ECC_SIZE
    if block < limit then ram_console_update_loop c rs buffer_size data limit fuel block size par pb
    else pb

/-- The function `ram_console_update`: copy `count` bytes of `s` to
`data + start`, then (with error correction) re-encode every block from the
one holding `start` up to `start + count`. -/
def ram_console_update (cfg : Option ecc_config) (st : ram_console_state)
    (s : List Nat) (count : Nat) : ram_console_state :=
  let buffer := st.buffer
  let data := memcpy buffer.data buffer.start s count
  let st := { st with buffer := { buffer with data := data } }
  match cfg with
  | none => st
  | some c =>
    let block := Nat.land buffer.start (U32 - 1 - (c.ECC_BLOCK_SIZE - 1))
    let par := (buffer.start / c.ECC_BLOCK_SIZE) * c.ECC_SIZE
    let pb := ram_console_update_loop c st.rs_decoder st.buffer_size data (buffer.start + count)
      (buffer.start + count + 1) block c.ECC_BLOCK_SIZE par st.par_buffer
    { st with par_buffer := pb }

/-- The function `ram_console_update_header`: re-encode the header into the
parity group after those of the data blocks. -/
def ram_console_update_header (cfg : Option ecc_config) (st : ram_console_state) :
    ram_console_state :=
  match cfg with
  | none => st
  | some c =>
    let par := DIV_ROUND_UP st.buffer_size c.ECC_BLOCK_SIZE * c.ECC_SIZE
    let ecc := ram_console_encode_rs8 c st.rs_decoder (c.hdr_bytes st.buffer.toram_console_header)
    { st with par_buffer := memcpy st.par_buffer par ecc c.ECC_SIZE }

/-- The function `ram_console_write(console, s, count)`. -/
def ram_console_write (cfg : Option ecc_config) (st : ram_console_state)
    (s : List Nat) (count : Nat) : ram_console_state :=
  -- if (count > ram_console_buffer_size) { s += count - size; count = size; }
  let s1 := if count > st.buffer_size then s.drop (sub32 count st.buffer_size) else s
  let count1 := if count > st.buffer_size then st.buffer_size else count
  -- rem = ram_console_buffer_size - buffer->start;
  let rem := sub32 st.buffer_size st.buffer.start
  -- if (rem < count) { update(s, rem); s += rem; count -= rem; start = 0; size = buffer_size; }
  let st1 : ram_console_state :=
    if rem < count1 then
      let t := ram_console_update cfg st s1 rem
      { t with buffer := { t.buffer with start := 0, size := t.buffer_size % U32 } }
    else st
  let s2 := if rem < count1 then s1.drop rem else s1
  let count2 := if rem < count1 then sub32 count1 rem else count1
  -- ram_console_update(s, count);
  let st2 : ram_console_state := ram_console_update cfg st1 s2 count2
  -- buffer->start += count;
  let st3 : ram_console_state := { st2 with buffer := { st2.buffer with start := add32 st2.buffer.start count2 } }
  -- if (buffer->size < ram_console_buffer_size) buffer->size += count;
  let st4 : ram_console_state :=
    if st3.buffer.size < st3.buffer_size then
      { st3 with buffer := { st3.buffer with size := add32 st3.buffer.size count2 } }
    else st3
  ram_console_update_header cfg st4

/-- The console layer hands over each chunk with its length. -/
def console_write (cfg : Option ecc_config) (st : ram_console_state) (chunk : List Nat) :
    ram_console_state :=
  ram_console_write cfg st chunk chunk.length

/-- A sequence of console writes, in order. -/
def console_writes (cfg : Option ecc_config) (st : ram_console_state)
    (chunks : List (List Nat)) : ram_console_state :=
  chunks.foldl (console_write cfg) st

/-- The two `memcpy` source ranges of `ram_console_save_old`, in the order
they are placed into the old-log buffer: `data[start .. size)` followed by
`data[0 .. start)`. -/
def unwrapped (b : ram_console_buffer) : List Nat :=
  bytes_at b.data b.start (sub32 b.size b.start) ++ bytes_at b.data 0 b.start

/-- The condition `rem < count` of `ram_console_write` (after `count` was cut
down to the capacity): the write runs over the end of the data region and
continues at offset 0. -/
def write_wraps (st : ram_console_state) (count : Nat) : Prop :=
  sub32 st.buffer_size st.buffer.start
    < (if count > st.buffer_size then st.buffer_size else count)

/-- The last `n` bytes of a byte sequence (all of it when it is shorter). -/
def last_bytes (n : Nat) (l : List Nat) : List Nat := l.drop (l.length - n)

/-- The header as `ram_console_init` leaves it, over a data region of
`C` bytes holding `data`: signature set, `start = 0`, `size = 0`. Every
other static has the value given by `rest`. -/
def reset_state (rest : ram_console_state) (C : Nat) (data : List Nat) : ram_console_state :=
  { rest with
    buffer := { rest.buffer with sig := RAM_CONSOLE_SIG, start := 0, size := 0, data := data }
    buffer_size := C }

/-- Invariant of the circular writer: the data region has `buffer_size`
bytes, `start ≤ size ≤ buffer_size`, and until the region has filled up the
write cursor is the fill level. -/
structure ring_inv (st : ram_console_state) : Prop where
  cap : st.buffer_size < U32
  len : st.buffer.data.length = st.buffer_size
  start_le : st.buffer.start ≤ st.buffer.size
  size_le : st.buffer.size ≤ st.buffer_size
  fill : st.buffer.size < st.buffer_size → st.buffer.start = st.buffer.size

/-! ## Boot-reason tracker -/

/-- The value `memset(&bs, 0, sizeof(struct boot_stat))` leaves behind. -/
def boot_stat_zero : boot_stat := ⟨0, 0, fun _ => 0⟩

/-- The macro `inc_boot_reason(r)`: `new_reason = r; count[r]++` (the
`pr_info` line is logging only). -/
def inc_boot_reason (r : Nat) (bs : boot_stat) : boot_stat :=
  { bs with
    new_reason := (r : Int)
    count := fun i => if i = r then (bs.count r + 1) % U64 else bs.count i }

/-- The function `record_boot_reason(reason)`. -/
def record_boot_reason (st : ram_console_state) (reason : kmsg_dump_reason) :
    ram_console_state :=
  -- if (!ram_console_buffer || recorded) return;
  if !st.installed || st.recorded then st
  else
    -- recorded = 1;
    let st := { st with recorded := true }
    let inc := fun (r : Nat) =>
      { st with buffer := { st.buffer with bs := inc_boot_reason r st.buffer.bs } }
    match reason with
    | .KMSG_DUMP_OOPS => inc OOPS_RESTART
    | .KMSG_DUMP_PANIC => inc PANIC_RESTART
    | .KMSG_DUMP_RESTART => inc SW_RESTART
    | .KMSG_DUMP_HALT => inc HALT_RESTART
    | .KMSG_DUMP_POWEROFF => inc POWEROFF_RESTART
    | .KMSG_DUMP_EMERG => inc EMERG_RESTART
    | .KMSG_DUMP_KEXEC => inc KEXEC_RESTART
    | .KMSG_DUMP_OTHER => st

def DIDLE_WAKEUP : Nat := 1 <<< 19

def DSTOP_WAKEUP : Nat := 1 <<< 18

def SLEEP_WAKEUP : Nat := 1 <<< 16

def SWRESET : Nat := 1 <<< 3

def WDTRESET : Nat := 1 <<< 2

def WRESET : Nat := 1 <<< 1

def ERESET : Nat := 1 <<< 0

/-- The `if ... else if` chain of `init_boot_reason` over the value read from
`S5P_RST_STAT`: the reason handed to `inc_boot_reason`. -/
def hw_boot_reason (reset_reason : Nat) : Nat :=
  if reset_reason &&& SWRESET ≠ 0 then SW_RESTART
  else if reset_reason &&& WRESET ≠ 0 then WR_RESET
  else if reset_reason &&& WDTRESET ≠ 0 then WDT_RESET
  else if reset_reason &&& ERESET ≠ 0 then EXTERNAL_RESET
  else if reset_reason &&& SLEEP_WAKEUP ≠ 0 then SLEEP_WAKEUP_RESET
  else if reset_reason &&& DIDLE_WAKEUP ≠ 0 then DIDLE_WAKEUP_RESET
  else if reset_reason &&& DSTOP_WAKEUP ≠ 0 then DSTOP_WAKEUP_RESET
  else UNKNOWN_REASON

/-- The first part of `init_boot_reason`, up to `reason = bs.new_reason` and
the range check: the boot-stat record and the local `reason` just before the
test `reason != UNKNOWN_REASON && reason != FRESH_BOOT`. -/
def boot_reason_software (first_boot : Bool) (bs : boot_stat) : boot_stat × Int :=
  -- if (first_boot) { memset(&bs, 0, sizeof); inc_boot_reason(FRESH_BOOT); }
  let bs := if first_boot then inc_boot_reason FRESH_BOOT boot_stat_zero else bs
  -- reason = ram_console_buffer->bs.new_reason;
  let reason := bs.new_reason
  -- if (reason < FRESH_BOOT || reason >= END_REASON) { memset; reason = UNKNOWN; inc(reason); }
  if reason < (FRESH_BOOT : Int) ∨ reason ≥ (END_REASON : Int) then
    (inc_boot_reason UNKNOWN_REASON boot_stat_zero, (UNKNOWN_REASON : Int))
  else (bs, reason)

/-- The function `init_boot_reason` down to the label `out:` (the record as
it stands when the pending reason is about to be committed). -/
def boot_reason_pending (first_boot : Bool) (reset_reason : Nat) (bs : boot_stat) : boot_stat :=
  let r := boot_reason_software first_boot bs
  -- if (reason != UNKNOWN_REASON && reason != FRESH_BOOT) goto out;
  if r.2 ≠ (UNKNOWN_REASON : Int) ∧ r.2 ≠ (FRESH_BOOT : Int) then r.1
  else inc_boot_reason (hw_boot_reason reset_reason) r.1

/-- The two assignments after the label `out:` of `init_boot_reason`. -/
def boot_reason_commit (bs : boot_stat) : boot_stat :=
  { bs with reason := bs.new_reason, new_reason := (UNKNOWN_REASON : Int) }

/-- The function `init_boot_reason`; `reset_reason` is the value read from
`S5P_RST_STAT`. -/
def init_boot_reason (reset_reason : Nat) (st : ram_console_state) : ram_console_state :=
  { st with buffer := { st.buffer with
      bs := boot_reason_commit (boot_reason_pending st.first_boot reset_reason st.buffer.bs) } }

/-! ## Recovery of the previous log -/

/-- The bytes of a C string literal. -/
def cstr (s : String) : List Nat := s.toList.map Char.toNat

/-- The text `snprintf` formats for the diagnostic line of
`ram_console_save_old` (before truncation to the 80-byte `strbuf`). -/
def ecc_diag_text (corrected_bytes bad_blocks : Int) : List Nat :=
  if corrected_bytes ≠ 0 ∨ bad_blocks ≠ 0 then
    cstr ("\n" ++ toString corrected_bytes ++ " Corrected bytes, "
      ++ toString bad_blocks ++ " unrecoverable blocks\n")
  else cstr "\nNo errors detected\n"

/-- The `while (block < buffer->data + buffer->size)` loop of
`ram_console_save_old`: `block` and `par` are offsets into the data region
and the parity buffer; the triple is the data region with the corrections
made so far, `ram_console_corrected_bytes` and `ram_console_bad_blocks`.
One unit of fuel is one iteration; `size - block` units are enough for the
loop to leave through its condition (`decode_loop_fuel`). -/
def save_old_decode_loop (c : ecc_config) (rs : Option rs_control)
    (buffer_size size : Nat) (par_buffer : List Nat) :
    Nat → Nat → Nat → List Nat × Int × Int → List Nat × Int × Int
  | 0, _, _, acc => acc
  | fuel + 1, block, par, (data, corrected, bad) =>
    if block < size then
      let sz := if block + c.ECC_BLOCK_SIZE > buffer_size then sub32 buffer_size block
        else c.ECC_BLOCK_SIZE
      let r := ram_console_decode_rs8 c rs (bytes_at data block sz) (bytes_at par_buffer par c.ECC_SIZE)
      let data := memcpy data block r.2 sz
      let corrected := if r.1 > 0 then corrected + r.1 else corrected
      let bad := if r.1 > 0 then bad else if r.1 < 0 then bad + 1 else bad
      save_old_decode_loop c rs buffer_size size par_buffer fuel
        (block + c.ECC_BLOCK_SIZE) (par + c.ECC_SIZE) (data, corrected, bad)
    else (data, corrected, bad)

/-- The error-correction pass at the head of `ram_console_save_old`: the
state after every block of `data[0 .. size)` went through the decoder. -/
def save_old_decode (cfg : Option ecc_config) (st : ram_console_state) : ram_console_state :=
  match cfg with
  | none => st
  | some c =>
    let r := save_old_decode_loop c st.rs_decoder st.buffer_size st.buffer.size st.par_buffer
      st.buffer.size 0 0 (st.buffer.data, st.corrected_bytes, st.bad_blocks)
    { st with
      buffer := { st.buffer with data := r.1 }
      corrected_bytes := r.2.1
      bad_blocks := r.2.2 }

/-- The contents of `strbuf` in `ram_console_save_old`: the diagnostic line
cut to the 79 characters that fit (nothing without error correction). -/
def save_old_strbuf (cfg : Option ecc_config) (st1 : ram_console_state) : List Nat :=
  match cfg with
  | none => []
  | some _ => (ecc_diag_text st1.corrected_bytes st1.bad_blocks).take 79

/-- The value of `bootinfo_size` in `ram_console_save_old`:
`strlen(bootinfo) + strlen(bootinfo_label)` when `bootinfo` is given. -/
def save_old_bootinfo_size (BOOT_INFO_LABEL : List Nat) (bootinfo : Option (List Nat)) : Nat :=
  match bootinfo with
  | none => 0
  | some b => add32 (strlen b) (strlen BOOT_INFO_LABEL)

/-- The value of `total_size` in `ram_console_save_old` when the export
buffer is requested; `st1` is the state after the error-correction pass. -/
def save_old_total_size (cfg : Option ecc_config) (BOOT_INFO_LABEL : List Nat)
    (st1 : ram_console_state) (bootinfo : Option (List Nat)) : Nat :=
  add32 (add32 st1.buffer.size (save_old_strbuf cfg st1).length)
    (save_old_bootinfo_size BOOT_INFO_LABEL bootinfo)

/-- The `memcpy` sequence of `ram_console_save_old` into the export buffer
`d`; `st1` is the state after the error-correction pass. -/
def save_old_fill (cfg : Option ecc_config) (BOOT_INFO_LABEL : List Nat)
    (st1 : ram_console_state) (bootinfo : Option (List Nat)) (d : List Nat) : List Nat :=
  let buffer := st1.buffer
  let old_log_size := buffer.size
  let strbuf := save_old_strbuf cfg st1
  let strbuf_len := strbuf.length
  -- memcpy(old_log, &buffer->data[buffer->start], buffer->size - buffer->start);
  let log := memcpy d 0 (buffer.data.drop buffer.start) (sub32 buffer.size buffer.start)
  -- memcpy(old_log + buffer->size - buffer->start, &buffer->data[0], buffer->start);
  let log := memcpy log (sub32 buffer.size buffer.start) buffer.data buffer.start
  -- ptr = ram_console_old_log + old_log_size;
  let ptr := old_log_size
  -- memcpy(ptr, strbuf, strbuf_len); ptr += strbuf_len;
  let log := match cfg with
    | none => log
    | some _ => memcpy log ptr strbuf strbuf_len
  let ptr := ptr + strbuf_len
  -- if (bootinfo) { memcpy(ptr, label, strlen(label)); ptr += strlen(label);
  --                 memcpy(ptr, bootinfo, bootinfo_size); ptr += bootinfo_size; }
  match bootinfo with
  | none => log
  | some b =>
    let log := memcpy log ptr BOOT_INFO_LABEL (strlen BOOT_INFO_LABEL)
    memcpy log (ptr + strlen BOOT_INFO_LABEL) b
      (save_old_bootinfo_size BOOT_INFO_LABEL bootinfo)

/-- The export buffer `ram_console_save_old` works with: `dest` when the
caller passed one, otherwise the result of `kmalloc(total_size)`. -/
def save_old_dest (kmalloc : Nat → Option (List Nat)) (total_size : Nat)
    (dest : Option (List Nat)) : Option (List Nat) :=
  match dest with
  | some d => some d
  | none => kmalloc total_size

/-- The function `ram_console_save_old(buffer, bootinfo, dest)`.
`BOOT_INFO_LABEL` is the label macro, `kmalloc n` is the allocator (`none`
for a NULL return, otherwise the uninitialised block), `bootinfo` and `dest`
are `none` for NULL pointers; `bootinfo` is the memory at the pointer, the
string ending at its first NUL. -/
def ram_console_save_old (cfg : Option ecc_config) (BOOT_INFO_LABEL : List Nat)
    (kmalloc : Nat → Option (List Nat)) (st : ram_console_state)
    (bootinfo : Option (List Nat)) (dest : Option (List Nat)) : ram_console_state :=
  -- error-correction pass over the data blocks, diagnostic line
  let st1 := save_old_decode cfg st
  let total_size := save_old_total_size cfg BOOT_INFO_LABEL st1 bootinfo
  -- if (dest == NULL) { dest = kmalloc(total_size, GFP_KERNEL); if (dest == NULL) return; }
  match save_old_dest kmalloc total_size dest with
  | none => st1
  | some d =>
    -- ram_console_old_log = dest; ram_console_old_log_size = total_size; memcpy ...
    { st1 with
      old_log := some (save_old_fill cfg BOOT_INFO_LABEL st1 bootinfo d)
      old_log_size := total_size }

/-- The statics of the driver before `ram_console_init` runs (zeroed). -/
def initial_statics : ram_console_state :=
  { buffer := ⟨⟨0, 0, 0, boot_stat_zero, ⟨[], []⟩⟩, []⟩
    installed := false
    buffer_size := 0
    par_buffer := []
    rs_decoder := none
    corrected_bytes := 0
    bad_blocks := 0
    first_boot := false
    old_log := none
    old_log_size := 0
    recorded := false
    console_registered := false }

/-- The set-up part of `ram_console_init` (lines up to the signature test):
install the buffer, compute the data capacity, and with error correction
set aside the parity area, obtain the decoder and run the header through
it. The region is the header `hdr` followed by the bytes `mem`;
`sizeof_buffer` is `sizeof(struct ram_console_buffer)`. The result is
`Except.error` with the statics as they stand when the function returns
early, `Except.ok` when it goes on to the signature test. -/
def ram_console_setup (cfg : Option ecc_config) (sizeof_buffer : Nat)
    (hdr : ram_console_header) (mem : List Nat) (buffer_size : Nat) :
    Except ram_console_state ram_console_state :=
  -- ram_console_buffer = buffer; ram_console_buffer_size = buffer_size - sizeof(...);
  let C0 := sub32 buffer_size sizeof_buffer
  let st : ram_console_state :=
    { initial_statics with buffer := ⟨hdr, mem⟩, installed := true, buffer_size := C0 }
  -- if (ram_console_buffer_size > buffer_size) return 0;
  if C0 > buffer_size then .error st
  else
    match cfg with
    | none => .ok st
    | some c =>
      -- ram_console_buffer_size -= (DIV_ROUND_UP(size, ECC_BLOCK_SIZE) + 1) * ECC_SIZE;
      let C1 := sub32 C0 (((DIV_ROUND_UP C0 c.ECC_BLOCK_SIZE + 1) * c.ECC_SIZE) % U32)
      let st := { st with buffer_size := C1 }
      if C1 > buffer_size then .error st
      else
        -- ram_console_par_buffer = buffer->data + ram_console_buffer_size;
        let st := { st with buffer := ⟨hdr, mem.take C1⟩, par_buffer := mem.drop C1 }
        -- ram_console_rs_decoder = init_rs(...); if (== NULL) return 0;
        match c.init_rs with
        | none => .error st
        | some rs =>
          let st := { st with rs_decoder := some rs, corrected_bytes := 0, bad_blocks := 0 }
          let par := DIV_ROUND_UP C1 c.ECC_BLOCK_SIZE * c.ECC_SIZE
          -- numerr = ram_console_decode_rs8(buffer, sizeof(*buffer), par);
          let r := ram_console_decode_rs8 c (some rs) (c.hdr_bytes hdr)
            (bytes_at st.par_buffer par c.ECC_SIZE)
          let st := { st with buffer := { st.buffer with toram_console_header := c.hdr_of_bytes r.2 } }
          if r.1 > 0 then .ok { st with corrected_bytes := st.corrected_bytes + r.1 }
          else if r.1 < 0 then .ok { st with bad_blocks := st.bad_blocks + 1 }
          else .ok st

/-- The second part of `ram_console_init`, from the signature test on:
recover the old log when the header is valid, reset the header, register
the console, and run `init_boot_reason`. -/
def ram_console_recover (cfg : Option ecc_config) (BOOT_INFO_LABEL : List Nat)
    (kmalloc : Nat → Option (List Nat)) (reset_reason : Nat) (st : ram_console_state)
    (bootinfo : Option (List Nat)) (old_buf : Option (List Nat)) : ram_console_state :=
  let st1 : ram_console_state :=
    if st.buffer.sig = RAM_CONSOLE_SIG then
      if st.buffer.size > st.buffer_size ∨ st.buffer.start > st.buffer.size then st
      else ram_console_save_old cfg BOOT_INFO_LABEL kmalloc st bootinfo old_buf
    else { st with first_boot := true }
  -- buffer->sig = RAM_CONSOLE_SIG; buffer->start = 0; buffer->size = 0;
  let st2 : ram_console_state :=
    { st1 with buffer := { st1.buffer with sig := RAM_CONSOLE_SIG, start := 0, size := 0 } }
  -- register_console(&ram_console);
  let st3 : ram_console_state := { st2 with console_registered := true }
  init_boot_reason reset_reason st3

/-- The function `ram_console_init(buffer, buffer_size, bootinfo, old_buf)`:
the statics it leaves behind. Console output that the kernel routes back
into the buffer while the function runs (the replay by `register_console`,
the `pr_info` lines) belongs to the console layer and is not part of it. -/
def ram_console_init (cfg : Option ecc_config) (sizeof_buffer : Nat)
    (BOOT_INFO_LABEL : List Nat) (kmalloc : Nat → Option (List Nat)) (reset_reason : Nat)
    (hdr : ram_console_header) (mem : List Nat) (buffer_size : Nat)
    (bootinfo : Option (List Nat)) (old_buf : Option (List Nat)) : ram_console_state :=
  match ram_console_setup cfg sizeof_buffer hdr mem buffer_size with
  | .error st => st
  | .ok st => ram_console_recover cfg BOOT_INFO_LABEL kmalloc reset_reason st bootinfo old_buf

/-- Both size checks of `ram_console_init` pass: the data size left after
the header, and with error correction the data size left after the parity
area, do not exceed `buffer_size`. -/
def region_accepted (cfg : Option ecc_config) (sizeof_buffer buffer_size : Nat) : Prop :=
  sub32 buffer_size sizeof_buffer ≤ buffer_size ∧
  ∀ c, cfg = some c →
    sub32 (sub32 buffer_size sizeof_buffer)
      (((DIV_ROUND_UP (sub32 buffer_size sizeof_buffer) c.ECC_BLOCK_SIZE + 1) * c.ECC_SIZE) % U32)
      ≤ buffer_size

/-- With error correction compiled in, `init_rs` returned a decoder. -/
def decoder_obtained (cfg : Option ecc_config) : Prop :=
  ∀ c, cfg = some c → c.init_rs ≠ none

/-- An error-correction configuration (16-byte blocks, 4 parity bytes) in
which `init_rs` returns NULL. -/
def ecc_without_decoder : ecc_config :=
  { ECC_BLOCK_SIZE := 16
    ECC_SIZE := 4
    block_pos := by decide
    init_rs := none
    hdr_bytes := fun _ => []
    hdr_of_bytes := fun _ => ⟨0, 0, 0, boot_stat_zero, ⟨[], []⟩⟩ }

/-- A persisted header with a valid signature holding a four-byte log that
has wrapped once (`start = 2`, `size = 4`). -/
def sample_header : ram_console_header :=
  ⟨RAM_CONSOLE_SIG, 2, 4, boot_stat_zero, ⟨[], []⟩⟩

/-- An allocator that always succeeds, handing out zeroed blocks. -/
def kmalloc_ok (n : Nat) : Option (List Nat) := some (List.replicate n 0)

/-- An allocator that always fails. -/
def kmalloc_fail (_n : Nat) : Option (List Nat) := none

/-- A boot-stat record of a running session whose `OOPS_RESTART` counter
is at the largest 64-bit value. -/
def saturated_stat : boot_stat :=
  ⟨(SW_RESTART : Int), (UNKNOWN_REASON : Int), fun i => if i = OOPS_RESTART then U64 - 1 else 0⟩

/-- The statics of a running session over `saturated_stat` in which
`record_boot_reason` has not been called yet. -/
def saturated_session : ram_console_state :=
  { initial_statics with
    buffer := ⟨⟨RAM_CONSOLE_SIG, 0, 0, saturated_stat, ⟨[], []⟩⟩, []⟩
    installed := true }

/-- A boot-stat record of a running session with `count[OOPS_RESTART] = 2`
(Scenario C of the specification). -/
def scenario_stat : boot_stat :=
  ⟨(SW_RESTART : Int), (UNKNOWN_REASON : Int), fun i => if i = OOPS_RESTART then 2 else 0⟩

/-- The statics of a running session over `scenario_stat` in which
`record_boot_reason` has not been called yet. -/
def scenario_session : ram_console_state :=
  { initial_statics with
    buffer := ⟨⟨RAM_CONSOLE_SIG, 0, 0, scenario_stat, ⟨[], []⟩⟩, []⟩
    installed := true }

/-- A persisted header with a valid signature whose `size` (100) exceeds the
72-byte capacity of the sample region, left by a session that recorded an
oops: pending reason `OOPS_RESTART`, `count[OOPS_RESTART] = 3`. -/
def stale_cursor_header : ram_console_header :=
  ⟨RAM_CONSOLE_SIG, 2, 100,
    ⟨(SW_RESTART : Int), (OOPS_RESTART : Int), fun i => if i = OOPS_RESTART then 3 else 0⟩,
    ⟨[], []⟩⟩

/-- A persisted header whose pending reason (99) is outside the enum, with
a valid signature and `count[OOPS_RESTART] = 3`. -/
def corrupt_reason_header : ram_console_header :=
  ⟨RAM_CONSOLE_SIG, 0, 0,
    ⟨(SW_RESTART : Int), 99, fun i => if i = OOPS_RESTART then 3 else 0⟩,
    ⟨[], []⟩⟩

/-- Little-endian bytes of an unsigned integer of `w` bytes. -/
def le_bytes (w n : Nat) : List Nat := (List.range w).map (fun i => (n / 256 ^ i) % 256)

/-- The unsigned integer with the given little-endian bytes. -/
def le_value (bytes : List Nat) : Nat := bytes.foldr (fun b acc => b + 256 * acc) 0

/-- The two's-complement 32-bit pattern of an `int`. -/
def int_bits (r : Int) : Nat := (r % 4294967296).toNat

/-- The `int` with the given two's-complement 32-bit pattern. -/
def int_of_bits (v : Nat) : Int := if v < 2147483648 then (v : Int) else (v : Int) - 4294967296

/-- A text field of `w` bytes: the text cut or zero-padded to `w`. -/
def text_field (w : Nat) (t : List Nat) : List Nat := (List.range w).map (fun i => t.getD i 0)

/-- The memory image of the header on the 32-bit ARM EABI target (184
bytes): `sig`, `start`, `size` at offsets 0, 4, 8; four bytes of padding;
`bs.reason`, `bs.new_reason` at 16, 20; the fifteen 64-bit counters from 24;
the two 20-byte time fields at 144 and 164. -/
def arm_hdr_bytes (h : ram_console_header) : List Nat :=
  le_bytes 4 h.sig ++ le_bytes 4 h.start ++ le_bytes 4 h.size ++ [0, 0, 0, 0]
    ++ le_bytes 4 (int_bits h.bs.reason) ++ le_bytes 4 (int_bits h.bs.new_reason)
    ++ (List.range END_REASON).flatMap (fun i => le_bytes 8 (h.bs.count i))
    ++ text_field 20 h.ti.boot_time ++ text_field 20 h.ti.update_time

/-- The header denoted by a memory image laid out as in `arm_hdr_bytes`. -/
def arm_hdr_of_bytes (b : List Nat) : ram_console_header :=
  { sig := le_value (bytes_at b 0 4)
    start := le_value (bytes_at b 4 4)
    size := le_value (bytes_at b 8 4)
    bs :=
      { reason := int_of_bits (le_value (bytes_at b 16 4))
        new_reason := int_of_bits (le_value (bytes_at b 20 4))
        count := fun i => if i < END_REASON then le_value (bytes_at b (24 + 8 * i) 8) else 0 }
    ti := ⟨bytes_at b 144 20, bytes_at b 164 20⟩ }

/-- The errno `EBADMSG`, returned negated by the decoder for an
uncorrectable block. -/
def EBADMSG : Int := 74

/-- A stand-in decoder for concrete runs: every parity symbol is the byte
sum of the data, and decoding accepts a block whose parity matches and
reports any other block as uncorrectable. -/
def checksum_rs : rs_control :=
  { encode_rs8 := fun data par => par.map (fun _ => data.sum % 256)
    decode_rs8 := fun data par =>
      if par = par.map (fun _ => data.sum % 256) then (0, data) else (-EBADMSG, data) }

/-- An error-correction configuration for concrete runs: 16-byte blocks,
4 parity bytes, the stand-in decoder, and the ARM layout of the header. -/
def sample_ecc : ecc_config :=
  { ECC_BLOCK_SIZE := 16
    ECC_SIZE := 4
    block_pos := by decide
    init_rs := some checksum_rs
    hdr_bytes := arm_hdr_bytes
    hdr_of_bytes := arm_hdr_of_bytes }

/-- The number the decoder returns for data block `j` of the data region
`data` (capacity `C`): the block is `data[j * blockSize ..]`, of length
`blockSize` or what is left of the region, with the parity group `j` of
`par_buffer`. -/
def block_decode_result (c : ecc_config) (rs : Option rs_control) (C : Nat) (data : List Nat)
    (par_buffer : List Nat) (j : Nat) : Int :=
  (ram_console_decode_rs8 c rs
    (bytes_at data (j * c.ECC_BLOCK_SIZE) (min c.ECC_BLOCK_SIZE (C - j * c.ECC_BLOCK_SIZE)))
    (bytes_at par_buffer (j * c.ECC_SIZE) c.ECC_SIZE)).1

/-- The number the decoder returns for the header block, whose parity group
follows those of the data blocks. -/
def header_decode_result (c : ecc_config) (rs : Option rs_control) (C : Nat)
    (hdr : ram_console_header) (par_buffer : List Nat) : Int :=
  (ram_console_decode_rs8 c rs (c.hdr_bytes hdr)
    (bytes_at par_buffer (DIV_ROUND_UP C c.ECC_BLOCK_SIZE * c.ECC_SIZE) c.ECC_SIZE)).1

/-- The sum of the positive entries of a list of decode results. -/
def positive_sum (results : List Int) : Int := (results.filter (fun r => r > 0)).sum

/-- The number of negative entries of a list of decode results. -/
def negative_count (results : List Int) : Int := ((results.filter (fun r => r < 0)).length : Int)

/-- The state `ram_console_setup` leaves for the sample error-correcting
build over a 256-byte region whose data and parity bytes are all zero. -/
def sample_ecc_setup : ram_console_state :=
  match ram_console_setup (some sample_ecc) 184 sample_header (List.replicate 72 0) 256 with
  | .ok s => s
  | .error s => s

/-- The table `boot_reason_str[END_REASON][20]`. -/
def boot_reason_str (r : Nat) : List Nat :=
  cstr (["fresh boot", "software reboot", "oops reboot", "panic reboot", "halt reboot",
    "poweroff reboot", "kexec reboot", "emerg reboot", "warm reset", "watchdog reset",
    "external reset", "sleep wakeup", "deep idle wakeup", "deep stop wakeup",
    "unknow reason"].getD r "")

/-- The text `%s` prints for the memory at a pointer: the bytes up to the
first NUL. -/
def printf_s (mem : List Nat) : List Nat := mem.takeWhile (fun b => b != 0)

/-- The text of the format `"%d, %s, %llu\n"`. -/
def boot_stat_line (r : Int) (str : List Nat) (count : Nat) : List Nat :=
  cstr (toString r) ++ cstr ", " ++ printf_s str ++ cstr ", " ++ cstr (toString count)
    ++ cstr "\n"

/-- The errno `EFAULT`. -/
def EFAULT : Int := 14

/-- The function `boot_stat_show(m, v)`: the boot-stat record it leaves, the
text it appends to the sequence file `m`, and its return value. The two
labels are the texts of the macros `BOOT_FROM_LABEL` and `BOOT_STAT_LABEL`. -/
def boot_stat_show (BOOT_FROM_LABEL BOOT_STAT_LABEL : List Nat) (bs : boot_stat) :
    boot_stat × List Nat × Int :=
  -- reason = get_current_boot_reason();
  let reason := bs.reason
  -- if (reason < FRESH_BOOT || reason >= END_REASON) { memset; inc(UNKNOWN); return -EFAULT; }
  if reason < (FRESH_BOOT : Int) ∨ reason ≥ (END_REASON : Int) then
    (inc_boot_reason UNKNOWN_REASON boot_stat_zero, [], -EFAULT)
  else
    let reason_str := boot_reason_str reason.toNat
    let count := bs.count reason.toNat
    -- seq_printf(m, BOOT_FROM_LABEL "%d, %s, %llu\n", reason, reason_str, count);
    let m := BOOT_FROM_LABEL ++ boot_stat_line reason reason_str count
    -- seq_printf(m, BOOT_STAT_LABEL);
    let m := m ++ BOOT_STAT_LABEL
    -- for (i = FRESH_BOOT; i < END_REASON; i++) seq_printf(m, "%d, %s, %llu\n", ...);
    let m := m ++ ((List.range END_REASON).map
      (fun (i : Nat) => boot_stat_line (i : Int) (boot_reason_str i) (bs.count i))).flatten
    (bs, m, 0)

/-- The texts of the label macros used by `last_kmsg_show` and of the string
`RAM_CONSOLE_BOOT_INFO` (all defined outside this file). -/
structure report_labels where
  TIME_INFO_LABEL : List Nat
  BOOT_INFO_LABEL : List Nat
  RAM_CONSOLE_BOOT_INFO : List Nat
  BOOT_PARM_LABEL : List Nat
  BOOT_FROM_LABEL : List Nat
  BOOT_STAT_LABEL : List Nat
  BOOT_KMSG_LABEL : List Nat

/-- The function `last_kmsg_show(m, v)`: the boot-stat record it leaves and
the text it appends to the sequence file. `ti` is `last_time_info`,
`dump_time` the string `get_std_time` produced, `saved_command_line` the
kernel command line, and `old_log` the memory at the pointer
`ram_console_old_log` (the export buffer followed by what lies behind it);
the proc entry with this function exists only when that pointer is not
NULL. -/
def last_kmsg_show (L : report_labels) (ti : time_info)
    (dump_time saved_command_line : List Nat) (bs : boot_stat) (old_log : List Nat) :
    boot_stat × List Nat :=
  -- seq_printf(m, TIME_INFO_LABEL "Boot@%s; Update@%s; Dump@%s\n", ...);
  let m := L.TIME_INFO_LABEL ++ cstr "Boot@" ++ printf_s ti.boot_time ++ cstr "; Update@"
    ++ printf_s ti.update_time ++ cstr "; Dump@" ++ printf_s dump_time ++ cstr "\n"
  -- seq_printf(m, BOOT_INFO_LABEL "%s", RAM_CONSOLE_BOOT_INFO);
  let m := m ++ L.BOOT_INFO_LABEL ++ printf_s L.RAM_CONSOLE_BOOT_INFO
  -- seq_printf(m, BOOT_PARM_LABEL "%s\n", saved_command_line);
  let m := m ++ L.BOOT_PARM_LABEL ++ printf_s saved_command_line ++ cstr "\n"
  -- boot_stat_show(m, v);
  let r := boot_stat_show L.BOOT_FROM_LABEL L.BOOT_STAT_LABEL bs
  let m := m ++ r.2.1
  -- seq_printf(m, BOOT_KMSG_LABEL);
  let m := m ++ L.BOOT_KMSG_LABEL
  -- p = ram_console_old_log; while (*p == ' ') p++;
  let p := old_log.dropWhile (fun b => b == 32)
  -- seq_printf(m, "%s", p);
  (r.1, m ++ printf_s p)

/-- Sample label texts for the report. -/
def sample_labels : report_labels :=
  ⟨cstr "T:", cstr "I:", cstr "info\n", cstr "P:", cstr "F:", cstr "S:\n", cstr "K:\n"⟩

/-- A header over a log of the three bytes "ab\n" that did not wrap. -/
def logged_header : ram_console_header :=
  ⟨RAM_CONSOLE_SIG, 3, 3, boot_stat_zero, ⟨[], []⟩⟩

/-- The 72 bytes behind the header of a 256-byte sample region: 48 data
bytes holding the log "ab\n", then six parity groups of four bytes, of
which group 0 (first data block) and group 3 (header) carry the byte sums
the stand-in decoder expects. -/
def logged_memory : List Nat :=
  cstr "ab\n" ++ List.replicate 45 0 ++ [205, 205, 205, 205] ++ List.replicate 8 0
    ++ [22, 22, 22, 22] ++ List.replicate 8 0

/-- The state `ram_console_setup` leaves for the sample error-correcting
build over the region made of `logged_header` and `logged_memory`. -/
def logged_setup : ram_console_state :=
  match ram_console_setup (some sample_ecc) 184 logged_header logged_memory 256 with
  | .ok s => s
  | .error s => s

/-- The `memcpy(buffer->data + buffer->start, s, count)` calls that
`ram_console_write` makes through `ram_console_update`, in order: for each
call the destination offset in the data region, the source, and the length.
There are two when the write runs over the end of the region (`rem < count`)
and one otherwise. -/
def ram_console_write_copies (st : ram_console_state) (s : List Nat) (count : Nat) :
    List (Nat × List Nat × Nat) :=
  let s1 := if count > st.buffer_size then s.drop (sub32 count st.buffer_size) else s
  let count1 := if count > st.buffer_size then st.buffer_size else count
  let rem := sub32 st.buffer_size st.buffer.start
  if rem < count1 then
    [(st.buffer.start, s1, rem), (0, s1.drop rem, sub32 count1 rem)]
  else [(st.buffer.start, s1, count1)]

/-- A session of the sample error-correcting build that has logged 46 bytes
into its 48-byte data region: the next write of more than two bytes runs
over the end of the region. -/
def parity_session : ram_console_state :=
  console_write (some sample_ecc)
    (ram_console_init (some sample_ecc) 184 [] kmalloc_ok 1 logged_header logged_memory 256
      none none)
    (List.replicate 46 120)

/-! ## The Reed-Solomon library -/

/-- Modelled from the spec: the symbol alphabet of the ECC codec, which the
Reed-Solomon library (`lib/reed_solomon`, reached through `linux/rslib.h`)
builds in `init_rs` and which is not among the source files. The spec says
the codec "operates over a Galois-field symbol alphabet sized by a
configured symbol width and generator polynomial": `F` is the field,
`symsize` the symbol width, `sym` reads a stored symbol as a field element
and `val` is the stored form of an element, a number below `2 ^ symsize`;
`alpha` is the primitive element and `elems` lists the elements. -/
structure galois_field where
  F : Type
  inst_field : Field F
  inst_deq : DecidableEq F
  symsize : Nat
  sym : Nat → F
  val : F → Nat
  sym_val : ∀ x : F, sym (val x) = x
  sym_zero : sym 0 = 0
  val_lt : ∀ x : F, val x < 2 ^ symsize
  alpha : F
  elems : List F

instance (G : galois_field) : Field G.F := G.inst_field

instance (G : galois_field) : DecidableEq G.F := G.inst_deq

/-- Modelled from the spec: part of the codec of the absent Reed-Solomon
library, the value at `x` of the polynomial with the coefficients `coeffs`,
highest degree first. -/
def rs_eval (G : galois_field) (coeffs : List G.F) (x : G.F) : G.F :=
  coeffs.foldl (fun acc c => acc * x + c) 0

/-- Modelled from the spec: the roots of the generator polynomial of the
codec. The call `init_rs(ECC_SYMSIZE, ECC_POLY, 0, 1, ECC_SIZE)` in
`ram_console_init` asks for `ECC_SIZE` roots, first consecutive root 0 and
primitive element 1 to generate them: `alpha ^ 0, alpha ^ 1, ...`. -/
def rs_roots (G : galois_field) (nroots : Nat) : List G.F :=
  (List.range nroots).map (fun i => G.alpha ^ i)

/-- Modelled from the spec: part of the codec of the absent Reed-Solomon
library, the product of a monic polynomial and `x - root`; a monic
polynomial is given by its coefficients below the leading one, highest
degree first. -/
def rs_mul_root (G : galois_field) (t : List G.F) (root : G.F) : List G.F :=
  List.zipWith (fun a b => a - b) (t ++ [0]) (root :: t.map (fun c => root * c))

/-- Modelled from the spec: the generator polynomial of the codec, the monic
polynomial whose roots are `rs_roots`, as its `nroots` coefficients below
the leading one. -/
def rs_genpoly (G : galois_field) (nroots : Nat) : List G.F :=
  (rs_roots G nroots).foldl (rs_mul_root G) []

/-- Modelled from the spec: one step of the systematic encoder of the absent
Reed-Solomon library, the parity registers `par` (highest degree first)
after the data symbol `d` went in. -/
def rs_encode_step (G : galois_field) (gen : List G.F) (par : List G.F) (d : G.F) : List G.F :=
  let fb := d - par.headD 0
  List.zipWith (fun a b => a + b) (par.tail ++ [0]) (gen.map (fun g => fb * g))

/-- Modelled from the spec: the library function `encode_rs8` (not among the
source files), `encode(block) -> parity` of the codec: the parity symbols
are the remainder of the data polynomial, shifted by `nroots` places, modulo
the generator polynomial, computed one data symbol at a time starting from
the registers `par` the caller passes. -/
def encode_rs8 (G : galois_field) (nroots : Nat) (data : List Nat) (par : List Nat) :
    List Nat :=
  ((data.map G.sym).foldl (rs_encode_step G (rs_genpoly G nroots)) (par.map G.sym)).map G.val

/-- Modelled from the spec: part of the decoder of the absent Reed-Solomon
library, the syndromes of a received word (data symbols, then parity
symbols): its values at the roots of the generator polynomial. -/
def rs_syndromes (G : galois_field) (nroots : Nat) (word : List G.F) : List G.F :=
  (rs_roots G nroots).map (rs_eval G word)

/-- Modelled from the spec: part of the decoder of the absent Reed-Solomon
library, the words that differ from `word` in at most `t` symbols, each
with the number of symbols changed. -/
def rs_variants (G : galois_field) : Nat → List G.F → List (Nat × List G.F)
  | _, [] => [(0, [])]
  | 0, x :: xs => [(0, x :: xs)]
  | t + 1, x :: xs =>
    (rs_variants G (t + 1) xs).map (fun p => (p.1, x :: p.2))
      ++ (G.elems.filter (fun v => v ≠ x)).flatMap
          (fun v => (rs_variants G t xs).map (fun p => (p.1 + 1, v :: p.2)))

/-- Modelled from the spec: the library function `decode_rs8` (not among the
source files), `decode(block, parity) -> Result<correctedCount,
Uncorrectable>` of the codec. A word whose syndromes are all zero has no
error: the count is 0 and the block is left alone. Otherwise the decoder
"corrects up to `t` symbol errors per block", `t = eccSize / 2`: the block
becomes the data part of the code word that differs from the received word
in the fewest symbols, at most `t`, and the count is that number; when there
is none the block is uncorrectable and the result is `-EBADMSG`. -/
def decode_rs8 (G : galois_field) (nroots : Nat) (data : List Nat) (par : List Nat) :
    Int × List Nat :=
  let word := data.map G.sym ++ par.map G.sym
  if (rs_syndromes G nroots word).all (fun s => s = 0) then (0, data)
  else
    let found := (rs_variants G (nroots / 2) word).filter
      (fun p => (rs_syndromes G nroots p.2).all (fun s => s = 0))
    let best := found.foldl
      (fun (b : Option (Nat × List G.F)) p =>
        match b with
        | none => some p
        | some q => if p.1 < q.1 then some p else some q) none
    match best with
    | none => (-EBADMSG, data)
    | some p => ((p.1 : Int), (p.2.take data.length).map G.val)

/-- Modelled from the spec: the control block `init_rs` returns, with the
two library functions the driver calls through it. -/
def rs_codec (G : galois_field) (nroots : Nat) : rs_control :=
  { encode_rs8 := encode_rs8 G nroots
    decode_rs8 := decode_rs8 G nroots }

/-- The four elements of the field with four elements: 0, 1, a root `a` of
`x^2 + x + 1`, and `a + 1`. -/
inductive gf4 where
  | o
  | i
  | a
  | b
  deriving DecidableEq

/-- Addition in the field with four elements. -/
def gf4.add : gf4 → gf4 → gf4
  | .o, y => y
  | x, .o => x
  | .i, .i => .o
  | .i, .a => .b
  | .i, .b => .a
  | .a, .i => .b
  | .a, .a => .o
  | .a, .b => .i
  | .b, .i => .a
  | .b, .a => .i
  | .b, .b => .o

/-- Multiplication in the field with four elements. -/
def gf4.mul : gf4 → gf4 → gf4
  | .o, _ => .o
  | _, .o => .o
  | .i, y => y
  | x, .i => x
  | .a, .a => .b
  | .a, .b => .i
  | .b, .a => .i
  | .b, .b => .a

/-- Inverses in the field with four elements (`0` is sent to `0`). -/
def gf4.inv : gf4 → gf4
  | .o => .o
  | .i => .i
  | .a => .b
  | .b => .a

instance : Add gf4 := ⟨gf4.add⟩

instance : Mul gf4 := ⟨gf4.mul⟩

instance : Zero gf4 := ⟨.o⟩

instance : One gf4 := ⟨.i⟩

instance : Neg gf4 := ⟨id⟩

instance : Inv gf4 := ⟨gf4.inv⟩

instance : CommRing gf4 where
  add_assoc := by
    intro x y z
    show gf4.add (gf4.add x y) z = gf4.add x (gf4.add y z)
    cases x <;> cases y <;> cases z <;> rfl
  zero_add := by intro x; show gf4.add .o x = x; cases x <;> rfl
  add_zero := by intro x; show gf4.add x .o = x; cases x <;> rfl
  add_comm := by intro x y; show gf4.add x y = gf4.add y x; cases x <;> cases y <;> rfl
  neg_add_cancel := by intro x; show gf4.add (id x) x = .o; cases x <;> rfl
  mul_assoc := by
    intro x y z
    show gf4.mul (gf4.mul x y) z = gf4.mul x (gf4.mul y z)
    cases x <;> cases y <;> cases z <;> rfl
  one_mul := by intro x; show gf4.mul .i x = x; cases x <;> rfl
  mul_one := by intro x; show gf4.mul x .i = x; cases x <;> rfl
  mul_comm := by intro x y; show gf4.mul x y = gf4.mul y x; cases x <;> cases y <;> rfl
  left_distrib := by
    intro x y z
    show gf4.mul x (gf4.add y z) = gf4.add (gf4.mul x y) (gf4.mul x z)
    cases x <;> cases y <;> cases z <;> rfl
  right_distrib := by
    intro x y z
    show gf4.mul (gf4.add x y) z = gf4.add (gf4.mul x z) (gf4.mul y z)
    cases x <;> cases y <;> cases z <;> rfl
  zero_mul := by intro x; show gf4.mul .o x = .o; cases x <;> rfl
  mul_zero := by intro x; show gf4.mul x .o = .o; cases x <;> rfl
  nsmul := nsmulRec
  zsmul := zsmulRec

instance : Field gf4 where
  exists_pair_ne := ⟨gf4.o, gf4.i, by decide⟩
  mul_inv_cancel := by
    intro x hx
    show gf4.mul x (gf4.inv x) = .i
    cases x
    · exact absurd rfl hx
    · rfl
    · rfl
    · rfl
  inv_zero := rfl
  nnqsmul := _
  qsmul := _

/-- The field with four elements as a symbol alphabet: symbols are two bits
wide, `0, 1, 2, 3` standing for `0, 1, a, a + 1`, and a stored byte is read
by its two low bits; `a` is primitive. -/
def gf4_symbols : galois_field :=
  { F := gf4
    inst_field := inferInstance
    inst_deq := inferInstance
    symsize := 2
    sym := fun n => match n % 4 with
      | 0 => .o
      | 1 => .i
      | 2 => .a
      | _ => .b
    val := fun x => match x with
      | .o => 0
      | .i => 1
      | .a => 2
      | .b => 3
    sym_val := by intro x; cases x <;> rfl
    sym_zero := rfl
    val_lt := by intro x; cases x <;> decide
    alpha := .a
    elems := [.o, .i, .a, .b] }

/-- A configuration with the Reed-Solomon codec over the field with four
elements: one data byte per block, two parity symbols. -/
def gf4_ecc : ecc_config :=
  { ECC_BLOCK_SIZE := 1
    ECC_SIZE := 2
    block_pos := by decide
    init_rs := some (rs_codec gf4_symbols 2)
    hdr_bytes := arm_hdr_bytes
    hdr_of_bytes := arm_hdr_of_bytes }

/-- The `memcpy` calls of `ram_console_save_old` into the export buffer, in
order: for each call the destination offset in the buffer, the source, and
the length. `st1` is the state after the error-correction pass. -/
def save_old_copies (cfg : Option ecc_config) (BOOT_INFO_LABEL : List Nat)
    (st1 : ram_console_state) (bootinfo : Option (List Nat)) : List (Nat × List Nat × Nat) :=
  let buffer := st1.buffer
  let strbuf := save_old_strbuf cfg st1
  -- ptr = ram_console_old_log + old_log_size; ... ptr += strbuf_len;
  let ptr := buffer.size + strbuf.length
  [(0, buffer.data.drop buffer.start, sub32 buffer.size buffer.start),
    (sub32 buffer.size buffer.start, buffer.data, buffer.start)]
    ++ (match cfg with
      | none => []
      | some _ => [(buffer.size, strbuf, strbuf.length)])
    ++ (match bootinfo with
      | none => []
      | some b =>
        [(ptr, BOOT_INFO_LABEL, strlen BOOT_INFO_LABEL),
          (ptr + strlen BOOT_INFO_LABEL, b, save_old_bootinfo_size BOOT_INFO_LABEL bootinfo)])

/-- An already-reset header: valid signature, `start = 0`, `size = 0`. -/
def reset_header : ram_console_header :=
  ⟨RAM_CONSOLE_SIG, 0, 0, boot_stat_zero, ⟨[], []⟩⟩

/-- The 72 bytes behind `reset_header` in a 256-byte sample region: 48 data
bytes, all zero, then six parity groups of four bytes, of which group 3
(the header's) carries the byte sum the stand-in decoder expects for
`reset_header`. -/
def reset_memory : List Nat :=
  List.replicate 48 0 ++ List.replicate 12 0 ++ [16, 16, 16, 16] ++ List.replicate 8 0

/-! ## Basic facts about the helpers -/

theorem memcpy_of_le (dst : List Nat) (off : Nat) (src : List Nat) (n : Nat)
    (h : n ≤ src.length) :
    memcpy dst off src n = dst.take off ++ src.take n ++ dst.drop (off + n) := by
  unfold memcpy
  congr 2
  apply List.ext_getElem
  · simp [h]
  · intro i h1 h2
    simp at h1 h2
    simp [List.getD_eq_getElem?_getD, List.getElem?_eq_getElem (by omega : i < src.length)]

/-- The writer's re-encoding loop does not depend on the fuel once there is
enough of it: it ends because `block` reached `start + count`. -/
theorem update_loop_fuel (c : ecc_config) (rs : Option rs_control) (bsz : Nat)
    (data : List Nat) (limit : Nat) :
    ∀ (f f' block size par : Nat) (pb : List Nat), limit - block < f → limit - block < f' →
      ram_console_update_loop c rs bsz data limit f block size par pb
        = ram_console_update_loop c rs bsz data limit f' block size par pb := by
  intro f
  induction f with
  | zero => intro f' block size par pb h; omega
  | succ n ih =>
    intro f' block size par pb h h'
    cases f' with
    | zero => omega
    | succ m =>
      simp only [ram_console_update_loop]
      by_cases hc : block + c.ECC_BLOCK_SIZE < limit
      · rw [if_pos hc, if_pos hc]
        have := c.block_pos
        exact ih m _ _ _ _ (by omega) (by omega)
      · rw [if_neg hc, if_neg hc]

/-- The recovery decode loop does not depend on the fuel once there is
enough of it: it ends because `block` reached `size`. -/
theorem decode_loop_fuel (c : ecc_config) (rs : Option rs_control) (bsz size : Nat)
    (pb : List Nat) :
    ∀ (f f' block par : Nat) (acc : List Nat × Int × Int), size - block ≤ f →
      size - block ≤ f' →
      save_old_decode_loop c rs bsz size pb f block par acc
        = save_old_decode_loop c rs bsz size pb f' block par acc := by
  intro f
  induction f with
  | zero =>
    intro f' block par acc h _
    cases f' with
    | zero => rfl
    | succ m =>
      obtain ⟨data, corrected, bad⟩ := acc
      simp only [save_old_decode_loop]
      rw [if_neg (by omega)]
  | succ n ih =>
    intro f' block par acc h h'
    obtain ⟨data, corrected, bad⟩ := acc
    cases f' with
    | zero =>
      simp only [save_old_decode_loop]
      rw [if_neg (by omega)]
    | succ m =>
      simp only [save_old_decode_loop]
      by_cases hc : block < size
      · rw [if_pos hc, if_pos hc]
        have := c.block_pos
        exact ih m _ _ _ (by omega) (by omega)
      · rw [if_neg hc, if_neg hc]

@[simp] theorem update_buffer_size (cfg : Option ecc_config) (st : ram_console_state)
    (s : List Nat) (count : Nat) :
    (ram_console_update cfg st s count).buffer_size = st.buffer_size := by
  unfold ram_console_update; cases cfg <;> rfl

@[simp] theorem update_start (cfg : Option ecc_config) (st : ram_console_state)
    (s : List Nat) (count : Nat) :
    (ram_console_update cfg st s count).buffer.start = st.buffer.start := by
  unfold ram_console_update; cases cfg <;> rfl

@[simp] theorem update_size (cfg : Option ecc_config) (st : ram_console_state)
    (s : List Nat) (count : Nat) :
    (ram_console_update cfg st s count).buffer.size = st.buffer.size := by
  unfold ram_console_update; cases cfg <;> rfl

@[simp] theorem update_data (cfg : Option ecc_config) (st : ram_console_state)
    (s : List Nat) (count : Nat) :
    (ram_console_update cfg st s count).buffer.data
      = memcpy st.buffer.data st.buffer.start s count := by
  unfold ram_console_update; cases cfg <;> rfl

@[simp] theorem update_header_buffer (cfg : Option ecc_config) (st : ram_console_state) :
    (ram_console_update_header cfg st).buffer = st.buffer := by
  unfold ram_console_update_header; cases cfg <;> rfl

@[simp] theorem update_header_buffer_size (cfg : Option ecc_config) (st : ram_console_state) :
    (ram_console_update_header cfg st).buffer_size = st.buffer_size := by
  unfold ram_console_update_header; cases cfg <;> rfl

theorem write_truncate (cfg : Option ecc_config) (st : ram_console_state) (s : List Nat)
    (count : Nat) (h : count > st.buffer_size) (hc : count < U32) :
    ram_console_write cfg st s count
      = ram_console_write cfg st (s.drop (count - st.buffer_size)) st.buffer_size := by
  have e : sub32 count st.buffer_size = count - st.buffer_size := by
    simp only [sub32, U32] at *; omega
  unfold ram_console_write
  simp only [h, if_true, e, gt_iff_lt, lt_irrefl, if_false]

@[simp] theorem write_buffer_size (cfg : Option ecc_config) (st : ram_console_state)
    (s : List Nat) (count : Nat) :
    (ram_console_write cfg st s count).buffer_size = st.buffer_size := by
  unfold ram_console_write
  simp only [update_header_buffer_size]
  split_ifs <;> simp

theorem write_nowrap (cfg : Option ecc_config) (st : ram_console_state) (s : List Nat)
    (count : Nat) (h1 : count ≤ st.buffer_size)
    (h2 : ¬ sub32 st.buffer_size st.buffer.start < count) :
    (ram_console_write cfg st s count).buffer.start = add32 st.buffer.start count ∧
    (ram_console_write cfg st s count).buffer.size
      = (if st.buffer.size < st.buffer_size then add32 st.buffer.size count else st.buffer.size) ∧
    (ram_console_write cfg st s count).buffer.data = memcpy st.buffer.data st.buffer.start s count := by
  have h1' : ¬ count > st.buffer_size := by omega
  unfold ram_console_write
  simp only [h1', h2, if_false, update_header_buffer, update_buffer_size, update_size]
  split_ifs <;> simp

theorem write_wrap (cfg : Option ecc_config) (st : ram_console_state) (s : List Nat)
    (count : Nat) (h1 : count ≤ st.buffer_size) (cap : st.buffer_size < U32)
    (h2 : sub32 st.buffer_size st.buffer.start < count) :
    (ram_console_write cfg st s count).buffer.start
      = add32 0 (sub32 count (sub32 st.buffer_size st.buffer.start)) ∧
    (ram_console_write cfg st s count).buffer.size = st.buffer_size ∧
    (ram_console_write cfg st s count).buffer.data
      = memcpy (memcpy st.buffer.data st.buffer.start s (sub32 st.buffer_size st.buffer.start)) 0
          (s.drop (sub32 st.buffer_size st.buffer.start))
          (sub32 count (sub32 st.buffer_size st.buffer.start)) := by
  have h1' : ¬ count > st.buffer_size := by omega
  have e : st.buffer_size % U32 = st.buffer_size := Nat.mod_eq_of_lt cap
  unfold ram_console_write
  simp only [h1', h2, if_false, if_true, update_header_buffer, update_buffer_size, update_size, e,
    lt_irrefl]
  simp

theorem splice_take (D c : List Nat) (p : Nat) (h : p ≤ D.length) :
    (D.take p ++ c ++ D.drop (p + c.length)).take (p + c.length) = D.take p ++ c := by
  have : (D.take p ++ c).length = p + c.length := by simp [h]
  rw [← this, List.take_left']
  rfl

theorem splice_drop (D c : List Nat) (p : Nat) (h : p ≤ D.length) :
    (D.take p ++ c ++ D.drop (p + c.length)).drop (p + c.length) = D.drop (p + c.length) := by
  have : (D.take p ++ c).length = p + c.length := by simp [h]
  rw [← this, List.drop_left']
  rfl

theorem splice_length (D c : List Nat) (p : Nat) (h : p + c.length ≤ D.length) :
    (D.take p ++ c ++ D.drop (p + c.length)).length = D.length := by
  simp; omega

theorem wrap_data (D c : List Nat) (p : Nat) (hp : p ≤ D.length)
    (h : D.length - p < c.length) (hc : c.length ≤ D.length) :
    memcpy (memcpy D p c (D.length - p)) 0 (c.drop (D.length - p)) (c.length - (D.length - p))
      = c.drop (D.length - p) ++ ((D.take p).drop (c.length - (D.length - p))
          ++ c.take (D.length - p)) := by
  rw [memcpy_of_le D p c _ (by omega)]
  rw [memcpy_of_le _ 0 _ _ (by simp)]
  have e1 : p + (D.length - p) = D.length := by omega
  have e2 : (c.drop (D.length - p)).take (c.length - (D.length - p)) = c.drop (D.length - p) := by
    apply List.take_of_length_le; simp
  rw [e1, List.drop_length, e2]
  simp only [List.take_zero, List.nil_append, List.append_nil, Nat.zero_add]
  rw [List.drop_append_of_le_length (by simp; omega)]

theorem unwrap_full (E : List Nat) (q : Nat) (_hq : q ≤ E.length) :
    bytes_at E q (E.length - q) ++ bytes_at E 0 q = E.drop q ++ E.take q := by
  unfold bytes_at
  rw [List.take_of_length_le (by simp), List.drop_zero]

theorem rot_wrap (A c : List Nat) (r : Nat) :
    (c.drop r ++ (A ++ c.take r)).drop (c.length - r)
        ++ (c.drop r ++ (A ++ c.take r)).take (c.length - r) = A ++ c := by
  have h : (c.drop r).length = c.length - r := by simp
  rw [← h, List.drop_left, List.take_left, List.append_assoc, List.take_append_drop]

theorem last_bytes_append (C : Nat) (U c : List Nat) (h : C ≤ U.length + c.length)
    (hc : c.length ≤ C) :
    last_bytes C (U ++ c) = U.drop (U.length + c.length - C) ++ c := by
  unfold last_bytes
  rw [List.length_append, List.drop_append_of_le_length (by omega)]

theorem write_small (cfg : Option ecc_config) (st : ram_console_state) (chunk : List Nat)
    (hi : ring_inv st) (hc : chunk.length ≤ st.buffer_size) :
    ring_inv (ram_console_write cfg st chunk chunk.length) ∧
    unwrapped (ram_console_write cfg st chunk chunk.length).buffer
      = last_bytes st.buffer_size (unwrapped st.buffer ++ chunk) := by
  obtain ⟨cap, len, start_le, size_le, fill⟩ := hi
  have erem : sub32 st.buffer_size st.buffer.start = st.buffer_size - st.buffer.start := by
    simp only [sub32, U32] at *; omega
  by_cases h2 : sub32 st.buffer_size st.buffer.start < chunk.length
  · obtain ⟨e1, e2, e3⟩ := write_wrap cfg st chunk chunk.length hc cap h2
    rw [erem] at h2 e1 e3
    have eq : add32 0 (sub32 chunk.length (st.buffer_size - st.buffer.start))
        = chunk.length - (st.buffer_size - st.buffer.start) := by
      simp only [add32, sub32, U32] at *; omega
    have eq2 : sub32 chunk.length (st.buffer_size - st.buffer.start)
        = chunk.length - (st.buffer_size - st.buffer.start) := by
      simp only [add32, sub32, U32] at *; omega
    rw [eq] at e1
    rw [eq2, ← len, wrap_data _ _ _ (by omega) (by omega) (by omega)] at e3
    have hl : (ram_console_write cfg st chunk chunk.length).buffer.data.length
        = st.buffer.data.length := by
      rw [e3]; simp; omega
    refine ⟨⟨by simpa using cap, by rw [hl, len, write_buffer_size], by omega,
      by rw [write_buffer_size]; omega, by intro h; rw [write_buffer_size] at h; omega⟩, ?_⟩
    have es : sub32 (ram_console_write cfg st chunk chunk.length).buffer.size
        (ram_console_write cfg st chunk chunk.length).buffer.start
        = (ram_console_write cfg st chunk chunk.length).buffer.data.length
          - (ram_console_write cfg st chunk chunk.length).buffer.start := by
      rw [hl, e1, e2]; simp only [sub32, U32] at *; omega
    unfold unwrapped
    rw [es, unwrap_full _ _ (by rw [hl, e1]; omega), e1, e3, len, rot_wrap]
    by_cases h3 : st.buffer.size < st.buffer_size
    · have e := fill h3
      have z2 : sub32 st.buffer.size st.buffer.start = 0 := by
        simp only [sub32, U32] at *; omega
      rw [z2]
      simp only [bytes_at, List.take_zero, List.nil_append, List.drop_zero]
      rw [last_bytes_append _ _ _ (by simp; omega) hc]
      congr 2
      simp; omega
    · have es0 : sub32 st.buffer.size st.buffer.start
          = st.buffer.data.length - st.buffer.start := by
        rw [len]; simp only [sub32, U32] at *; omega
      rw [es0, unwrap_full _ _ (by omega)]
      rw [last_bytes_append _ _ _ (by simp; omega) hc]
      rw [List.drop_append_eq_append_drop]
      have hd : (List.drop st.buffer.start st.buffer.data).length
          ≤ (List.drop st.buffer.start st.buffer.data
              ++ List.take st.buffer.start st.buffer.data).length
            + chunk.length - st.buffer_size := by
        simp; omega
      rw [List.drop_of_length_le hd]
      simp only [List.nil_append]
      congr 2
      simp; omega
  · obtain ⟨e1, e2, e3⟩ := write_nowrap cfg st chunk chunk.length hc h2
    rw [erem] at h2
    have ea : add32 st.buffer.start chunk.length = st.buffer.start + chunk.length := by
      simp only [add32, U32] at *; omega
    rw [ea] at e1
    rw [memcpy_of_le _ _ _ _ (le_refl _), List.take_length] at e3
    have hl : (ram_console_write cfg st chunk chunk.length).buffer.data.length = st.buffer_size := by
      rw [e3, splice_length _ _ _ (by omega), len]
    by_cases h3 : st.buffer.size < st.buffer_size
    · have e := fill h3
      have es : add32 st.buffer.size chunk.length = st.buffer.size + chunk.length := by
        simp only [add32, U32] at *; omega
      rw [if_pos h3, es] at e2
      refine ⟨⟨by simpa using cap, by simpa using hl, by omega, ?_, by intro _; omega⟩, ?_⟩
      · rw [write_buffer_size]; omega
      · simp only [unwrapped, bytes_at, last_bytes, e1, e2, e3, List.drop_zero]
        rw [splice_take _ _ _ (by omega)]
        have z1 : sub32 (st.buffer.size + chunk.length) (st.buffer.start + chunk.length) = 0 := by
          simp only [sub32, U32] at *; omega
        have z2 : sub32 st.buffer.size st.buffer.start = 0 := by
          simp only [sub32, U32] at *; omega
        rw [z1, z2]
        simp
        have : min st.buffer.start st.buffer.data.length + chunk.length - st.buffer_size = 0 := by
          omega
        rw [this]; simp
    · rw [if_neg h3] at e2
      have hz : st.buffer.size = st.buffer_size := by omega
      refine ⟨⟨by simpa using cap, by simpa using hl, by omega, ?_, ?_⟩, ?_⟩
      · rw [write_buffer_size]; omega
      · intro h; rw [write_buffer_size] at h; omega
      · have es : sub32 (ram_console_write cfg st chunk chunk.length).buffer.size
            (ram_console_write cfg st chunk chunk.length).buffer.start
            = (ram_console_write cfg st chunk chunk.length).buffer.data.length
              - (ram_console_write cfg st chunk chunk.length).buffer.start := by
          rw [hl, e1, e2]; simp only [sub32, U32] at *; omega
        have es0 : sub32 st.buffer.size st.buffer.start
            = st.buffer.data.length - st.buffer.start := by
          rw [len]; simp only [sub32, U32] at *; omega
        unfold unwrapped
        rw [es, unwrap_full _ _ (by rw [hl, e1]; omega), e1, e3, es0,
          unwrap_full _ _ (by omega), splice_take _ _ _ (by omega),
          splice_drop _ _ _ (by omega)]
        rw [last_bytes_append _ _ _ (by simp; omega) hc,
          List.drop_append_of_le_length (by simp; omega), List.drop_drop, List.append_assoc]
        congr 2
        simp; omega

theorem last_bytes_drop (C : Nat) (U c : List Nat) (h : C ≤ c.length) :
    last_bytes C (U ++ c.drop (c.length - C)) = last_bytes C (U ++ c) := by
  have e1 : (U ++ c.drop (c.length - C)).length - C = U.length + 0 := by
    simp; omega
  have e2 : (U ++ c).length - C = U.length + (c.length - C) := by
    simp; omega
  unfold last_bytes
  rw [e1, e2, List.drop_append, List.drop_append, List.drop_zero]

theorem last_bytes_last_bytes (C : Nat) (X Y : List Nat) :
    last_bytes C (last_bytes C X ++ Y) = last_bytes C (X ++ Y) := by
  unfold last_bytes
  rw [List.drop_append_eq_append_drop, List.drop_append_eq_append_drop, List.drop_drop]
  congr 2
  · simp; omega
  · simp; omega

theorem last_bytes_length (C : Nat) (X : List Nat) : (last_bytes C X).length = min X.length C := by
  unfold last_bytes; simp; omega

theorem last_bytes_of_le (C : Nat) (X : List Nat) (h : X.length ≤ C) : last_bytes C X = X := by
  unfold last_bytes
  rw [Nat.sub_eq_zero_of_le h, List.drop_zero]

theorem write_step (cfg : Option ecc_config) (st : ram_console_state) (chunk : List Nat)
    (hi : ring_inv st) (hc : chunk.length < U32) :
    ring_inv (console_write cfg st chunk) ∧
    unwrapped (console_write cfg st chunk).buffer
      = last_bytes st.buffer_size (unwrapped st.buffer ++ chunk) := by
  unfold console_write
  by_cases h : chunk.length > st.buffer_size
  · rw [write_truncate cfg st chunk chunk.length h hc]
    have hl : (chunk.drop (chunk.length - st.buffer_size)).length = st.buffer_size := by
      simp; omega
    have := write_small cfg st (chunk.drop (chunk.length - st.buffer_size)) hi (by omega)
    rw [hl, last_bytes_drop _ _ _ (by omega)] at this
    exact this
  · exact write_small cfg st chunk hi (by omega)

theorem unwrapped_length (st : ram_console_state) (hi : ring_inv st) :
    (unwrapped st.buffer).length = st.buffer.size := by
  obtain ⟨cap, len, start_le, size_le, fill⟩ := hi
  have e : sub32 st.buffer.size st.buffer.start = st.buffer.size - st.buffer.start := by
    simp only [sub32, U32] at *; omega
  simp only [unwrapped, bytes_at, e]
  simp; omega

theorem writes_buffer_size (cfg : Option ecc_config) (chunks : List (List Nat)) :
    ∀ st : ram_console_state, (console_writes cfg st chunks).buffer_size = st.buffer_size := by
  induction chunks with
  | nil => intro st; rfl
  | cons c cs ih =>
    intro st
    show (console_writes cfg (console_write cfg st c) cs).buffer_size = _
    rw [ih]; simp [console_write]

theorem writes_inv (cfg : Option ecc_config) (chunks : List (List Nat)) :
    ∀ st : ram_console_state, ring_inv st → (∀ c ∈ chunks, c.length < U32) →
      ring_inv (console_writes cfg st chunks) ∧
      unwrapped (console_writes cfg st chunks).buffer
        = last_bytes st.buffer_size (unwrapped st.buffer ++ chunks.flatten) := by
  induction chunks with
  | nil =>
    intro st hi _
    refine ⟨hi, ?_⟩
    simp only [console_writes, List.foldl_nil, List.flatten_nil, List.append_nil]
    rw [last_bytes_of_le]
    rw [unwrapped_length st hi]; exact hi.size_le
  | cons c cs ih =>
    intro st hi hc
    obtain ⟨h1, h2⟩ := write_step cfg st c hi (hc c (List.mem_cons_self _ _))
    obtain ⟨h3, h4⟩ := ih (console_write cfg st c) h1
      (fun x hx => hc x (List.mem_cons_of_mem _ hx))
    refine ⟨h3, ?_⟩
    show unwrapped (console_writes cfg (console_write cfg st c) cs).buffer = _
    rw [h4, h2]
    have : (console_write cfg st c).buffer_size = st.buffer_size := by simp [console_write]
    rw [this, last_bytes_last_bytes, List.flatten_cons, List.append_assoc]

theorem reset_inv (rest : ram_console_state) (C : Nat) (data : List Nat)
    (hC : C < U32) (hd : data.length = C) : ring_inv (reset_state rest C data) :=
  ⟨hC, hd, le_refl _, Nat.zero_le _, fun _ => rfl⟩

theorem reset_unwrapped (rest : ram_console_state) (C : Nat) (data : List Nat) :
    unwrapped (reset_state rest C data).buffer = [] := by
  simp [unwrapped, reset_state, bytes_at, sub32, U32]

theorem length_le_sum (chunks : List (List Nat)) (c : List Nat) (h : c ∈ chunks) :
    c.length ≤ (chunks.map List.length).sum := by
  induction chunks with
  | nil => cases h
  | cons x xs ih =>
    simp only [List.map_cons, List.sum_cons]
    rcases List.mem_cons.mp h with rfl | h
    · omega
    · have := ih h; omega

theorem writes_from_reset (cfg : Option ecc_config) (rest : ram_console_state) (C : Nat)
    (data : List Nat) (chunks : List (List Nat)) (hC : C < U32) (hd : data.length = C)
    (hlen : ∀ c ∈ chunks, c.length < U32) :
    ring_inv (console_writes cfg (reset_state rest C data) chunks) ∧
    unwrapped (console_writes cfg (reset_state rest C data) chunks).buffer
      = last_bytes C chunks.flatten := by
  have h := writes_inv cfg chunks (reset_state rest C data) (reset_inv rest C data hC hd) hlen
  rw [reset_unwrapped, List.nil_append] at h
  exact h

theorem writes_size (cfg : Option ecc_config) (rest : ram_console_state) (C : Nat)
    (data : List Nat) (chunks : List (List Nat)) (hC : C < U32) (hd : data.length = C)
    (hlen : ∀ c ∈ chunks, c.length < U32) :
    (console_writes cfg (reset_state rest C data) chunks).buffer.size
      = min (chunks.map List.length).sum C := by
  obtain ⟨hi, hu⟩ := writes_from_reset cfg rest C data chunks hC hd hlen
  rw [← unwrapped_length _ hi, hu, last_bytes_length, List.length_flatten]

theorem writes_append (cfg : Option ecc_config) (st : ram_console_state)
    (xs ys : List (List Nat)) :
    console_writes cfg st (xs ++ ys) = console_writes cfg (console_writes cfg st xs) ys := by
  simp [console_writes, List.foldl_append]

/-! ## The circular writer: claims C1 to C4 -/

/-- C1: starting from the reset header over a data region of capacity `C`,
after any sequence of chunks whose lengths sum to at most `C` has been
written by `ram_console_write`, the unwrapped content
`data[start .. size) ++ data[0 .. start)` is the concatenation of the chunks
in order. -/
theorem C1_unwrapped_is_concatenation (cfg : Option ecc_config) (rest : ram_console_state)
    (C : Nat) (data : List Nat) (chunks : List (List Nat)) (hC : C < U32)
    (hd : data.length = C) (hsum : (chunks.map List.length).sum ≤ C) :
    unwrapped (console_writes cfg (reset_state rest C data) chunks).buffer = chunks.flatten := by
  have hlen : ∀ c ∈ chunks, c.length < U32 := fun c hc => by
    have := length_le_sum chunks c hc; omega
  rw [(writes_from_reset cfg rest C data chunks hC hd hlen).2]
  apply last_bytes_of_le
  rw [List.length_flatten]; exact hsum

/-- Instance of C1: three chunks (one of them empty) of five bytes in all, written into an eight-byte region. -/
theorem C1_witness :
    unwrapped (console_writes none (reset_state initial_statics 8 (List.replicate 8 0))
      [[104, 105], [], [33, 10, 111]]).buffer = [104, 105, 33, 10, 111] :=
  C1_unwrapped_is_concatenation none initial_statics 8 (List.replicate 8 0)
    [[104, 105], [], [33, 10, 111]] (by decide) (by decide) (by decide)

/-- C2: starting from the reset header over a data region of capacity `C`,
after any sequence of chunks whose lengths sum to more than `C` (a single
chunk longer than `C` included), the unwrapped content is exactly the last
`C` bytes of the concatenation; with `C = 8`, "hello " then "world" leaves
"lo world". -/
theorem C2_unwrapped_is_last_capacity_bytes (cfg : Option ecc_config)
    (rest : ram_console_state) (C : Nat) (data : List Nat) (chunks : List (List Nat))
    (hC : C < U32) (hd : data.length = C) (hlen : ∀ c ∈ chunks, c.length < U32)
    (hsum : (chunks.map List.length).sum > C) :
    unwrapped (console_writes cfg (reset_state rest C data) chunks).buffer
        = chunks.flatten.drop (chunks.flatten.length - C) ∧
      (unwrapped (console_writes cfg (reset_state rest C data) chunks).buffer).length = C ∧
      unwrapped (console_writes cfg (reset_state rest 8 (List.replicate 8 0))
        [cstr "hello ", cstr "world"]).buffer = cstr "lo world" := by
  have h := (writes_from_reset cfg rest C data chunks hC hd hlen).2
  refine ⟨h, ?_, ?_⟩
  · rw [h, last_bytes_length, List.length_flatten]; omega
  · rw [(writes_from_reset cfg rest 8 (List.replicate 8 0) [cstr "hello ", cstr "world"]
      (by decide) (by decide) (by decide)).2]
    decide

/-- Instance of C2: ten bytes in three chunks, one of them longer than the four-byte region. -/
theorem C2_witness :
    unwrapped (console_writes none (reset_state initial_statics 4 [9, 9, 9, 9])
      [[1, 2, 3], [4, 5, 6, 7, 8, 9], [10]]).buffer = [7, 8, 9, 10] :=
  (C2_unwrapped_is_last_capacity_bytes none initial_statics 4 [9, 9, 9, 9]
    [[1, 2, 3], [4, 5, 6, 7, 8, 9], [10]] (by decide) (by decide) (by decide) (by decide)).1

/-- C3 as stated fails: a write that ends exactly at the end of the data
region leaves `start = C` (the wrap to 0 happens in the next write). With
`C = 8`, writing eight bytes from the reset header gives `start = 8`. -/
theorem C3_counterexample :
    (console_writes none (reset_state initial_statics 8 (List.replicate 8 0))
        [[1, 2, 3, 4, 5, 6, 7, 8]]).buffer.start = 8 ∧
      ¬ (console_writes none (reset_state initial_statics 8 (List.replicate 8 0))
        [[1, 2, 3, 4, 5, 6, 7, 8]]).buffer.start < 8 := by
  decide

/-- C3 (amended): in every state reachable from the reset header by
`ram_console_write` calls on a region of capacity `C`, the write cursor
satisfies `0 ≤ start ≤ C`. -/
theorem C3_start_le_capacity (cfg : Option ecc_config) (rest : ram_console_state)
    (C : Nat) (data : List Nat) (chunks : List (List Nat)) (hC : C < U32)
    (hd : data.length = C) (hlen : ∀ c ∈ chunks, c.length < U32) :
    0 ≤ (console_writes cfg (reset_state rest C data) chunks).buffer.start ∧
      (console_writes cfg (reset_state rest C data) chunks).buffer.start ≤ C := by
  have hi := (writes_from_reset cfg rest C data chunks hC hd hlen).1
  have hb : (console_writes cfg (reset_state rest C data) chunks).buffer_size = C := by
    rw [writes_buffer_size]; rfl
  have h1 := hi.start_le
  have h2 := hi.size_le
  rw [hb] at h2
  omega

/-- Instance of the amended C3 at the state of the counterexample, where `start = C = 8`. -/
theorem C3_witness :
    0 ≤ (console_writes none (reset_state initial_statics 8 (List.replicate 8 0))
        [[1, 2, 3, 4, 5, 6, 7, 8]]).buffer.start ∧
      (console_writes none (reset_state initial_statics 8 (List.replicate 8 0))
        [[1, 2, 3, 4, 5, 6, 7, 8]]).buffer.start ≤ 8 :=
  C3_start_le_capacity none initial_statics 8 (List.replicate 8 0) [[1, 2, 3, 4, 5, 6, 7, 8]]
    (by decide) (by decide) (by decide)

/-- C4: in every state reachable from the reset header by
`ram_console_write` calls, `size = min(total bytes appended, C)`; so `size`
never exceeds `C`, grows by the chunk length while the total still fits, and
is `C` after a write that wrapped and after every later write. -/
theorem C4_size_is_min_total_capacity (cfg : Option ecc_config) (rest : ram_console_state)
    (C : Nat) (data : List Nat) (chunks : List (List Nat)) (hC : C < U32)
    (hd : data.length = C) (hlen : ∀ c ∈ chunks, c.length < U32) :
    (console_writes cfg (reset_state rest C data) chunks).buffer.size
        = min (chunks.map List.length).sum C ∧
      (console_writes cfg (reset_state rest C data) chunks).buffer.size ≤ C ∧
      (∀ c : List Nat, (chunks.map List.length).sum + c.length ≤ C →
        (console_write cfg (console_writes cfg (reset_state rest C data) chunks) c).buffer.size
          = (console_writes cfg (reset_state rest C data) chunks).buffer.size + c.length) ∧
      (∀ (c : List Nat) (more : List (List Nat)), c.length < U32 →
        (∀ m ∈ more, m.length < U32) →
        write_wraps (console_writes cfg (reset_state rest C data) chunks) c.length →
        (console_writes cfg
          (console_write cfg (console_writes cfg (reset_state rest C data) chunks) c)
          more).buffer.size = C) := by
  have hmain := writes_size cfg rest C data chunks hC hd hlen
  refine ⟨hmain, by rw [hmain]; omega, ?_, ?_⟩
  · intro c hc
    have hl : ∀ x ∈ chunks ++ [c], x.length < U32 := by
      intro x hx
      rcases List.mem_append.mp hx with h | h
      · exact hlen x h
      · rw [List.mem_singleton.mp h]; omega
    have h2 := writes_size cfg rest C data (chunks ++ [c]) hC hd hl
    rw [writes_append] at h2
    simp only [console_writes, List.foldl_cons, List.foldl_nil, List.map_append, List.map_cons,
      List.map_nil, List.sum_append, List.sum_cons, List.sum_nil] at h2 hmain ⊢
    rw [h2, hmain]; omega
  · intro c more hc hmore hw
    have hl : ∀ x ∈ chunks ++ c :: more, x.length < U32 := by
      intro x hx
      rcases List.mem_append.mp hx with h | h
      · exact hlen x h
      · rcases List.mem_cons.mp h with h | h
        · rw [h]; exact hc
        · exact hmore x h
    have h2 := writes_size cfg rest C data (chunks ++ c :: more) hC hd hl
    rw [writes_append] at h2
    obtain ⟨hi, _⟩ := writes_from_reset cfg rest C data chunks hC hd hlen
    have hb : (console_writes cfg (reset_state rest C data) chunks).buffer_size = C := by
      rw [writes_buffer_size]; rfl
    obtain ⟨_, _, start_le, size_le, fill⟩ := hi
    unfold write_wraps at hw
    rw [hb] at hw size_le fill
    simp only [console_writes, List.foldl_cons, List.map_append, List.map_cons,
      List.sum_append, List.sum_cons] at h2 hmain hw start_le size_le fill ⊢
    rw [h2]
    have e : sub32 C (List.foldl (console_write cfg) (reset_state rest C data) chunks).buffer.start
        = C - (List.foldl (console_write cfg) (reset_state rest C data) chunks).buffer.start := by
      simp only [sub32, U32] at *; omega
    rw [e] at hw
    split_ifs at hw <;> omega

/-- Instance of C4: six bytes written into a four-byte region leave `size = 4`. -/
theorem C4_witness :
    (console_writes none (reset_state initial_statics 4 [0, 0, 0, 0])
        [[1, 2, 3], [4, 5, 6]]).buffer.size = 4 :=
  ((C4_size_is_min_total_capacity none initial_statics 4 [0, 0, 0, 0] [[1, 2, 3], [4, 5, 6]]
    (by decide) (by decide) (by decide)).1).trans (by decide)

/-! ## Recovery: helper facts -/

theorem memcpy_length (dst : List Nat) (off : Nat) (src : List Nat) (n : Nat) :
    (memcpy dst off src n).length = min off dst.length + n + (dst.length - (off + n)) := by
  simp [memcpy, Nat.add_assoc]

theorem memcpy_take_below (dst : List Nat) (off : Nat) (src : List Nat) (n k : Nat)
    (hk : k ≤ off) (hd : k ≤ dst.length) :
    (memcpy dst off src n).take k = dst.take k := by
  unfold memcpy
  rw [List.append_assoc, List.take_append_of_le_length (by simp; omega), List.take_take]
  congr 1
  omega

theorem decode_loop_length (c : ecc_config) (rs : Option rs_control) (C size : Nat)
    (pb : List Nat) (hC : C < U32) (hs : size ≤ C) :
    ∀ (fuel block par : Nat) (acc : List Nat × Int × Int), acc.1.length = C →
      (save_old_decode_loop c rs C size pb fuel block par acc).1.length = C := by
  intro fuel
  induction fuel with
  | zero => intro block par acc h; simpa [save_old_decode_loop] using h
  | succ n ih =>
    intro block par acc h
    obtain ⟨data, corrected, bad⟩ := acc
    simp only [save_old_decode_loop]
    by_cases h1 : block < size
    · rw [if_pos h1]
      apply ih
      have h' : data.length = C := h
      show (memcpy data block _ _).length = C
      rw [memcpy_length]
      split_ifs
      · simp only [sub32, U32] at *; omega
      · omega
    · rw [if_neg h1]; exact h

@[simp] theorem save_old_decode_start (cfg : Option ecc_config) (st : ram_console_state) :
    (save_old_decode cfg st).buffer.start = st.buffer.start := by
  unfold save_old_decode; cases cfg <;> rfl

@[simp] theorem save_old_decode_size (cfg : Option ecc_config) (st : ram_console_state) :
    (save_old_decode cfg st).buffer.size = st.buffer.size := by
  unfold save_old_decode; cases cfg <;> rfl

@[simp] theorem save_old_decode_buffer_size (cfg : Option ecc_config) (st : ram_console_state) :
    (save_old_decode cfg st).buffer_size = st.buffer_size := by
  unfold save_old_decode; cases cfg <;> rfl

theorem save_old_decode_length (cfg : Option ecc_config) (st : ram_console_state)
    (hC : st.buffer_size < U32) (hs : st.buffer.size ≤ st.buffer_size)
    (hl : st.buffer.data.length = st.buffer_size) :
    (save_old_decode cfg st).buffer.data.length = st.buffer_size := by
  unfold save_old_decode
  cases cfg with
  | none => exact hl
  | some c => exact decode_loop_length c _ _ _ _ hC hs _ _ _ _ hl

theorem memcpy_length_ge (dst : List Nat) (off : Nat) (src : List Nat) (n k : Nat)
    (hd : k ≤ dst.length) : k ≤ (memcpy dst off src n).length := by
  rw [memcpy_length]; omega

theorem unwrap_copy (d D : List Nat) (start size : Nat) (h1 : start ≤ size)
    (h2 : size ≤ D.length) :
    (memcpy (memcpy d 0 (D.drop start) (size - start)) (size - start) D start).take size
        = bytes_at D start (size - start) ++ bytes_at D 0 start ∧
      size ≤ (memcpy (memcpy d 0 (D.drop start) (size - start)) (size - start) D start).length := by
  rw [memcpy_of_le d 0 _ _ (by simp; omega)]
  rw [memcpy_of_le _ (size - start) D start (by omega)]
  simp only [List.take_zero, List.nil_append, Nat.zero_add, bytes_at, List.drop_zero]
  have hA : ((D.drop start).take (size - start)).length = size - start := by simp; omega
  have e1 : (List.take (size - start) (List.drop start D) ++ List.drop (size - start) d).take
      (size - start) = List.take (size - start) (List.drop start D) :=
    List.take_left' hA
  rw [e1]
  constructor
  · have hAB : ((D.drop start).take (size - start) ++ D.take start).length = size := by
      simp; omega
    exact List.take_left' hAB
  · simp; omega

theorem save_old_fill_take (cfg : Option ecc_config) (label : List Nat)
    (st1 : ram_console_state) (bootinfo : Option (List Nat)) (d : List Nat)
    (hstart : st1.buffer.start ≤ st1.buffer.size)
    (hsize : st1.buffer.size ≤ st1.buffer.data.length) (hC : st1.buffer.data.length < U32) :
    (save_old_fill cfg label st1 bootinfo d).take st1.buffer.size
      = bytes_at st1.buffer.data st1.buffer.start (st1.buffer.size - st1.buffer.start)
        ++ bytes_at st1.buffer.data 0 st1.buffer.start := by
  have es : sub32 st1.buffer.size st1.buffer.start = st1.buffer.size - st1.buffer.start := by
    simp only [sub32, U32] at *; omega
  obtain ⟨h1, h2⟩ := unwrap_copy d st1.buffer.data st1.buffer.start st1.buffer.size hstart hsize
  unfold save_old_fill
  simp only [es]
  cases bootinfo with
  | none =>
    cases cfg with
    | none => exact h1
    | some c =>
      simp only []
      rw [memcpy_take_below _ _ _ _ _ (le_refl _) h2]
      exact h1
  | some b =>
    cases cfg with
    | none =>
      simp only []
      rw [memcpy_take_below _ _ _ _ _ (by omega)
          (memcpy_length_ge _ _ _ _ _ h2),
        memcpy_take_below _ _ _ _ _ (by omega) h2]
      exact h1
    | some c =>
      simp only []
      rw [memcpy_take_below _ _ _ _ _ (by omega)
          (memcpy_length_ge _ _ _ _ _ (memcpy_length_ge _ _ _ _ _ h2)),
        memcpy_take_below _ _ _ _ _ (by omega) (memcpy_length_ge _ _ _ _ _ h2),
        memcpy_take_below _ _ _ _ _ (le_refl _) h2]
      exact h1

theorem save_old_dest_some (kmalloc : Nat → Option (List Nat)) (n : Nat)
    (dest : Option (List Nat)) (h : dest ≠ none ∨ ∀ n, kmalloc n ≠ none) :
    ∃ d, save_old_dest kmalloc n dest = some d := by
  unfold save_old_dest
  cases dest with
  | some d => exact ⟨d, rfl⟩
  | none =>
    rcases h with h | h
    · exact absurd rfl h
    · cases hk : kmalloc n with
      | none => exact absurd hk (h n)
      | some d => exact ⟨d, rfl⟩

theorem save_old_decode_header (cfg : Option ecc_config) (st : ram_console_state) :
    (save_old_decode cfg st).buffer.toram_console_header = st.buffer.toram_console_header := by
  unfold save_old_decode; cases cfg <;> rfl

theorem save_old_decode_statics (cfg : Option ecc_config) (st : ram_console_state) :
    (save_old_decode cfg st).first_boot = st.first_boot ∧
    (save_old_decode cfg st).old_log = st.old_log ∧
    (save_old_decode cfg st).old_log_size = st.old_log_size ∧
    (save_old_decode cfg st).installed = st.installed ∧
    (save_old_decode cfg st).recorded = st.recorded := by
  unfold save_old_decode; cases cfg <;> simp

theorem save_old_header (cfg : Option ecc_config) (label : List Nat)
    (kmalloc : Nat → Option (List Nat)) (st : ram_console_state)
    (bootinfo dest : Option (List Nat)) :
    (ram_console_save_old cfg label kmalloc st bootinfo dest).buffer.toram_console_header
        = st.buffer.toram_console_header ∧
      (ram_console_save_old cfg label kmalloc st bootinfo dest).first_boot = st.first_boot ∧
      (ram_console_save_old cfg label kmalloc st bootinfo dest).buffer_size
        = st.buffer_size := by
  unfold ram_console_save_old
  simp only []
  cases save_old_dest kmalloc _ dest <;>
    simp [save_old_decode_header, (save_old_decode_statics cfg st).1]

theorem save_old_log_some (cfg : Option ecc_config) (label : List Nat)
    (kmalloc : Nat → Option (List Nat)) (st : ram_console_state)
    (bootinfo dest : Option (List Nat)) (h : dest ≠ none ∨ ∀ n, kmalloc n ≠ none) :
    (ram_console_save_old cfg label kmalloc st bootinfo dest).old_log ≠ none := by
  obtain ⟨d, hd⟩ := save_old_dest_some kmalloc
    (save_old_total_size cfg label (save_old_decode cfg st) bootinfo) dest h
  unfold ram_console_save_old
  simp only [hd]
  simp

theorem save_old_log_none (cfg : Option ecc_config) (label : List Nat)
    (kmalloc : Nat → Option (List Nat)) (st : ram_console_state)
    (bootinfo : Option (List Nat)) (hk : ∀ n, kmalloc n = none) (h0 : st.old_log = none) :
    (ram_console_save_old cfg label kmalloc st bootinfo none).old_log = none := by
  unfold ram_console_save_old
  simp only [save_old_dest, hk]
  rw [(save_old_decode_statics cfg st).2.1, h0]

theorem setup_statics (cfg : Option ecc_config) (sizeof_buffer : Nat)
    (hdr : ram_console_header) (mem : List Nat) (buffer_size : Nat) (st : ram_console_state)
    (h : ram_console_setup cfg sizeof_buffer hdr mem buffer_size = .ok st) :
    st.old_log = none ∧ st.old_log_size = 0 ∧ st.first_boot = false ∧ st.installed = true ∧
      st.recorded = false := by
  unfold ram_console_setup at h
  simp only [] at h
  split_ifs at h
  cases cfg with
  | none =>
    simp only [Except.ok.injEq] at h
    subst h
    simp [initial_statics]
  | some c =>
    simp only [] at h
    split_ifs at h
    cases hr : c.init_rs with
    | none => simp [hr] at h
    | some rs =>
      simp only [hr] at h
      split_ifs at h <;>
      · simp only [Except.ok.injEq] at h
        subst h
        simp [initial_statics]

theorem init_of_setup_ok (cfg : Option ecc_config) (sizeof_buffer : Nat) (label : List Nat)
    (kmalloc : Nat → Option (List Nat)) (reset_reason : Nat) (hdr : ram_console_header)
    (mem : List Nat) (buffer_size : Nat) (bootinfo old_buf : Option (List Nat))
    (st : ram_console_state)
    (h : ram_console_setup cfg sizeof_buffer hdr mem buffer_size = .ok st) :
    ram_console_init cfg sizeof_buffer label kmalloc reset_reason hdr mem buffer_size bootinfo
        old_buf
      = ram_console_recover cfg label kmalloc reset_reason st bootinfo old_buf := by
  unfold ram_console_init
  rw [h]

theorem setup_ok_of_accepted (cfg : Option ecc_config) (sizeof_buffer : Nat)
    (hdr : ram_console_header) (mem : List Nat) (buffer_size : Nat)
    (ha : region_accepted cfg sizeof_buffer buffer_size) (hd : decoder_obtained cfg) :
    ∃ st, ram_console_setup cfg sizeof_buffer hdr mem buffer_size = .ok st ∧
      (cfg = none → st.buffer.toram_console_header = hdr ∧ st.buffer.data = mem ∧
        st.buffer_size = sub32 buffer_size sizeof_buffer) := by
  obtain ⟨h1, h2⟩ := ha
  unfold ram_console_setup
  simp only []
  rw [if_neg (by omega)]
  cases cfg with
  | none => exact ⟨_, rfl, fun _ => ⟨rfl, rfl, rfl⟩⟩
  | some c =>
    have h3 := h2 c rfl
    have h4 := hd c rfl
    simp only []
    rw [if_neg (by omega)]
    cases hr : c.init_rs with
    | none => exact absurd hr h4
    | some rs =>
      simp only []
      split_ifs <;> exact ⟨_, rfl, fun h => by cases h⟩

theorem recover_fields (cfg : Option ecc_config) (label : List Nat)
    (kmalloc : Nat → Option (List Nat)) (reset_reason : Nat) (st : ram_console_state)
    (bootinfo old_buf : Option (List Nat)) :
    (ram_console_recover cfg label kmalloc reset_reason st bootinfo old_buf).buffer.sig
        = RAM_CONSOLE_SIG ∧
      (ram_console_recover cfg label kmalloc reset_reason st bootinfo old_buf).buffer.start = 0 ∧
      (ram_console_recover cfg label kmalloc reset_reason st bootinfo old_buf).buffer.size = 0 ∧
      (ram_console_recover cfg label kmalloc reset_reason st bootinfo
        old_buf).console_registered = true := by
  simp [ram_console_recover, init_boot_reason]

theorem hw_boot_reason_ne_fresh (reset_reason : Nat) :
    hw_boot_reason reset_reason ≠ FRESH_BOOT ∧ hw_boot_reason reset_reason < END_REASON := by
  unfold hw_boot_reason
  split_ifs <;> decide

theorem recover_first_boot_stat (cfg : Option ecc_config) (label : List Nat)
    (kmalloc : Nat → Option (List Nat)) (reset_reason : Nat) (st : ram_console_state)
    (bootinfo old_buf : Option (List Nat)) (hsig : st.buffer.sig ≠ RAM_CONSOLE_SIG) :
    (ram_console_recover cfg label kmalloc reset_reason st bootinfo old_buf).buffer.bs
      = boot_reason_commit (inc_boot_reason (hw_boot_reason reset_reason)
          (inc_boot_reason FRESH_BOOT boot_stat_zero)) := by
  unfold ram_console_recover
  simp only [init_boot_reason, hsig, if_false]
  congr 1

/-! ## Recovery: claims C5 to C8 -/

/-- C5: for a header that passes validation (signature valid, `size ≤ C`,
`start ≤ size`) and an export buffer that could be obtained,
`ram_console_save_old` places at the front of the export buffer exactly
`size` bytes: the bytes of the data region from index `start` up to `size`
followed by those from index 0 up to `start`. The data region is read as it
stands after the error-correction pass, which is the stored data itself when
error correction is not compiled in. -/
theorem C5_recovered_log_is_unwrapped_data (cfg : Option ecc_config) (label : List Nat)
    (kmalloc : Nat → Option (List Nat)) (st : ram_console_state)
    (bootinfo dest : Option (List Nat))
    (_hsig : st.buffer.sig = RAM_CONSOLE_SIG) (hsize : st.buffer.size ≤ st.buffer_size)
    (hstart : st.buffer.start ≤ st.buffer.size) (hC : st.buffer_size < U32)
    (hl : st.buffer.data.length = st.buffer_size)
    (hdest : dest ≠ none ∨ ∀ n, kmalloc n ≠ none) :
    ∃ log : List Nat,
      (ram_console_save_old cfg label kmalloc st bootinfo dest).old_log = some log ∧
      log.take st.buffer.size
        = bytes_at (save_old_decode cfg st).buffer.data st.buffer.start
            (st.buffer.size - st.buffer.start)
          ++ bytes_at (save_old_decode cfg st).buffer.data 0 st.buffer.start ∧
      (log.take st.buffer.size).length = st.buffer.size ∧
      (cfg = none → log.take st.buffer.size
        = bytes_at st.buffer.data st.buffer.start (st.buffer.size - st.buffer.start)
          ++ bytes_at st.buffer.data 0 st.buffer.start) := by
  have hD := save_old_decode_length cfg st hC hsize hl
  obtain ⟨d, hd⟩ := save_old_dest_some kmalloc
    (save_old_total_size cfg label (save_old_decode cfg st) bootinfo) dest hdest
  have hfront := save_old_fill_take cfg label (save_old_decode cfg st) bootinfo d
    (by simpa using hstart) (by rw [hD]; simpa using hsize) (by rw [hD]; exact hC)
  simp only [save_old_decode_start, save_old_decode_size] at hfront
  refine ⟨save_old_fill cfg label (save_old_decode cfg st) bootinfo d, ?_, hfront, ?_, ?_⟩
  · unfold ram_console_save_old
    simp only [hd]
  · rw [hfront]; simp [bytes_at]; omega
  · intro hc
    rw [hfront, hc]; rfl

/-- Instance of C5: a wrapped four-byte log with `start = 2` is exported oldest byte first. -/
theorem C5_witness :
    ∃ log : List Nat,
      (ram_console_save_old none [] (fun n => some (List.replicate n 0))
        { initial_statics with
          buffer := ⟨⟨RAM_CONSOLE_SIG, 2, 4, boot_stat_zero, ⟨[], []⟩⟩, [3, 4, 1, 2]⟩
          buffer_size := 4 } none none).old_log = some log ∧
      log.take 4 = [1, 2, 3, 4] := by
  obtain ⟨log, h1, _, _, h4⟩ := C5_recovered_log_is_unwrapped_data none []
    (fun n => some (List.replicate n 0))
    { initial_statics with
      buffer := ⟨⟨RAM_CONSOLE_SIG, 2, 4, boot_stat_zero, ⟨[], []⟩⟩, [3, 4, 1, 2]⟩
      buffer_size := 4 } none none rfl (by decide) (by decide) (by decide) (by decide)
    (Or.inr (fun n => by simp))
  exact ⟨log, h1, h4 rfl⟩

/-- C6 as stated fails: with error correction compiled in and `init_rs`
returning NULL, `ram_console_init` returns before the signature test. The
region size is accepted (capacity 48 of a 256-byte region), the stored
header is valid (`size = 4 ≤ 48`, `start = 2 ≤ 4`) and the allocator never
fails, yet no log is recovered. -/
theorem C6_counterexample :
    sample_header.sig = RAM_CONSOLE_SIG ∧ sample_header.size ≤ 48 ∧
      sample_header.start ≤ sample_header.size ∧
      (ram_console_init (some ecc_without_decoder) 184 [] kmalloc_ok 1 sample_header
        (List.replicate 72 0) 256 none none).buffer_size = 48 ∧
      (ram_console_init (some ecc_without_decoder) 184 [] kmalloc_ok 1 sample_header
        (List.replicate 72 0) 256 none none).old_log = none := by
  decide

/-- C6 (amended): when `ram_console_init` gets as far as the signature test
(both size checks pass and, with error correction, `init_rs` returned a
decoder) and the export buffer can be obtained, a previous-session log is
recovered exactly when the header under test has signature `0x43474244`,
`size ≤ C` and `start ≤ size`; with any other signature first boot is marked
and there is no log; with a valid signature but `size > C` or
`start > size` there is no log and the data region is left as it was. The
header under test is the stored header when error correction is not
compiled in. -/
theorem C6_log_recovered_iff_header_valid (cfg : Option ecc_config) (sizeof_buffer : Nat)
    (label : List Nat) (kmalloc : Nat → Option (List Nat)) (reset_reason : Nat)
    (hdr : ram_console_header) (mem : List Nat) (buffer_size : Nat)
    (bootinfo old_buf : Option (List Nat))
    (ha : region_accepted cfg sizeof_buffer buffer_size) (hd : decoder_obtained cfg)
    (hdest : old_buf ≠ none ∨ ∀ n, kmalloc n ≠ none) :
    ∃ st, ram_console_setup cfg sizeof_buffer hdr mem buffer_size = .ok st ∧
      (cfg = none → st.buffer.toram_console_header = hdr ∧ st.buffer.data = mem ∧
        st.buffer_size = sub32 buffer_size sizeof_buffer) ∧
      ((ram_console_init cfg sizeof_buffer label kmalloc reset_reason hdr mem buffer_size
          bootinfo old_buf).old_log ≠ none ↔
        st.buffer.sig = RAM_CONSOLE_SIG ∧ st.buffer.size ≤ st.buffer_size ∧
          st.buffer.start ≤ st.buffer.size) ∧
      (st.buffer.sig ≠ RAM_CONSOLE_SIG →
        (ram_console_init cfg sizeof_buffer label kmalloc reset_reason hdr mem buffer_size
          bootinfo old_buf).first_boot = true ∧
        (ram_console_init cfg sizeof_buffer label kmalloc reset_reason hdr mem buffer_size
          bootinfo old_buf).old_log = none) ∧
      (st.buffer.sig = RAM_CONSOLE_SIG →
        (st.buffer.size > st.buffer_size ∨ st.buffer.start > st.buffer.size) →
        (ram_console_init cfg sizeof_buffer label kmalloc reset_reason hdr mem buffer_size
          bootinfo old_buf).old_log = none ∧
        (ram_console_init cfg sizeof_buffer label kmalloc reset_reason hdr mem buffer_size
          bootinfo old_buf).old_log_size = 0 ∧
        (ram_console_init cfg sizeof_buffer label kmalloc reset_reason hdr mem buffer_size
          bootinfo old_buf).buffer.data = st.buffer.data) := by
  obtain ⟨st, hs, hnone⟩ := setup_ok_of_accepted cfg sizeof_buffer hdr mem buffer_size ha hd
  obtain ⟨h0, h0s, hfb, _, _⟩ := setup_statics cfg sizeof_buffer hdr mem buffer_size st hs
  refine ⟨st, hs, hnone, ?_, ?_, ?_⟩
  · rw [init_of_setup_ok _ _ _ _ _ _ _ _ _ _ st hs]
    unfold ram_console_recover
    simp only [init_boot_reason]
    by_cases hsig : st.buffer.sig = RAM_CONSOLE_SIG
    · by_cases hv : st.buffer.size > st.buffer_size ∨ st.buffer.start > st.buffer.size
      · simp only [hsig, hv, if_true, h0]
        constructor
        · intro h; exact absurd rfl h
        · intro h; omega
      · simp only [hsig, hv, if_true, if_false]
        constructor
        · intro _; exact ⟨trivial, by omega, by omega⟩
        · intro _; exact save_old_log_some cfg label kmalloc st bootinfo old_buf hdest
    · simp only [hsig, if_false, h0]
      constructor
      · intro h; exact absurd rfl h
      · intro h; exact absurd h.1 (fun h => h.elim)
  · intro hsig
    rw [init_of_setup_ok _ _ _ _ _ _ _ _ _ _ st hs]
    unfold ram_console_recover
    simp only [init_boot_reason, hsig, if_false, h0]
    exact ⟨trivial, trivial⟩
  · intro hsig hv
    rw [init_of_setup_ok _ _ _ _ _ _ _ _ _ _ st hs]
    unfold ram_console_recover
    simp only [init_boot_reason, hsig, hv, if_true, h0, h0s]
    exact ⟨trivial, trivial, trivial⟩

/-- Instance of the amended C6: a valid header in a build without error correction gives a recovered log. -/
theorem C6_witness :
    (ram_console_init none 184 [] kmalloc_ok 1 sample_header (List.replicate 72 0) 256 none
      none).old_log ≠ none := by
  obtain ⟨st, _, hn, hiff, _, _⟩ := C6_log_recovered_iff_header_valid none 184 [] kmalloc_ok 1
    sample_header (List.replicate 72 0) 256 none none ⟨by decide, fun c h => by cases h⟩
    (fun c h => by cases h) (Or.inr (fun n => by simp [kmalloc_ok]))
  obtain ⟨e1, _, e3⟩ := hn rfl
  have hsig : st.buffer.sig = sample_header.sig := congrArg ram_console_header.sig e1
  have hstart : st.buffer.start = sample_header.start := congrArg ram_console_header.start e1
  have hsize : st.buffer.size = sample_header.size := congrArg ram_console_header.size e1
  apply hiff.mpr
  rw [hsig, hstart, hsize, e3]
  decide

/-- C7 as stated fails: with error correction compiled in and `init_rs`
returning NULL, `ram_console_init` has accepted the region size (capacity
48 of a 256-byte region) but returns before the header is reset, so the
header still has `start = 2` and `size = 4` and no console is registered. -/
theorem C7_counterexample :
    region_accepted (some ecc_without_decoder) 184 256 ∧
      (ram_console_init (some ecc_without_decoder) 184 [] kmalloc_ok 1 sample_header
        (List.replicate 72 0) 256 none none).buffer.start = 2 ∧
      (ram_console_init (some ecc_without_decoder) 184 [] kmalloc_ok 1 sample_header
        (List.replicate 72 0) 256 none none).buffer.size = 4 ∧
      (ram_console_init (some ecc_without_decoder) 184 [] kmalloc_ok 1 sample_header
        (List.replicate 72 0) 256 none none).console_registered = false := by
  refine ⟨⟨by decide, ?_⟩, by decide, by decide, by decide⟩
  intro c h
  cases h
  decide

/-- C7 (amended): whatever the persisted header, the region contents and
the allocator are, once `ram_console_init` has accepted the region size and,
with error correction compiled in, `init_rs` has returned a decoder, it ends
with `signature = 0x43474244`, `start = 0` and `size = 0` and the console
registered; the next write of at most `C` bytes is stored at offset 0. -/
theorem C7_init_resets_header (cfg : Option ecc_config) (sizeof_buffer : Nat)
    (label : List Nat) (kmalloc : Nat → Option (List Nat)) (reset_reason : Nat)
    (hdr : ram_console_header) (mem : List Nat) (buffer_size : Nat)
    (bootinfo old_buf : Option (List Nat))
    (ha : region_accepted cfg sizeof_buffer buffer_size) (hd : decoder_obtained cfg) :
    (ram_console_init cfg sizeof_buffer label kmalloc reset_reason hdr mem buffer_size
        bootinfo old_buf).buffer.sig = RAM_CONSOLE_SIG ∧
      (ram_console_init cfg sizeof_buffer label kmalloc reset_reason hdr mem buffer_size
        bootinfo old_buf).buffer.start = 0 ∧
      (ram_console_init cfg sizeof_buffer label kmalloc reset_reason hdr mem buffer_size
        bootinfo old_buf).buffer.size = 0 ∧
      (ram_console_init cfg sizeof_buffer label kmalloc reset_reason hdr mem buffer_size
        bootinfo old_buf).console_registered = true ∧
      (∀ (s : List Nat) (count : Nat),
        (ram_console_init cfg sizeof_buffer label kmalloc reset_reason hdr mem buffer_size
          bootinfo old_buf).buffer_size < U32 →
        count ≤ (ram_console_init cfg sizeof_buffer label kmalloc reset_reason hdr mem
          buffer_size bootinfo old_buf).buffer_size →
        (ram_console_write cfg (ram_console_init cfg sizeof_buffer label kmalloc reset_reason
          hdr mem buffer_size bootinfo old_buf) s count).buffer.data
          = memcpy (ram_console_init cfg sizeof_buffer label kmalloc reset_reason hdr mem
              buffer_size bootinfo old_buf).buffer.data 0 s count) := by
  obtain ⟨st, hs, _⟩ := setup_ok_of_accepted cfg sizeof_buffer hdr mem buffer_size ha hd
  rw [init_of_setup_ok _ _ _ _ _ _ _ _ _ _ st hs]
  obtain ⟨h1, h2, h3, h4⟩ := recover_fields cfg label kmalloc reset_reason st bootinfo old_buf
  refine ⟨h1, h2, h3, h4, ?_⟩
  intro s count hC hc
  have hw := (write_nowrap cfg _ s count hc (by
    rw [h2]; simp only [sub32, U32] at *; omega)).2.2
  rw [hw, h2]

/-- Instance of the amended C7: a valid log whose export-buffer allocation fails still ends with the cursor rewound. -/
theorem C7_witness :
    (ram_console_init none 184 [] kmalloc_fail 1 sample_header (List.replicate 72 0) 256 none
      none).buffer.start = 0 :=
  (C7_init_resets_header none 184 [] kmalloc_fail 1 sample_header (List.replicate 72 0) 256
    none none ⟨by decide, fun c h => by cases h⟩ (fun c h => by cases h)).2.1

/-- C8 as stated fails: over a zeroed region (invalid signature) with the
external-reset bit set in the reset status, initialization ends with
current reason `EXTERNAL_RESET`, not `FRESH_BOOT`, and with
`count[EXTERNAL_RESET] = 1` next to `count[FRESH_BOOT] = 1`. -/
theorem C8_counterexample :
    (ram_console_init none 184 [] kmalloc_ok 1 ⟨0, 0, 0, boot_stat_zero, ⟨[], []⟩⟩
        (List.replicate 72 0) 256 none none).buffer.bs.reason = (EXTERNAL_RESET : Int) ∧
      (ram_console_init none 184 [] kmalloc_ok 1 ⟨0, 0, 0, boot_stat_zero, ⟨[], []⟩⟩
        (List.replicate 72 0) 256 none none).buffer.bs.reason ≠ (FRESH_BOOT : Int) ∧
      (ram_console_init none 184 [] kmalloc_ok 1 ⟨0, 0, 0, boot_stat_zero, ⟨[], []⟩⟩
        (List.replicate 72 0) 256 none none).buffer.bs.count EXTERNAL_RESET = 1 ∧
      (ram_console_init none 184 [] kmalloc_ok 1 ⟨0, 0, 0, boot_stat_zero, ⟨[], []⟩⟩
        (List.replicate 72 0) 256 none none).buffer.bs.count FRESH_BOOT = 1 := by
  decide

/-- C8 (amended): when initialization gets as far as the signature test and
the signature under test is invalid, then for every reset-status value no
previous log is exported, first boot is marked, `count[FRESH_BOOT] = 1`,
and, because a pending `FRESH_BOOT` is always refined by the hardware
inspection, the reason `h` found there (never `FRESH_BOOT`) is the current
boot reason and has `count[h] = 1`; every other counter is zero and the
pending reason is `UNKNOWN_REASON`. -/
theorem C8_first_boot_counts (cfg : Option ecc_config) (sizeof_buffer : Nat)
    (label : List Nat) (kmalloc : Nat → Option (List Nat)) (reset_reason : Nat)
    (hdr : ram_console_header) (mem : List Nat) (buffer_size : Nat)
    (bootinfo old_buf : Option (List Nat))
    (ha : region_accepted cfg sizeof_buffer buffer_size) (hd : decoder_obtained cfg) :
    ∃ st, ram_console_setup cfg sizeof_buffer hdr mem buffer_size = .ok st ∧
      (cfg = none → st.buffer.toram_console_header = hdr) ∧
      (st.buffer.sig ≠ RAM_CONSOLE_SIG →
        (ram_console_init cfg sizeof_buffer label kmalloc reset_reason hdr mem buffer_size
          bootinfo old_buf).old_log = none ∧
        (ram_console_init cfg sizeof_buffer label kmalloc reset_reason hdr mem buffer_size
          bootinfo old_buf).first_boot = true ∧
        (ram_console_init cfg sizeof_buffer label kmalloc reset_reason hdr mem buffer_size
          bootinfo old_buf).buffer.bs.reason = (hw_boot_reason reset_reason : Int) ∧
        hw_boot_reason reset_reason ≠ FRESH_BOOT ∧
        (ram_console_init cfg sizeof_buffer label kmalloc reset_reason hdr mem buffer_size
          bootinfo old_buf).buffer.bs.new_reason = (UNKNOWN_REASON : Int) ∧
        ∀ i, (ram_console_init cfg sizeof_buffer label kmalloc reset_reason hdr mem buffer_size
          bootinfo old_buf).buffer.bs.count i
            = if i = FRESH_BOOT ∨ i = hw_boot_reason reset_reason then 1 else 0) := by
  obtain ⟨st, hs, hnone⟩ := setup_ok_of_accepted cfg sizeof_buffer hdr mem buffer_size ha hd
  obtain ⟨h0, _, _, _, _⟩ := setup_statics cfg sizeof_buffer hdr mem buffer_size st hs
  refine ⟨st, hs, fun h => (hnone h).1, ?_⟩
  intro hsig
  rw [init_of_setup_ok _ _ _ _ _ _ _ _ _ _ st hs,
    recover_first_boot_stat cfg label kmalloc reset_reason st bootinfo old_buf hsig]
  have hne := (hw_boot_reason_ne_fresh reset_reason).1
  refine ⟨?_, ?_, rfl, hne, rfl, ?_⟩
  · unfold ram_console_recover
    simp only [init_boot_reason, hsig, if_false, h0]
  · unfold ram_console_recover
    simp only [init_boot_reason, hsig, if_false]
  · intro i
    simp only [boot_reason_commit, inc_boot_reason, boot_stat_zero]
    by_cases h1 : i = hw_boot_reason reset_reason
    · simp [h1, hne, U64]
    · by_cases h2 : i = FRESH_BOOT
      · subst h2
        simp [Ne.symm hne, U64]
      · simp [h1, h2]

/-- Instance of the amended C8: a zeroed region with the software-reset bit set boots with current reason `SW_RESTART`. -/
theorem C8_witness :
    (ram_console_init none 184 [] kmalloc_ok 8 ⟨0, 0, 0, boot_stat_zero, ⟨[], []⟩⟩
      (List.replicate 72 0) 256 none none).buffer.bs.reason = (SW_RESTART : Int) := by
  obtain ⟨st, _, hn, h⟩ := C8_first_boot_counts none 184 [] kmalloc_ok 8
    ⟨0, 0, 0, boot_stat_zero, ⟨[], []⟩⟩ (List.replicate 72 0) 256 none none
    ⟨by decide, fun c h => by cases h⟩ (fun c h => by cases h)
  have hsig : st.buffer.sig ≠ RAM_CONSOLE_SIG := by
    have e : st.buffer.sig = 0 := congrArg ram_console_header.sig (hn rfl)
    rw [e]; decide
  exact (h hsig).2.2.1

/-! ## Boot-reason tracker: claims C9 and C10 -/

theorem recover_valid_stat (cfg : Option ecc_config) (label : List Nat)
    (kmalloc : Nat → Option (List Nat)) (reset_reason : Nat) (st : ram_console_state)
    (bootinfo old_buf : Option (List Nat)) (hsig : st.buffer.sig = RAM_CONSOLE_SIG)
    (hfb : st.first_boot = false) :
    (ram_console_recover cfg label kmalloc reset_reason st bootinfo old_buf).buffer.bs
      = boot_reason_commit (boot_reason_pending false reset_reason st.buffer.bs) := by
  unfold ram_console_recover
  simp only [init_boot_reason, hsig, if_true]
  split_ifs
  · simp only [hfb]
  · have h := save_old_header cfg label kmalloc st bootinfo old_buf
    have hbs : (ram_console_save_old cfg label kmalloc st bootinfo old_buf).buffer.bs
        = st.buffer.bs := congrArg ram_console_header.bs h.1
    simp only [h.2.1, hfb, hbs]

theorem pending_of_known (reset_reason : Nat) (bs : boot_stat) (r : Nat)
    (hr : bs.new_reason = (r : Int)) (h0 : r ≠ FRESH_BOOT) (h1 : r ≠ UNKNOWN_REASON)
    (h2 : r < END_REASON) : boot_reason_pending false reset_reason bs = bs := by
  have e1 : ¬ ((r : Int) < (FRESH_BOOT : Int) ∨ (r : Int) ≥ (END_REASON : Int)) := by
    simp only [FRESH_BOOT, END_REASON] at *; omega
  have e2 : (r : Int) ≠ (UNKNOWN_REASON : Int) ∧ (r : Int) ≠ (FRESH_BOOT : Int) := by
    simp only [FRESH_BOOT, UNKNOWN_REASON] at *; omega
  unfold boot_reason_pending boot_reason_software
  simp only [Bool.false_eq_true, if_false, hr, e1, e2, and_self, ne_eq, not_false_eq_true,
    if_true]

theorem record_stat (st : ram_console_state) (kind : kmsg_dump_reason) (r : Nat)
    (hk : (kind, r) ∈ [(kmsg_dump_reason.KMSG_DUMP_OOPS, OOPS_RESTART),
      (kmsg_dump_reason.KMSG_DUMP_PANIC, PANIC_RESTART),
      (kmsg_dump_reason.KMSG_DUMP_RESTART, SW_RESTART),
      (kmsg_dump_reason.KMSG_DUMP_HALT, HALT_RESTART),
      (kmsg_dump_reason.KMSG_DUMP_POWEROFF, POWEROFF_RESTART),
      (kmsg_dump_reason.KMSG_DUMP_EMERG, EMERG_RESTART),
      (kmsg_dump_reason.KMSG_DUMP_KEXEC, KEXEC_RESTART)])
    (hinst : st.installed = true) (hrec : st.recorded = false) :
    (record_boot_reason st kind).buffer.bs = inc_boot_reason r st.buffer.bs ∧
      r ≠ FRESH_BOOT ∧ r ≠ UNKNOWN_REASON ∧ r < END_REASON := by
  simp only [List.mem_cons, Prod.mk.injEq, List.mem_singleton, List.not_mem_nil, or_false] at hk
  unfold record_boot_reason
  rcases hk with ⟨rfl, rfl⟩ | ⟨rfl, rfl⟩ | ⟨rfl, rfl⟩ | ⟨rfl, rfl⟩ | ⟨rfl, rfl⟩ | ⟨rfl, rfl⟩
    | ⟨rfl, rfl⟩ <;>
  · simp only [hinst, hrec]
    exact ⟨rfl, by decide, by decide, by decide⟩

/-- C9 as stated fails for the largest counter value: with
`count[OOPS_RESTART] = 2^64 - 1`, recording an oops and initializing the next
boot over the still-valid header leaves `count[OOPS_RESTART] = 0` (the
64-bit counter wraps), not `2^64`. -/
theorem C9_counterexample :
    saturated_session.buffer.bs.count OOPS_RESTART = 18446744073709551615 ∧
      (ram_console_init none 184 [] kmalloc_ok 1
        ⟨RAM_CONSOLE_SIG, 0, 0,
          (record_boot_reason saturated_session kmsg_dump_reason.KMSG_DUMP_OOPS).buffer.bs,
          ⟨[], []⟩⟩
        (List.replicate 72 0) 256 none none).buffer.bs.count OOPS_RESTART = 0 ∧
      (ram_console_init none 184 [] kmalloc_ok 1
        ⟨RAM_CONSOLE_SIG, 0, 0,
          (record_boot_reason saturated_session kmsg_dump_reason.KMSG_DUMP_OOPS).buffer.bs,
          ⟨[], []⟩⟩
        (List.replicate 72 0) 256 none none).buffer.bs.count OOPS_RESTART
        ≠ 18446744073709551615 + 1 := by
  decide

/-- C9 (amended): for each software-notified kind with its reason `r` and
every prior count `n < 2^64 - 1`: if the first `record_boot_reason` call of
a session is for that kind while `count[r] = n`, and the next boot reaches
the signature test with a valid signature over the boot-stat record the
session left, then after initialization `count[r] = n + 1`,
`current_reason = r`, the pending reason is `UNKNOWN_REASON` and every other
counter has its prior value. -/
theorem C9_recorded_reason_counted_once (cfg : Option ecc_config) (sizeof_buffer : Nat)
    (label : List Nat) (kmalloc : Nat → Option (List Nat)) (reset_reason : Nat)
    (hdr : ram_console_header) (mem : List Nat) (buffer_size : Nat)
    (bootinfo old_buf : Option (List Nat)) (session next : ram_console_state)
    (kind : kmsg_dump_reason) (r n : Nat)
    (hk : (kind, r) ∈ [(kmsg_dump_reason.KMSG_DUMP_OOPS, OOPS_RESTART),
      (kmsg_dump_reason.KMSG_DUMP_PANIC, PANIC_RESTART),
      (kmsg_dump_reason.KMSG_DUMP_RESTART, SW_RESTART),
      (kmsg_dump_reason.KMSG_DUMP_HALT, HALT_RESTART),
      (kmsg_dump_reason.KMSG_DUMP_POWEROFF, POWEROFF_RESTART),
      (kmsg_dump_reason.KMSG_DUMP_EMERG, EMERG_RESTART),
      (kmsg_dump_reason.KMSG_DUMP_KEXEC, KEXEC_RESTART)])
    (hinst : session.installed = true) (hrec : session.recorded = false)
    (hn : session.buffer.bs.count r = n) (hmax : n < U64 - 1)
    (hsetup : ram_console_setup cfg sizeof_buffer hdr mem buffer_size = .ok next)
    (hsig : next.buffer.sig = RAM_CONSOLE_SIG)
    (hbs : next.buffer.bs = (record_boot_reason session kind).buffer.bs) :
    (ram_console_init cfg sizeof_buffer label kmalloc reset_reason hdr mem buffer_size
        bootinfo old_buf).buffer.bs.count r = n + 1 ∧
      (ram_console_init cfg sizeof_buffer label kmalloc reset_reason hdr mem buffer_size
        bootinfo old_buf).buffer.bs.reason = (r : Int) ∧
      (ram_console_init cfg sizeof_buffer label kmalloc reset_reason hdr mem buffer_size
        bootinfo old_buf).buffer.bs.new_reason = (UNKNOWN_REASON : Int) ∧
      ∀ i, i ≠ r →
        (ram_console_init cfg sizeof_buffer label kmalloc reset_reason hdr mem buffer_size
          bootinfo old_buf).buffer.bs.count i = session.buffer.bs.count i := by
  obtain ⟨_, _, hfb, _, _⟩ := setup_statics cfg sizeof_buffer hdr mem buffer_size next hsetup
  obtain ⟨hr, h0, h1, h2⟩ := record_stat session kind r hk hinst hrec
  rw [init_of_setup_ok _ _ _ _ _ _ _ _ _ _ next hsetup,
    recover_valid_stat cfg label kmalloc reset_reason next bootinfo old_buf hsig hfb, hbs, hr,
    pending_of_known reset_reason _ r rfl h0 h1 h2]
  refine ⟨?_, rfl, rfl, ?_⟩
  · simp only [boot_reason_commit, inc_boot_reason, if_true, hn]
    simp only [U64] at *
    omega
  · intro i hi
    simp only [boot_reason_commit, inc_boot_reason, hi, if_false]

/-- Instance of the amended C9 (Scenario C): `count[OOPS_RESTART]` goes from 2 to 3. -/
theorem C9_witness :
    (ram_console_init none 184 [] kmalloc_ok 1
      ⟨RAM_CONSOLE_SIG, 0, 0,
        (record_boot_reason scenario_session kmsg_dump_reason.KMSG_DUMP_OOPS).buffer.bs,
        ⟨[], []⟩⟩
      (List.replicate 72 0) 256 none none).buffer.bs.count OOPS_RESTART = 2 + 1 := by
  obtain ⟨st, hs, hn⟩ := setup_ok_of_accepted none 184
    ⟨RAM_CONSOLE_SIG, 0, 0,
      (record_boot_reason scenario_session kmsg_dump_reason.KMSG_DUMP_OOPS).buffer.bs,
      ⟨[], []⟩⟩
    (List.replicate 72 0) 256 ⟨by decide, fun c h => by cases h⟩ (fun c h => by cases h)
  exact (C9_recorded_reason_counted_once none 184 [] kmalloc_ok 1 _ (List.replicate 72 0) 256
    none none scenario_session st kmsg_dump_reason.KMSG_DUMP_OOPS OOPS_RESTART 2
    (by decide) rfl rfl (by decide) (by decide) hs
    (congrArg ram_console_header.sig (hn rfl).1)
    (congrArg ram_console_header.bs (hn rfl).1)).1

theorem and_bit_ne_zero (n k : Nat) : (n &&& (1 <<< k) ≠ 0) ↔ n.testBit k = true := by
  rw [Nat.one_shiftLeft, Nat.and_two_pow]
  cases n.testBit k <;> simp

theorem hw_boot_reason_priority (reset_reason : Nat) :
    hw_boot_reason reset_reason
      = if reset_reason.testBit 3 then SW_RESTART
        else if reset_reason.testBit 1 then WR_RESET
        else if reset_reason.testBit 2 then WDT_RESET
        else if reset_reason.testBit 0 then EXTERNAL_RESET
        else if reset_reason.testBit 16 then SLEEP_WAKEUP_RESET
        else if reset_reason.testBit 19 then DIDLE_WAKEUP_RESET
        else if reset_reason.testBit 18 then DSTOP_WAKEUP_RESET
        else UNKNOWN_REASON := by
  unfold hw_boot_reason
  simp only [SWRESET, WRESET, WDTRESET, ERESET, SLEEP_WAKEUP, DIDLE_WAKEUP, DSTOP_WAKEUP,
    and_bit_ne_zero]

/-- C10: when `init_boot_reason` falls back to hardware inspection (the
pending reason it examines is `UNKNOWN_REASON` or `FRESH_BOOT`; on a boot
with a valid signature that is the stored pending reason), then for every
reset-status value exactly one counter changes, by one 64-bit increment
`count[r]++`, and the pending reason is set to `r`, which is then committed
as the current reason; `r` is the reason of the first set bit in the order
bit 3 (`SW_RESTART`), bit 1 (`WR_RESET`), bit 2 (`WDT_RESET`), bit 0
(`EXTERNAL_RESET`), bit 16 (`SLEEP_WAKEUP_RESET`), bit 19
(`DIDLE_WAKEUP_RESET`), bit 18 (`DSTOP_WAKEUP_RESET`), and `UNKNOWN_REASON`
when none of them is set. -/
theorem C10_hardware_fallback_priority (reset_reason : Nat) (st : ram_console_state)
    (h : (boot_reason_software st.first_boot st.buffer.bs).2 = (UNKNOWN_REASON : Int) ∨
      (boot_reason_software st.first_boot st.buffer.bs).2 = (FRESH_BOOT : Int)) :
    (st.first_boot = false →
        st.buffer.bs.new_reason = (UNKNOWN_REASON : Int) ∨
          st.buffer.bs.new_reason = (FRESH_BOOT : Int) →
        boot_reason_software st.first_boot st.buffer.bs
          = (st.buffer.bs, st.buffer.bs.new_reason)) ∧
      (boot_reason_pending st.first_boot reset_reason st.buffer.bs).new_reason
        = (hw_boot_reason reset_reason : Int) ∧
      (boot_reason_pending st.first_boot reset_reason st.buffer.bs).count
          (hw_boot_reason reset_reason)
        = ((boot_reason_software st.first_boot st.buffer.bs).1.count
            (hw_boot_reason reset_reason) + 1) % U64 ∧
      (∀ i, i ≠ hw_boot_reason reset_reason →
        (boot_reason_pending st.first_boot reset_reason st.buffer.bs).count i
          = (boot_reason_software st.first_boot st.buffer.bs).1.count i) ∧
      (init_boot_reason reset_reason st).buffer.bs.reason = (hw_boot_reason reset_reason : Int) ∧
      (init_boot_reason reset_reason st).buffer.bs.count
        = (boot_reason_pending st.first_boot reset_reason st.buffer.bs).count ∧
      hw_boot_reason reset_reason
        = (if reset_reason.testBit 3 then SW_RESTART
          else if reset_reason.testBit 1 then WR_RESET
          else if reset_reason.testBit 2 then WDT_RESET
          else if reset_reason.testBit 0 then EXTERNAL_RESET
          else if reset_reason.testBit 16 then SLEEP_WAKEUP_RESET
          else if reset_reason.testBit 19 then DIDLE_WAKEUP_RESET
          else if reset_reason.testBit 18 then DSTOP_WAKEUP_RESET
          else UNKNOWN_REASON) := by
  have hp : boot_reason_pending st.first_boot reset_reason st.buffer.bs
      = inc_boot_reason (hw_boot_reason reset_reason)
          (boot_reason_software st.first_boot st.buffer.bs).1 := by
    unfold boot_reason_pending
    simp only []
    rw [if_neg]
    rcases h with h | h <;> simp [h]
  refine ⟨?_, ?_, ?_, ?_, ?_, ?_, hw_boot_reason_priority reset_reason⟩
  · intro hfb hr
    unfold boot_reason_software
    simp only [hfb, Bool.false_eq_true, if_false]
    rw [if_neg]
    simp only [FRESH_BOOT, UNKNOWN_REASON, END_REASON] at hr ⊢
    rcases hr with hr | hr <;> rw [hr] <;> decide
  · rw [hp]; rfl
  · rw [hp]; simp [inc_boot_reason]
  · intro i hi
    rw [hp]; simp [inc_boot_reason, hi]
  · simp only [init_boot_reason, boot_reason_commit, hp]; rfl
  · simp only [init_boot_reason, boot_reason_commit]

/-- Instance of C10: reset status `0b1010` has bits 3 and 1 set, and bit 3 (`SW_RESTART`) wins. -/
theorem C10_witness :
    (init_boot_reason 10 scenario_session).buffer.bs.reason = (SW_RESTART : Int) ∧
      (boot_reason_pending scenario_session.first_boot 10 scenario_session.buffer.bs).count
        SW_RESTART = 1 := by
  have h := C10_hardware_fallback_priority 10 scenario_session (Or.inl (by decide))
  refine ⟨h.2.2.2.2.1.trans (by decide), h.2.2.1.trans (by decide)⟩

/-! ## Boot-reason tracker: claims C11 to C14 -/

theorem record_when_recorded (st : ram_console_state) (kind : kmsg_dump_reason)
    (h : st.recorded = true) : record_boot_reason st kind = st := by
  unfold record_boot_reason
  simp [h]

theorem record_sets_recorded (st : ram_console_state) (kind : kmsg_dump_reason)
    (hinst : st.installed = true) : (record_boot_reason st kind).recorded = true := by
  unfold record_boot_reason
  by_cases h : st.recorded = true
  · simp [h]
  · simp only [hinst, h]
    cases kind <;> rfl

/-- C11: `record_boot_reason` records at most once per boot. After its first
call on an installed buffer, any sequence of later calls, with any reason
kinds, leaves the whole driver state as it was; in particular
`pending_reason`, `current_reason` and every counter are unchanged. -/
theorem C11_record_at_most_once (st : ram_console_state) (first : kmsg_dump_reason)
    (later : List kmsg_dump_reason) (hinst : st.installed = true) :
    later.foldl record_boot_reason (record_boot_reason st first) = record_boot_reason st first ∧
      (later.foldl record_boot_reason (record_boot_reason st first)).buffer.bs.new_reason
        = (record_boot_reason st first).buffer.bs.new_reason ∧
      (later.foldl record_boot_reason (record_boot_reason st first)).buffer.bs.reason
        = (record_boot_reason st first).buffer.bs.reason ∧
      ∀ i, (later.foldl record_boot_reason (record_boot_reason st first)).buffer.bs.count i
        = (record_boot_reason st first).buffer.bs.count i := by
  have hr := record_sets_recorded st first hinst
  have key : later.foldl record_boot_reason (record_boot_reason st first)
      = record_boot_reason st first := by
    induction later with
    | nil => rfl
    | cons k ks ih =>
      rw [List.foldl_cons, record_when_recorded _ k hr]
      exact ih
  rw [key]
  exact ⟨rfl, rfl, rfl, fun _ => rfl⟩

/-- Instance of C11: after an oops was recorded in the Scenario C session, a
later panic and restart notification leave `count[PANIC_RESTART]` at 0 and
the pending reason at `OOPS_RESTART`. -/
theorem C11_witness :
    ([kmsg_dump_reason.KMSG_DUMP_PANIC, kmsg_dump_reason.KMSG_DUMP_RESTART].foldl
        record_boot_reason
        (record_boot_reason scenario_session kmsg_dump_reason.KMSG_DUMP_OOPS)).buffer.bs.count
        PANIC_RESTART = 0 ∧
      ([kmsg_dump_reason.KMSG_DUMP_PANIC, kmsg_dump_reason.KMSG_DUMP_RESTART].foldl
        record_boot_reason
        (record_boot_reason scenario_session kmsg_dump_reason.KMSG_DUMP_OOPS)).buffer.bs.new_reason
        = (OOPS_RESTART : Int) := by
  have h := C11_record_at_most_once scenario_session kmsg_dump_reason.KMSG_DUMP_OOPS
    [kmsg_dump_reason.KMSG_DUMP_PANIC, kmsg_dump_reason.KMSG_DUMP_RESTART] rfl
  exact ⟨(h.2.2.2 PANIC_RESTART).trans (by decide), h.2.1.trans (by decide)⟩

theorem hw_boot_reason_range (reset_reason : Nat) :
    (0 : Int) ≤ (hw_boot_reason reset_reason : Int) ∧
      (hw_boot_reason reset_reason : Int) < (END_REASON : Int) := by
  have h := (hw_boot_reason_ne_fresh reset_reason).2
  constructor
  · exact Int.natCast_nonneg _
  · exact_mod_cast h

/-- The fallback test of `init_boot_reason` lets a pending reason through to
`out` exactly when it is a known reason: in range, not `FRESH_BOOT`, not
`UNKNOWN_REASON`. -/
theorem pending_cases (first_boot : Bool) (reset_reason : Nat) (bs : boot_stat) :
    (first_boot = false ∧ (FRESH_BOOT : Int) < bs.new_reason ∧
        bs.new_reason < (UNKNOWN_REASON : Int) →
      boot_reason_pending first_boot reset_reason bs = bs) ∧
    (¬ (first_boot = false ∧ (FRESH_BOOT : Int) < bs.new_reason ∧
        bs.new_reason < (UNKNOWN_REASON : Int)) →
      boot_reason_pending first_boot reset_reason bs
        = inc_boot_reason (hw_boot_reason reset_reason)
            (boot_reason_software first_boot bs).1) := by
  constructor
  · rintro ⟨hfb, h1, h2⟩
    subst hfb
    have e1 : ¬ (bs.new_reason < (FRESH_BOOT : Int) ∨ bs.new_reason ≥ (END_REASON : Int)) := by
      simp only [FRESH_BOOT, UNKNOWN_REASON, END_REASON] at *; omega
    have e2 : bs.new_reason ≠ (UNKNOWN_REASON : Int) ∧ bs.new_reason ≠ (FRESH_BOOT : Int) := by
      simp only [FRESH_BOOT, UNKNOWN_REASON] at *; omega
    unfold boot_reason_pending boot_reason_software
    simp only [Bool.false_eq_true, if_false, e1, e2, and_self, ne_eq, not_false_eq_true,
      if_true]
  · intro h
    unfold boot_reason_pending
    simp only []
    rw [if_neg]
    intro hc
    apply h
    unfold boot_reason_software at hc
    cases first_boot with
    | true =>
      exfalso
      simp [inc_boot_reason, boot_stat_zero, FRESH_BOOT, UNKNOWN_REASON, END_REASON] at hc
    | false =>
      simp only [Bool.false_eq_true, if_false] at hc
      by_cases hb : bs.new_reason < (FRESH_BOOT : Int) ∨ bs.new_reason ≥ (END_REASON : Int)
      · rw [if_pos hb] at hc
        exact absurd rfl hc.1
      · rw [if_neg hb] at hc
        refine ⟨rfl, ?_, ?_⟩ <;>
        · simp only [FRESH_BOOT, UNKNOWN_REASON, END_REASON] at *
          omega

/-- C12: for every stored boot-stat record, first-boot flag and reset-status
value, after `init_boot_reason` the pending reason is `UNKNOWN_REASON` and
`current_reason` is the pending reason in effect at the label `out`: the
stored pending reason when no increment was made for this boot (which
happens exactly when it is a known reason on a boot with a valid
signature, and then no counter changes), and otherwise the reason of the
last increment, the one of the hardware inspection. It always lies in
`[FRESH_BOOT, END_REASON)`. -/
theorem C12_commit_pending_reason (reset_reason : Nat) (st : ram_console_state) :
    (init_boot_reason reset_reason st).buffer.bs.new_reason = (UNKNOWN_REASON : Int) ∧
      (init_boot_reason reset_reason st).buffer.bs.reason
        = (boot_reason_pending st.first_boot reset_reason st.buffer.bs).new_reason ∧
      (st.first_boot = false ∧ (FRESH_BOOT : Int) < st.buffer.bs.new_reason ∧
          st.buffer.bs.new_reason < (UNKNOWN_REASON : Int) →
        (init_boot_reason reset_reason st).buffer.bs.reason = st.buffer.bs.new_reason ∧
        (init_boot_reason reset_reason st).buffer.bs.count = st.buffer.bs.count) ∧
      (¬ (st.first_boot = false ∧ (FRESH_BOOT : Int) < st.buffer.bs.new_reason ∧
          st.buffer.bs.new_reason < (UNKNOWN_REASON : Int)) →
        (init_boot_reason reset_reason st).buffer.bs.reason
          = (hw_boot_reason reset_reason : Int)) ∧
      (FRESH_BOOT : Int) ≤ (init_boot_reason reset_reason st).buffer.bs.reason ∧
      (init_boot_reason reset_reason st).buffer.bs.reason < (END_REASON : Int) := by
  obtain ⟨hk, hf⟩ := pending_cases st.first_boot reset_reason st.buffer.bs
  have e : (init_boot_reason reset_reason st).buffer.bs
      = boot_reason_commit (boot_reason_pending st.first_boot reset_reason st.buffer.bs) := rfl
  refine ⟨rfl, rfl, ?_, ?_, ?_⟩
  · intro h
    rw [e, hk h]
    exact ⟨rfl, rfl⟩
  · intro h
    rw [e, hf h]
    rfl
  · by_cases h : st.first_boot = false ∧ (FRESH_BOOT : Int) < st.buffer.bs.new_reason ∧
        st.buffer.bs.new_reason < (UNKNOWN_REASON : Int)
    · rw [e, hk h]
      simp only [boot_reason_commit, FRESH_BOOT, UNKNOWN_REASON, END_REASON] at *
      omega
    · rw [e, hf h]
      have := hw_boot_reason_range reset_reason
      simp only [boot_reason_commit, inc_boot_reason]
      exact ⟨Int.natCast_nonneg _, this.2⟩

/-- C13: on a boot with a valid signature, a stored pending reason outside
`[FRESH_BOOT, END_REASON)` makes `init_boot_reason` treat the record as
corrupt: the resulting record is a function of the reset status alone (no
prior counter value survives): `count[UNKNOWN_REASON]` is incremented once
after the reset and the hardware inspection increments the counter of its
reason `h` once, so `count[UNKNOWN_REASON] ≥ 1` and every counter is at most
2; the current reason is `h`. -/
theorem C13_corrupt_pending_resets_record (cfg : Option ecc_config) (sizeof_buffer : Nat)
    (label : List Nat) (kmalloc : Nat → Option (List Nat)) (reset_reason : Nat)
    (hdr : ram_console_header) (mem : List Nat) (buffer_size : Nat)
    (bootinfo old_buf : Option (List Nat)) (next : ram_console_state)
    (hsetup : ram_console_setup cfg sizeof_buffer hdr mem buffer_size = .ok next)
    (hsig : next.buffer.sig = RAM_CONSOLE_SIG)
    (hbad : next.buffer.bs.new_reason < (FRESH_BOOT : Int) ∨
      next.buffer.bs.new_reason ≥ (END_REASON : Int)) :
    (ram_console_init cfg sizeof_buffer label kmalloc reset_reason hdr mem buffer_size
        bootinfo old_buf).buffer.bs
        = boot_reason_commit (inc_boot_reason (hw_boot_reason reset_reason)
            (inc_boot_reason UNKNOWN_REASON boot_stat_zero)) ∧
      (∀ i, (ram_console_init cfg sizeof_buffer label kmalloc reset_reason hdr mem buffer_size
        bootinfo old_buf).buffer.bs.count i
          = (if i = UNKNOWN_REASON then 1 else 0)
            + (if i = hw_boot_reason reset_reason then 1 else 0)) ∧
      (ram_console_init cfg sizeof_buffer label kmalloc reset_reason hdr mem buffer_size
        bootinfo old_buf).buffer.bs.count UNKNOWN_REASON ≥ 1 ∧
      (∀ i, (ram_console_init cfg sizeof_buffer label kmalloc reset_reason hdr mem buffer_size
        bootinfo old_buf).buffer.bs.count i ≤ 2) ∧
      (ram_console_init cfg sizeof_buffer label kmalloc reset_reason hdr mem buffer_size
        bootinfo old_buf).buffer.bs.reason = (hw_boot_reason reset_reason : Int) ∧
      (ram_console_init cfg sizeof_buffer label kmalloc reset_reason hdr mem buffer_size
        bootinfo old_buf).buffer.bs.new_reason = (UNKNOWN_REASON : Int) := by
  obtain ⟨_, _, hfb, _, _⟩ := setup_statics cfg sizeof_buffer hdr mem buffer_size next hsetup
  have hp : boot_reason_pending false reset_reason next.buffer.bs
      = inc_boot_reason (hw_boot_reason reset_reason)
          (inc_boot_reason UNKNOWN_REASON boot_stat_zero) := by
    unfold boot_reason_pending boot_reason_software
    simp only [Bool.false_eq_true, if_false, hbad, if_true]
    rw [if_neg]
    simp
  have hcount : ∀ i, (boot_reason_commit (inc_boot_reason (hw_boot_reason reset_reason)
      (inc_boot_reason UNKNOWN_REASON boot_stat_zero))).count i
        = (if i = UNKNOWN_REASON then 1 else 0)
          + (if i = hw_boot_reason reset_reason then 1 else 0) := by
    intro i
    simp only [boot_reason_commit, inc_boot_reason, boot_stat_zero, U64]
    by_cases h1 : i = hw_boot_reason reset_reason
    · by_cases h2 : hw_boot_reason reset_reason = UNKNOWN_REASON
      · simp [h1, h2]
      · simp [h1, h2]
    · by_cases h2 : i = UNKNOWN_REASON
      · subst h2
        simp [h1, Ne.symm h1]
      · simp [h1, h2]
  rw [init_of_setup_ok _ _ _ _ _ _ _ _ _ _ next hsetup,
    recover_valid_stat cfg label kmalloc reset_reason next bootinfo old_buf hsig hfb, hp]
  refine ⟨rfl, hcount, ?_, ?_, rfl, rfl⟩
  · rw [hcount]; simp
  · intro i
    rw [hcount]
    split_ifs <;> omega

/-- Instance of C13: a header with pending reason 99 and
`count[OOPS_RESTART] = 3`, booted with the watchdog bit set, ends with
`count[OOPS_RESTART] = 0`. -/
theorem C13_witness :
    (ram_console_init none 184 [] kmalloc_ok 4 corrupt_reason_header (List.replicate 72 0) 256
      none none).buffer.bs.count OOPS_RESTART = 0 := by
  obtain ⟨st, hs, hn⟩ := setup_ok_of_accepted none 184 corrupt_reason_header
    (List.replicate 72 0) 256 ⟨by decide, fun c h => by cases h⟩ (fun c h => by cases h)
  have hb : st.buffer.bs = corrupt_reason_header.bs := congrArg ram_console_header.bs (hn rfl).1
  have h := C13_corrupt_pending_resets_record none 184 [] kmalloc_ok 4 corrupt_reason_header
    (List.replicate 72 0) 256 none none st hs
    (congrArg ram_console_header.sig (hn rfl).1) (by rw [hb]; decide)
  exact (h.2.1 OOPS_RESTART).trans (by decide)

/-- C14 as stated fails: over a header with a valid signature and
`size = 100 > C = 72`, recovery is skipped but the boot-reason record is
kept: `count[OOPS_RESTART]` is still 3 and the recorded `OOPS_RESTART`
becomes the current reason, whereas the same region with an invalid
signature comes up with `count[OOPS_RESTART] = 0`. -/
theorem C14_counterexample :
    stale_cursor_header.sig = RAM_CONSOLE_SIG ∧ stale_cursor_header.size > 72 ∧
      (ram_console_init none 184 [] kmalloc_ok 1 stale_cursor_header (List.replicate 72 0) 256
        none none).buffer_size = 72 ∧
      (ram_console_init none 184 [] kmalloc_ok 1 stale_cursor_header (List.replicate 72 0) 256
        none none).old_log = none ∧
      (ram_console_init none 184 [] kmalloc_ok 1 stale_cursor_header (List.replicate 72 0) 256
        none none).buffer.bs.count OOPS_RESTART = 3 ∧
      (ram_console_init none 184 [] kmalloc_ok 1 stale_cursor_header (List.replicate 72 0) 256
        none none).buffer.bs.reason = (OOPS_RESTART : Int) ∧
      (ram_console_init none 184 [] kmalloc_ok 1 { stale_cursor_header with sig := 0 }
        (List.replicate 72 0) 256 none none).buffer.bs.count OOPS_RESTART = 0 := by
  decide

/-- C14 (amended): when initialization reaches the signature test with a
valid signature but `size > C` or `start > size`, it skips recovery (no log,
first boot not marked), rewinds the cursor, and treats the boot-reason
record as on any other boot with a valid signature: the record is
`init_boot_reason` of the stored one, so with a stored pending reason in
range no counter is cleared (each keeps its value, except for the one
increment of the hardware inspection when that runs). -/
theorem C14_out_of_range_cursor_keeps_counters (cfg : Option ecc_config)
    (sizeof_buffer : Nat) (label : List Nat) (kmalloc : Nat → Option (List Nat))
    (reset_reason : Nat) (hdr : ram_console_header) (mem : List Nat) (buffer_size : Nat)
    (bootinfo old_buf : Option (List Nat)) (next : ram_console_state)
    (hsetup : ram_console_setup cfg sizeof_buffer hdr mem buffer_size = .ok next)
    (hsig : next.buffer.sig = RAM_CONSOLE_SIG)
    (hcur : next.buffer.size > next.buffer_size ∨ next.buffer.start > next.buffer.size) :
    (ram_console_init cfg sizeof_buffer label kmalloc reset_reason hdr mem buffer_size
        bootinfo old_buf).old_log = none ∧
      (ram_console_init cfg sizeof_buffer label kmalloc reset_reason hdr mem buffer_size
        bootinfo old_buf).first_boot = false ∧
      (ram_console_init cfg sizeof_buffer label kmalloc reset_reason hdr mem buffer_size
        bootinfo old_buf).buffer.start = 0 ∧
      (ram_console_init cfg sizeof_buffer label kmalloc reset_reason hdr mem buffer_size
        bootinfo old_buf).buffer.size = 0 ∧
      (ram_console_init cfg sizeof_buffer label kmalloc reset_reason hdr mem buffer_size
        bootinfo old_buf).buffer.bs
        = boot_reason_commit (boot_reason_pending false reset_reason next.buffer.bs) ∧
      ((FRESH_BOOT : Int) ≤ next.buffer.bs.new_reason →
        next.buffer.bs.new_reason < (END_REASON : Int) →
        ∀ i, i ≠ hw_boot_reason reset_reason →
          (ram_console_init cfg sizeof_buffer label kmalloc reset_reason hdr mem buffer_size
            bootinfo old_buf).buffer.bs.count i = next.buffer.bs.count i) := by
  obtain ⟨h0, _, hfb, _, _⟩ := setup_statics cfg sizeof_buffer hdr mem buffer_size next hsetup
  have hbs := recover_valid_stat cfg label kmalloc reset_reason next bootinfo old_buf hsig hfb
  rw [init_of_setup_ok _ _ _ _ _ _ _ _ _ _ next hsetup]
  obtain ⟨_, h2, h3, _⟩ := recover_fields cfg label kmalloc reset_reason next bootinfo old_buf
  refine ⟨?_, ?_, h2, h3, hbs, ?_⟩
  · unfold ram_console_recover
    simp only [init_boot_reason, hsig, hcur, if_true, h0]
  · unfold ram_console_recover
    simp only [init_boot_reason, hsig, hcur, if_true, hfb]
  · intro hlo hhi i hi
    rw [hbs]
    have hsw : boot_reason_software false next.buffer.bs
        = (next.buffer.bs, next.buffer.bs.new_reason) := by
      unfold boot_reason_software
      simp only [Bool.false_eq_true, if_false]
      rw [if_neg]
      simp only [FRESH_BOOT, END_REASON] at *
      omega
    unfold boot_reason_pending
    simp only [hsw, boot_reason_commit]
    split_ifs
    · rfl
    · simp [inc_boot_reason, hi]

/-- Instance of the amended C14 at the header of the counterexample:
`count[OOPS_RESTART]` keeps its value 3. -/
theorem C14_witness :
    (ram_console_init none 184 [] kmalloc_ok 1 stale_cursor_header (List.replicate 72 0) 256
      none none).buffer.bs.count OOPS_RESTART = 3 := by
  obtain ⟨st, hs, hn⟩ := setup_ok_of_accepted none 184 stale_cursor_header
    (List.replicate 72 0) 256 ⟨by decide, fun c h => by cases h⟩ (fun c h => by cases h)
  have hb : st.buffer.bs = stale_cursor_header.bs := congrArg ram_console_header.bs (hn rfl).1
  have hsz : st.buffer.size = stale_cursor_header.size :=
    congrArg ram_console_header.size (hn rfl).1
  have h := C14_out_of_range_cursor_keeps_counters none 184 [] kmalloc_ok 1
    stale_cursor_header (List.replicate 72 0) 256 none none st hs
    (congrArg ram_console_header.sig (hn rfl).1)
    (Or.inl (by rw [hsz, (hn rfl).2.2]; decide))
  have h6 := h.2.2.2.2.2 (by rw [hb]; decide) (by rw [hb]; decide) OOPS_RESTART (by decide)
  rw [h6, hb]
  decide

/-! ## Initialization on a reset header: claim C19 -/

theorem memcpy_nothing (dst src : List Nat) : memcpy dst 0 src 0 = dst := by
  simp [memcpy]

theorem setup_error_header (cfg : Option ecc_config) (sizeof_buffer : Nat)
    (hdr : ram_console_header) (mem : List Nat) (buffer_size : Nat) (st : ram_console_state)
    (h : ram_console_setup cfg sizeof_buffer hdr mem buffer_size = .error st) :
    st.buffer.toram_console_header = hdr ∧ st.old_log = none ∧ st.old_log_size = 0 := by
  unfold ram_console_setup at h
  simp only [] at h
  split_ifs at h
  · simp only [Except.error.injEq] at h
    subst h
    exact ⟨rfl, rfl, rfl⟩
  · cases cfg with
    | none => simp at h
    | some c =>
      simp only [] at h
      split_ifs at h
      · simp only [Except.error.injEq] at h
        subst h
        exact ⟨rfl, rfl, rfl⟩
      · cases hr : c.init_rs with
        | none =>
          simp only [hr, Except.error.injEq] at h
          subst h
          exact ⟨rfl, rfl, rfl⟩
        | some rs =>
          simp only [hr] at h
          split_ifs at h

theorem init_cursor_of_reset (cfg : Option ecc_config) (sizeof_buffer : Nat)
    (label : List Nat) (kmalloc : Nat → Option (List Nat)) (reset_reason : Nat)
    (hdr : ram_console_header) (mem : List Nat) (buffer_size : Nat)
    (bootinfo old_buf : Option (List Nat))
    (hsig : hdr.sig = RAM_CONSOLE_SIG) (hstart : hdr.start = 0) (hsize : hdr.size = 0) :
    (ram_console_init cfg sizeof_buffer label kmalloc reset_reason hdr mem buffer_size
        bootinfo old_buf).buffer.sig = RAM_CONSOLE_SIG ∧
      (ram_console_init cfg sizeof_buffer label kmalloc reset_reason hdr mem buffer_size
        bootinfo old_buf).buffer.start = 0 ∧
      (ram_console_init cfg sizeof_buffer label kmalloc reset_reason hdr mem buffer_size
        bootinfo old_buf).buffer.size = 0 := by
  unfold ram_console_init
  cases hs : ram_console_setup cfg sizeof_buffer hdr mem buffer_size with
  | error st =>
    have h := (setup_error_header cfg sizeof_buffer hdr mem buffer_size st hs).1
    simp only []
    exact ⟨(congrArg ram_console_header.sig h).trans hsig,
      (congrArg ram_console_header.start h).trans hstart,
      (congrArg ram_console_header.size h).trans hsize⟩
  | ok st =>
    obtain ⟨h1, h2, h3, _⟩ := recover_fields cfg label kmalloc reset_reason st bootinfo old_buf
    exact ⟨h1, h2, h3⟩

theorem fill_of_reset (cfg : Option ecc_config) (label : List Nat) (st1 : ram_console_state)
    (bootinfo : Option (List Nat)) (d : List Nat) (hstart : st1.buffer.start = 0)
    (hsize : st1.buffer.size = 0) :
    save_old_fill cfg label st1 bootinfo d
      = match bootinfo with
        | none =>
          (match cfg with
            | none => d
            | some _ => memcpy d 0 (save_old_strbuf cfg st1) (save_old_strbuf cfg st1).length)
        | some b =>
          memcpy
            (memcpy
              (match cfg with
                | none => d
                | some _ =>
                  memcpy d 0 (save_old_strbuf cfg st1) (save_old_strbuf cfg st1).length)
              (save_old_strbuf cfg st1).length label (strlen label))
            ((save_old_strbuf cfg st1).length + strlen label) b
            (save_old_bootinfo_size label (some b)) := by
  have e : sub32 0 0 = 0 := by decide
  unfold save_old_fill
  simp only [hstart, hsize, e, memcpy_nothing, Nat.zero_add]
  cases bootinfo <;> cases cfg <;> rfl

theorem recover_log_of_reset (cfg : Option ecc_config) (label : List Nat)
    (kmalloc : Nat → Option (List Nat)) (reset_reason : Nat) (st : ram_console_state)
    (bootinfo old_buf : Option (List Nat)) (hsig : st.buffer.sig = RAM_CONSOLE_SIG)
    (hstart : st.buffer.start = 0) (hsize : st.buffer.size = 0) (h0 : st.old_log = none)
    (h0s : st.old_log_size = 0) :
    (save_old_dest kmalloc (save_old_total_size cfg label (save_old_decode cfg st) bootinfo)
        old_buf = none →
      (ram_console_recover cfg label kmalloc reset_reason st bootinfo old_buf).old_log = none ∧
      (ram_console_recover cfg label kmalloc reset_reason st bootinfo old_buf).old_log_size
        = 0) ∧
    (∀ d, save_old_dest kmalloc (save_old_total_size cfg label (save_old_decode cfg st) bootinfo)
        old_buf = some d →
      (ram_console_recover cfg label kmalloc reset_reason st bootinfo old_buf).old_log
        = some (save_old_fill cfg label (save_old_decode cfg st) bootinfo d) ∧
      (ram_console_recover cfg label kmalloc reset_reason st bootinfo old_buf).old_log_size
        = add32 (add32 0 (save_old_strbuf cfg (save_old_decode cfg st)).length)
            (save_old_bootinfo_size label bootinfo)) := by
  have hv : ¬ (st.buffer.size > st.buffer_size ∨ st.buffer.start > st.buffer.size) := by
    rw [hstart, hsize]; omega
  have hts : save_old_total_size cfg label (save_old_decode cfg st) bootinfo
      = add32 (add32 0 (save_old_strbuf cfg (save_old_decode cfg st)).length)
          (save_old_bootinfo_size label bootinfo) := by
    unfold save_old_total_size
    rw [save_old_decode_size, hsize]
  obtain ⟨_, e1, e2, _, _⟩ := save_old_decode_statics cfg st
  constructor
  · intro hd
    rw [hts] at hd
    unfold ram_console_recover ram_console_save_old
    simp only [init_boot_reason, hsig, hv, if_true, if_false, hts, hd, e1, e2, h0, h0s]
    exact ⟨trivial, trivial⟩
  · intro d hd
    rw [hts] at hd
    unfold ram_console_recover ram_console_save_old
    simp only [init_boot_reason, hsig, hv, if_true, if_false, hts, hd]
    exact ⟨trivial, trivial⟩

theorem init_none_export_of_reset (sizeof_buffer : Nat) (label : List Nat)
    (kmalloc : Nat → Option (List Nat)) (r1 r2 : Nat) (hdr hdr2 : ram_console_header)
    (mem mem2 : List Nat) (buffer_size : Nat) (bootinfo old_buf : Option (List Nat))
    (hsig : hdr.sig = RAM_CONSOLE_SIG) (hstart : hdr.start = 0) (hsize : hdr.size = 0)
    (hsig2 : hdr2.sig = RAM_CONSOLE_SIG) (hstart2 : hdr2.start = 0) (hsize2 : hdr2.size = 0) :
    (ram_console_init none sizeof_buffer label kmalloc r2 hdr2 mem2 buffer_size bootinfo
        old_buf).old_log
        = (ram_console_init none sizeof_buffer label kmalloc r1 hdr mem buffer_size bootinfo
          old_buf).old_log ∧
      (ram_console_init none sizeof_buffer label kmalloc r2 hdr2 mem2 buffer_size bootinfo
        old_buf).old_log_size
        = (ram_console_init none sizeof_buffer label kmalloc r1 hdr mem buffer_size bootinfo
          old_buf).old_log_size := by
  have key : ∀ (rr : Nat) (h : ram_console_header) (m : List Nat),
      h.sig = RAM_CONSOLE_SIG → h.start = 0 → h.size = 0 →
      (ram_console_init none sizeof_buffer label kmalloc rr h m buffer_size bootinfo
          old_buf).old_log
        = (if sub32 buffer_size sizeof_buffer > buffer_size then none
          else (save_old_dest kmalloc (add32 (add32 0 0) (save_old_bootinfo_size label bootinfo))
            old_buf).map (fun d =>
              match bootinfo with
              | none => d
              | some b =>
                memcpy (memcpy d 0 label (strlen label)) (0 + strlen label) b
                  (save_old_bootinfo_size label (some b)))) ∧
      (ram_console_init none sizeof_buffer label kmalloc rr h m buffer_size bootinfo
          old_buf).old_log_size
        = (if sub32 buffer_size sizeof_buffer > buffer_size then 0
          else match save_old_dest kmalloc
              (add32 (add32 0 0) (save_old_bootinfo_size label bootinfo)) old_buf with
            | none => 0
            | some _ => add32 (add32 0 0) (save_old_bootinfo_size label bootinfo)) := by
    intro rr h m h1 h2 h3
    unfold ram_console_init
    by_cases hc : sub32 buffer_size sizeof_buffer > buffer_size
    · have hs : ram_console_setup none sizeof_buffer h m buffer_size
          = .error { initial_statics with
              buffer := ⟨h, m⟩, installed := true
              buffer_size := sub32 buffer_size sizeof_buffer } := by
        unfold ram_console_setup
        simp only [hc, if_true]
      rw [hs, if_pos hc, if_pos hc]
      exact ⟨rfl, rfl⟩
    · have hs : ram_console_setup none sizeof_buffer h m buffer_size
          = .ok { initial_statics with
              buffer := ⟨h, m⟩, installed := true
              buffer_size := sub32 buffer_size sizeof_buffer } := by
        unfold ram_console_setup
        simp only [hc, if_false]
      rw [hs, if_neg hc, if_neg hc]
      obtain ⟨hn, hsome⟩ := recover_log_of_reset none label kmalloc rr
        { initial_statics with
          buffer := ⟨h, m⟩, installed := true
          buffer_size := sub32 buffer_size sizeof_buffer }
        bootinfo old_buf h1 h2 h3 rfl rfl
      have hstr : (save_old_strbuf none (save_old_decode none
          { initial_statics with
            buffer := ⟨h, m⟩, installed := true
            buffer_size := sub32 buffer_size sizeof_buffer })).length = 0 := rfl
      have hts : save_old_total_size none label (save_old_decode none
          { initial_statics with
            buffer := ⟨h, m⟩, installed := true
            buffer_size := sub32 buffer_size sizeof_buffer }) bootinfo
          = add32 (add32 0 0) (save_old_bootinfo_size label bootinfo) := by
        unfold save_old_total_size
        rw [hstr, save_old_decode_size]
        simp only [h3]
      rw [hts] at hn hsome
      cases hd : save_old_dest kmalloc
          (add32 (add32 0 0) (save_old_bootinfo_size label bootinfo)) old_buf with
      | none =>
        obtain ⟨e1, e2⟩ := hn hd
        simp only [e1, e2, Option.map_none']
        exact ⟨trivial, trivial⟩
      | some d =>
        obtain ⟨e1, e2⟩ := hsome d hd
        rw [hstr] at e2
        rw [e1, e2, fill_of_reset none label _ bootinfo d h2 h3]
        simp only [Option.map_some']
        cases bootinfo <;> constructor <;> first | rfl | trivial
  obtain ⟨a1, a2⟩ := key r1 hdr mem hsig hstart hsize
  obtain ⟨b1, b2⟩ := key r2 hdr2 mem2 hsig2 hstart2 hsize2
  exact ⟨b1.trans a1.symm, b2.trans a2.symm⟩

theorem setup_none_header (sizeof_buffer : Nat) (hdr : ram_console_header) (mem : List Nat)
    (buffer_size : Nat) (st : ram_console_state)
    (h : ram_console_setup none sizeof_buffer hdr mem buffer_size = .ok st) :
    st.buffer.toram_console_header = hdr := by
  unfold ram_console_setup at h
  simp only [] at h
  split_ifs at h
  simp only [Except.ok.injEq] at h
  subst h
  rfl

theorem init_export_of_reset (cfg : Option ecc_config) (sizeof_buffer : Nat)
    (label : List Nat) (kmalloc : Nat → Option (List Nat)) (reset_reason : Nat)
    (hdr : ram_console_header) (mem : List Nat) (buffer_size : Nat)
    (bootinfo old_buf : Option (List Nat)) (r : ram_console_state)
    (hr : r = ram_console_init cfg sizeof_buffer label kmalloc reset_reason hdr mem
      buffer_size bootinfo old_buf) :
    (∀ st, ram_console_setup cfg sizeof_buffer hdr mem buffer_size = .error st →
        r.old_log = none) ∧
      (∀ st, ram_console_setup cfg sizeof_buffer hdr mem buffer_size = .ok st →
        st.buffer.sig = RAM_CONSOLE_SIG → st.buffer.start = 0 → st.buffer.size = 0 →
        (save_old_dest kmalloc
            (save_old_total_size cfg label (save_old_decode cfg st) bootinfo) old_buf = none →
          r.old_log = none) ∧
        (∀ d, save_old_dest kmalloc
            (save_old_total_size cfg label (save_old_decode cfg st) bootinfo) old_buf = some d →
          r.old_log = some (save_old_fill cfg label (save_old_decode cfg st) bootinfo d) ∧
          (∀ data : List Nat,
            save_old_fill cfg label (save_old_decode cfg st) bootinfo d
              = save_old_fill cfg label
                  { save_old_decode cfg st with
                    buffer := { (save_old_decode cfg st).buffer with data := data } }
                  bootinfo d) ∧
          r.old_log_size
            = add32 (add32 0 (save_old_strbuf cfg (save_old_decode cfg st)).length)
                (save_old_bootinfo_size label bootinfo))) := by
  refine ⟨?_, ?_⟩
  · intro st hs
    rw [hr]
    unfold ram_console_init
    rw [hs]
    exact (setup_error_header cfg sizeof_buffer hdr mem buffer_size st hs).2.1
  · intro st hs h1 h2 h3
    obtain ⟨h0, h0s, _, _, _⟩ := setup_statics cfg sizeof_buffer hdr mem buffer_size st hs
    obtain ⟨hn, hsome⟩ := recover_log_of_reset cfg label kmalloc reset_reason st bootinfo
      old_buf h1 h2 h3 h0 h0s
    rw [hr, init_of_setup_ok _ _ _ _ _ _ _ _ _ _ st hs]
    refine ⟨fun hd => (hn hd).1, fun d hd => ⟨(hsome d hd).1, ?_, (hsome d hd).2⟩⟩
    intro data
    rw [fill_of_reset cfg label _ bootinfo d (by simpa using h2) (by simpa using h3),
      fill_of_reset cfg label _ bootinfo d (by simpa using h2) (by simpa using h3)]
    cases bootinfo <;> cases cfg <;> rfl

set_option maxRecDepth 1000000 in
/-- C19 as stated fails with error correction compiled in: the sample build
over a reset header (valid signature, `start = 0`, `size = 0`) with intact
header parity exports "No errors detected" (20 bytes) in the first run;
the run rewrites the header (boot-reason record) without re-encoding its
parity group, so a second run on the region it left finds the header block
bad and exports "0 Corrected bytes, 1 unrecoverable blocks" (43 bytes),
not the identical result. -/
theorem C19_counterexample :
    reset_header.sig = RAM_CONSOLE_SIG ∧ reset_header.start = 0 ∧ reset_header.size = 0 ∧
      (ram_console_init (some sample_ecc) 184 [] kmalloc_ok 1 reset_header reset_memory 256
        none none).old_log = some (cstr "\nNo errors detected\n") ∧
      (ram_console_init (some sample_ecc) 184 [] kmalloc_ok 1 reset_header reset_memory 256
        none none).old_log_size = 20 ∧
      (ram_console_init (some sample_ecc) 184 [] kmalloc_ok 1
        (ram_console_init (some sample_ecc) 184 [] kmalloc_ok 1 reset_header reset_memory 256
          none none).buffer.toram_console_header
        ((ram_console_init (some sample_ecc) 184 [] kmalloc_ok 1 reset_header reset_memory 256
          none none).buffer.data
          ++ (ram_console_init (some sample_ecc) 184 [] kmalloc_ok 1 reset_header reset_memory
            256 none none).par_buffer)
        256 none none).old_log
        = some (cstr "\n0 Corrected bytes, 1 unrecoverable blocks\n") ∧
      (ram_console_init (some sample_ecc) 184 [] kmalloc_ok 1
        (ram_console_init (some sample_ecc) 184 [] kmalloc_ok 1 reset_header reset_memory 256
          none none).buffer.toram_console_header
        ((ram_console_init (some sample_ecc) 184 [] kmalloc_ok 1 reset_header reset_memory 256
          none none).buffer.data
          ++ (ram_console_init (some sample_ecc) 184 [] kmalloc_ok 1 reset_header reset_memory
            256 none none).par_buffer)
        256 none none).old_log_size = 43 := by
  decide

/-- C19 (amended): running `ram_console_init` on an already-reset header
(signature valid, `start = 0`, `size = 0`) leaves signature, start and size
exactly as they were, in every build, and a second run on the header and
region the first run left (`second`) leaves them so again. In each of the
two runs: when the function returns early there is no export buffer, and
when it reaches the signature test with a header that is still reset (the
stored header itself without error correction, the stored header after its
decode pass with it) the recovered log is empty: the export buffer, if it
can be obtained, is filled without a single byte of the data region, holding
only the diagnostic line and the boot info, with
`old_log_size = strbuf_len + bootinfo_size`. Without error correction the
header under test is always the stored one and the second run exports the
identical buffer with the identical size. -/
theorem C19_reset_header_reinit (cfg : Option ecc_config) (sizeof_buffer : Nat)
    (label : List Nat) (kmalloc : Nat → Option (List Nat)) (reset1 reset2 : Nat)
    (hdr : ram_console_header) (mem : List Nat) (buffer_size : Nat)
    (bootinfo old_buf : Option (List Nat)) (first second : ram_console_state)
    (hsig : hdr.sig = RAM_CONSOLE_SIG) (hstart : hdr.start = 0) (hsize : hdr.size = 0)
    (hfirst : first = ram_console_init cfg sizeof_buffer label kmalloc reset1 hdr mem
      buffer_size bootinfo old_buf)
    (hsecond : second = ram_console_init cfg sizeof_buffer label kmalloc reset2
      first.buffer.toram_console_header (first.buffer.data ++ first.par_buffer) buffer_size
      bootinfo old_buf) :
    (first.buffer.sig = hdr.sig ∧ first.buffer.start = hdr.start ∧
        first.buffer.size = hdr.size) ∧
      (∀ st, ram_console_setup cfg sizeof_buffer hdr mem buffer_size = .error st →
        first.old_log = none) ∧
      (∀ st, ram_console_setup cfg sizeof_buffer hdr mem buffer_size = .ok st →
        st.buffer.sig = RAM_CONSOLE_SIG → st.buffer.start = 0 → st.buffer.size = 0 →
        (save_old_dest kmalloc
            (save_old_total_size cfg label (save_old_decode cfg st) bootinfo) old_buf = none →
          first.old_log = none) ∧
        (∀ d, save_old_dest kmalloc
            (save_old_total_size cfg label (save_old_decode cfg st) bootinfo) old_buf = some d →
          first.old_log = some (save_old_fill cfg label (save_old_decode cfg st) bootinfo d) ∧
          (∀ data : List Nat,
            save_old_fill cfg label (save_old_decode cfg st) bootinfo d
              = save_old_fill cfg label
                  { save_old_decode cfg st with
                    buffer := { (save_old_decode cfg st).buffer with data := data } }
                  bootinfo d) ∧
          first.old_log_size
            = add32 (add32 0 (save_old_strbuf cfg (save_old_decode cfg st)).length)
                (save_old_bootinfo_size label bootinfo))) ∧
      (second.buffer.sig = first.buffer.sig ∧ second.buffer.start = first.buffer.start ∧
        second.buffer.size = first.buffer.size) ∧
      (∀ st, ram_console_setup cfg sizeof_buffer first.buffer.toram_console_header
          (first.buffer.data ++ first.par_buffer) buffer_size = .error st →
        second.old_log = none) ∧
      (∀ st, ram_console_setup cfg sizeof_buffer first.buffer.toram_console_header
          (first.buffer.data ++ first.par_buffer) buffer_size = .ok st →
        st.buffer.sig = RAM_CONSOLE_SIG → st.buffer.start = 0 → st.buffer.size = 0 →
        (save_old_dest kmalloc
            (save_old_total_size cfg label (save_old_decode cfg st) bootinfo) old_buf = none →
          second.old_log = none) ∧
        (∀ d, save_old_dest kmalloc
            (save_old_total_size cfg label (save_old_decode cfg st) bootinfo) old_buf = some d →
          second.old_log = some (save_old_fill cfg label (save_old_decode cfg st) bootinfo d) ∧
          (∀ data : List Nat,
            save_old_fill cfg label (save_old_decode cfg st) bootinfo d
              = save_old_fill cfg label
                  { save_old_decode cfg st with
                    buffer := { (save_old_decode cfg st).buffer with data := data } }
                  bootinfo d) ∧
          second.old_log_size
            = add32 (add32 0 (save_old_strbuf cfg (save_old_decode cfg st)).length)
                (save_old_bootinfo_size label bootinfo))) ∧
      (cfg = none →
        (∀ st, ram_console_setup cfg sizeof_buffer hdr mem buffer_size = .ok st →
          st.buffer.toram_console_header = hdr) ∧
        (∀ st, ram_console_setup cfg sizeof_buffer first.buffer.toram_console_header
            (first.buffer.data ++ first.par_buffer) buffer_size = .ok st →
          st.buffer.toram_console_header = first.buffer.toram_console_header) ∧
        second.old_log = first.old_log ∧ second.old_log_size = first.old_log_size) := by
  obtain ⟨a1, a2, a3⟩ := init_cursor_of_reset cfg sizeof_buffer label kmalloc reset1 hdr mem
    buffer_size bootinfo old_buf hsig hstart hsize
  rw [← hfirst] at a1 a2 a3
  obtain ⟨b1, b2, b3⟩ := init_cursor_of_reset cfg sizeof_buffer label kmalloc reset2
    first.buffer.toram_console_header (first.buffer.data ++ first.par_buffer) buffer_size
    bootinfo old_buf a1 a2 a3
  rw [← hsecond] at b1 b2 b3
  obtain ⟨e1, e2⟩ := init_export_of_reset cfg sizeof_buffer label kmalloc reset1 hdr mem
    buffer_size bootinfo old_buf first hfirst
  obtain ⟨f1, f2⟩ := init_export_of_reset cfg sizeof_buffer label kmalloc reset2
    first.buffer.toram_console_header (first.buffer.data ++ first.par_buffer) buffer_size
    bootinfo old_buf second hsecond
  refine ⟨⟨a1.trans hsig.symm, a2.trans hstart.symm, a3.trans hsize.symm⟩, e1, e2,
    ⟨b1.trans a1.symm, b2.trans a2.symm, b3.trans a3.symm⟩, f1, f2, ?_⟩
  intro hc
  subst hc
  refine ⟨fun st hs => setup_none_header sizeof_buffer hdr mem buffer_size st hs,
    fun st hs => setup_none_header sizeof_buffer _ _ buffer_size st hs, ?_⟩
  rw [hsecond, hfirst]
  exact init_none_export_of_reset sizeof_buffer label kmalloc reset1 reset2 hdr _ mem _
    buffer_size bootinfo old_buf hsig hstart hsize
    (by rw [← hfirst]; exact a1) (by rw [← hfirst]; exact a2) (by rw [← hfirst]; exact a3)

/-- Instance of the amended C19: a reset header in a build without error
correction, given boot info "v1" with the label "B:", exports the same
buffer in the first and in the second run. -/
theorem C19_witness :
    (ram_console_init none 184 (cstr "B:") kmalloc_ok 1
        (ram_console_init none 184 (cstr "B:") kmalloc_ok 1 reset_header
          (List.replicate 72 0) 256 (some (cstr "v1")) none).buffer.toram_console_header
        ((ram_console_init none 184 (cstr "B:") kmalloc_ok 1 reset_header
          (List.replicate 72 0) 256 (some (cstr "v1")) none).buffer.data
          ++ (ram_console_init none 184 (cstr "B:") kmalloc_ok 1 reset_header
            (List.replicate 72 0) 256 (some (cstr "v1")) none).par_buffer)
        256 (some (cstr "v1")) none).old_log
      = (ram_console_init none 184 (cstr "B:") kmalloc_ok 1 reset_header
          (List.replicate 72 0) 256 (some (cstr "v1")) none).old_log :=
  ((C19_reset_header_reinit none 184 (cstr "B:") kmalloc_ok 1 1 reset_header
    (List.replicate 72 0) 256 (some (cstr "v1")) none _ _ rfl rfl rfl rfl rfl).2.2.2.2.2.2
    rfl).2.2.1

/-! ## Layout of the parity area: claim C17 -/

theorem recover_statics (cfg : Option ecc_config) (label : List Nat)
    (kmalloc : Nat → Option (List Nat)) (reset_reason : Nat) (st : ram_console_state)
    (bootinfo old_buf : Option (List Nat)) :
    (ram_console_recover cfg label kmalloc reset_reason st bootinfo old_buf).buffer_size
        = st.buffer_size ∧
      (ram_console_recover cfg label kmalloc reset_reason st bootinfo old_buf).par_buffer
        = st.par_buffer ∧
      (ram_console_recover cfg label kmalloc reset_reason st bootinfo old_buf).rs_decoder
        = st.rs_decoder := by
  have hd : (save_old_decode cfg st).par_buffer = st.par_buffer ∧
      (save_old_decode cfg st).rs_decoder = st.rs_decoder ∧
      (save_old_decode cfg st).buffer_size = st.buffer_size := by
    unfold save_old_decode; cases cfg <;> exact ⟨rfl, rfl, rfl⟩
  have hs : (ram_console_save_old cfg label kmalloc st bootinfo old_buf).par_buffer
        = st.par_buffer ∧
      (ram_console_save_old cfg label kmalloc st bootinfo old_buf).rs_decoder
        = st.rs_decoder ∧
      (ram_console_save_old cfg label kmalloc st bootinfo old_buf).buffer_size
        = st.buffer_size := by
    unfold ram_console_save_old
    simp only []
    cases save_old_dest kmalloc _ old_buf <;> exact hd
  unfold ram_console_recover
  simp only [init_boot_reason]
  split_ifs
  · exact ⟨rfl, rfl, rfl⟩
  · exact ⟨hs.2.2, hs.1, hs.2.1⟩
  · exact ⟨rfl, rfl, rfl⟩

theorem setup_ecc_layout (c : ecc_config) (sizeof_buffer : Nat) (hdr : ram_console_header)
    (mem : List Nat) (buffer_size : Nat) (st : ram_console_state)
    (ha : region_accepted (some c) sizeof_buffer buffer_size)
    (h : ram_console_setup (some c) sizeof_buffer hdr mem buffer_size = .ok st ∨
      ram_console_setup (some c) sizeof_buffer hdr mem buffer_size = .error st) :
    st.buffer_size
        = sub32 (sub32 buffer_size sizeof_buffer)
            (((DIV_ROUND_UP (sub32 buffer_size sizeof_buffer) c.ECC_BLOCK_SIZE + 1)
              * c.ECC_SIZE) % U32) ∧
      st.par_buffer
        = mem.drop (sub32 (sub32 buffer_size sizeof_buffer)
            (((DIV_ROUND_UP (sub32 buffer_size sizeof_buffer) c.ECC_BLOCK_SIZE + 1)
              * c.ECC_SIZE) % U32)) ∧
      st.buffer.data
        = mem.take (sub32 (sub32 buffer_size sizeof_buffer)
            (((DIV_ROUND_UP (sub32 buffer_size sizeof_buffer) c.ECC_BLOCK_SIZE + 1)
              * c.ECC_SIZE) % U32)) ∧
      (∀ rs, c.init_rs = some rs → st.rs_decoder = some rs) := by
  obtain ⟨h1, h2⟩ := ha
  have h3 := h2 c rfl
  unfold ram_console_setup at h
  simp only [] at h
  rw [if_neg (by omega), if_neg (by omega)] at h
  cases hr : c.init_rs with
  | none =>
    simp only [hr] at h
    rcases h with h | h
    · cases h
    · cases h
      exact ⟨rfl, rfl, rfl, fun rs h => by cases h⟩
  | some rs =>
    simp only [hr] at h
    split_ifs at h <;>
    · rcases h with h | h
      · cases h
        exact ⟨rfl, rfl, rfl, fun rs' h => by rw [← Option.some.inj h]⟩
      · cases h

theorem init_ecc_layout (c : ecc_config) (sizeof_buffer : Nat) (label : List Nat)
    (kmalloc : Nat → Option (List Nat)) (reset_reason : Nat) (hdr : ram_console_header)
    (mem : List Nat) (buffer_size : Nat) (bootinfo old_buf : Option (List Nat))
    (ha : region_accepted (some c) sizeof_buffer buffer_size) :
    (ram_console_init (some c) sizeof_buffer label kmalloc reset_reason hdr mem buffer_size
        bootinfo old_buf).buffer_size
        = sub32 (sub32 buffer_size sizeof_buffer)
            (((DIV_ROUND_UP (sub32 buffer_size sizeof_buffer) c.ECC_BLOCK_SIZE + 1)
              * c.ECC_SIZE) % U32) ∧
      (ram_console_init (some c) sizeof_buffer label kmalloc reset_reason hdr mem buffer_size
        bootinfo old_buf).par_buffer
        = mem.drop (sub32 (sub32 buffer_size sizeof_buffer)
            (((DIV_ROUND_UP (sub32 buffer_size sizeof_buffer) c.ECC_BLOCK_SIZE + 1)
              * c.ECC_SIZE) % U32)) := by
  unfold ram_console_init
  cases hs : ram_console_setup (some c) sizeof_buffer hdr mem buffer_size with
  | error st =>
    obtain ⟨e1, e2, _⟩ := setup_ecc_layout c sizeof_buffer hdr mem buffer_size st ha (Or.inr hs)
    exact ⟨e1, e2⟩
  | ok st =>
    obtain ⟨e1, e2, _⟩ := setup_ecc_layout c sizeof_buffer hdr mem buffer_size st ha (Or.inl hs)
    obtain ⟨r1, r2, _⟩ := recover_statics (some c) label kmalloc reset_reason st bootinfo old_buf
    simp only []
    rw [r1, r2]
    exact ⟨e1, e2⟩

/-- C17 as stated fails: for a 256-byte region with a 184-byte header,
16-byte blocks and 4 parity bytes per group, `ram_console_init` accepts the
size and ends with `C = 48`; it has set aside 24 bytes (6 groups) behind
the data, while `ceil(C / 16) + 1 = 4` groups are 16 bytes, and
`184 + 48 + 16 = 248` is not the region size. -/
theorem C17_counterexample :
    region_accepted (some sample_ecc) 184 256 ∧
      (ram_console_init (some sample_ecc) 184 [] kmalloc_ok 1 sample_header
        (List.replicate 72 0) 256 none none).buffer_size = 48 ∧
      (ram_console_init (some sample_ecc) 184 [] kmalloc_ok 1 sample_header
        (List.replicate 72 0) 256 none none).par_buffer.length = 24 ∧
      (DIV_ROUND_UP 48 sample_ecc.ECC_BLOCK_SIZE + 1) * sample_ecc.ECC_SIZE = 16 ∧
      184 + 48 + (DIV_ROUND_UP 48 sample_ecc.ECC_BLOCK_SIZE + 1) * sample_ecc.ECC_SIZE
        ≠ 256 := by
  have ha : region_accepted (some sample_ecc) 184 256 := by
    refine ⟨by decide, ?_⟩
    intro c h
    cases h
    decide
  obtain ⟨e1, e2⟩ := init_ecc_layout sample_ecc 184 [] kmalloc_ok 1 sample_header
    (List.replicate 72 0) 256 none none ha
  refine ⟨ha, ?_, ?_, by decide, by decide⟩
  · rw [e1]; decide
  · rw [e2]; decide

/-- C17 (amended): with error correction compiled in, for every region size
that `ram_console_init` accepts (sizes and the parity size below `2^32`),
the parity area it sets aside behind the data capacity `C` is
`ceil(C0 / blockSize) + 1` groups of `eccSize` bytes, where
`C0 = region size - header size` is the data size before the parity area
is taken off; so `header size + C + (ceil(C0 / blockSize) + 1) * eccSize` is
the region size. This is at least `ceil(C / blockSize) + 1` groups, so the
header's own group at index `ceil(C / blockSize)` lies inside the area. -/
theorem C17_parity_area_layout (c : ecc_config) (sizeof_buffer : Nat) (label : List Nat)
    (kmalloc : Nat → Option (List Nat)) (reset_reason : Nat) (hdr : ram_console_header)
    (mem : List Nat) (buffer_size : Nat) (bootinfo old_buf : Option (List Nat))
    (ha : region_accepted (some c) sizeof_buffer buffer_size)
    (hbs : buffer_size < U32) (hso : sizeof_buffer < U32)
    (hmem : mem.length = buffer_size - sizeof_buffer)
    (hdiv : buffer_size - sizeof_buffer + c.ECC_BLOCK_SIZE ≤ U32)
    (hpar : ((buffer_size - sizeof_buffer + c.ECC_BLOCK_SIZE - 1) / c.ECC_BLOCK_SIZE + 1)
      * c.ECC_SIZE + sizeof_buffer < U32) :
    sizeof_buffer ≤ buffer_size ∧
      sizeof_buffer
          + (ram_console_init (some c) sizeof_buffer label kmalloc reset_reason hdr mem
              buffer_size bootinfo old_buf).buffer_size
          + ((buffer_size - sizeof_buffer + c.ECC_BLOCK_SIZE - 1) / c.ECC_BLOCK_SIZE + 1)
              * c.ECC_SIZE
        = buffer_size ∧
      (ram_console_init (some c) sizeof_buffer label kmalloc reset_reason hdr mem buffer_size
          bootinfo old_buf).par_buffer.length
        = ((buffer_size - sizeof_buffer + c.ECC_BLOCK_SIZE - 1) / c.ECC_BLOCK_SIZE + 1)
            * c.ECC_SIZE ∧
      DIV_ROUND_UP (ram_console_init (some c) sizeof_buffer label kmalloc reset_reason hdr mem
          buffer_size bootinfo old_buf).buffer_size c.ECC_BLOCK_SIZE
        = ((ram_console_init (some c) sizeof_buffer label kmalloc reset_reason hdr mem
            buffer_size bootinfo old_buf).buffer_size + c.ECC_BLOCK_SIZE - 1)
          / c.ECC_BLOCK_SIZE ∧
      DIV_ROUND_UP (ram_console_init (some c) sizeof_buffer label kmalloc reset_reason hdr mem
          buffer_size bootinfo old_buf).buffer_size c.ECC_BLOCK_SIZE
        ≤ (buffer_size - sizeof_buffer + c.ECC_BLOCK_SIZE - 1) / c.ECC_BLOCK_SIZE ∧
      (DIV_ROUND_UP (ram_console_init (some c) sizeof_buffer label kmalloc reset_reason hdr
          mem buffer_size bootinfo old_buf).buffer_size c.ECC_BLOCK_SIZE + 1) * c.ECC_SIZE
        ≤ (ram_console_init (some c) sizeof_buffer label kmalloc reset_reason hdr mem
            buffer_size bootinfo old_buf).par_buffer.length := by
  obtain ⟨e1, e2⟩ := init_ecc_layout c sizeof_buffer label kmalloc reset_reason hdr mem
    buffer_size bootinfo old_buf ha
  obtain ⟨h1, h2⟩ := ha
  have h3 := h2 c rfl
  have hle : sizeof_buffer ≤ buffer_size := by
    simp only [sub32, U32] at h1 hbs hso; omega
  have hC0 : sub32 buffer_size sizeof_buffer = buffer_size - sizeof_buffer := by
    simp only [sub32, U32] at *; omega
  have hD0 : DIV_ROUND_UP (buffer_size - sizeof_buffer) c.ECC_BLOCK_SIZE
      = (buffer_size - sizeof_buffer + c.ECC_BLOCK_SIZE - 1) / c.ECC_BLOCK_SIZE := by
    unfold DIV_ROUND_UP
    rw [Nat.mod_eq_of_lt]
    have := c.block_pos
    simp only [U32] at *; omega
  rw [hC0, hD0] at e1 e2 h3
  generalize hP : ((buffer_size - sizeof_buffer + c.ECC_BLOCK_SIZE - 1) / c.ECC_BLOCK_SIZE + 1)
    * c.ECC_SIZE = P at *
  have hC1 : sub32 (buffer_size - sizeof_buffer) (P % U32) = buffer_size - sizeof_buffer - P ∧
      P ≤ buffer_size - sizeof_buffer := by
    simp only [sub32, U32] at *; omega
  rw [hC1.1] at e1 e2
  have hD1 : DIV_ROUND_UP (buffer_size - sizeof_buffer - P) c.ECC_BLOCK_SIZE
      = (buffer_size - sizeof_buffer - P + c.ECC_BLOCK_SIZE - 1) / c.ECC_BLOCK_SIZE := by
    unfold DIV_ROUND_UP
    rw [Nat.mod_eq_of_lt]
    have := c.block_pos
    simp only [U32] at *; omega
  have hmono : (buffer_size - sizeof_buffer - P + c.ECC_BLOCK_SIZE - 1) / c.ECC_BLOCK_SIZE
      ≤ (buffer_size - sizeof_buffer + c.ECC_BLOCK_SIZE - 1) / c.ECC_BLOCK_SIZE :=
    Nat.div_le_div_right (by omega)
  rw [e1, e2, hD1]
  refine ⟨hle, by omega, by rw [List.length_drop, hmem]; omega, rfl, hmono, ?_⟩
  rw [List.length_drop, hmem]
  have : buffer_size - sizeof_buffer - (buffer_size - sizeof_buffer - P) = P := by omega
  rw [this]
  exact (Nat.mul_le_mul_right _ (Nat.succ_le_succ hmono)).trans (le_of_eq hP)

/-- Instance of the amended C17 at the region of the counterexample:
`184 + C + 6 * 4 = 256`. -/
theorem C17_witness :
    184 + (ram_console_init (some sample_ecc) 184 [] kmalloc_ok 1 sample_header
        (List.replicate 72 0) 256 none none).buffer_size
      + ((256 - 184 + sample_ecc.ECC_BLOCK_SIZE - 1) / sample_ecc.ECC_BLOCK_SIZE + 1)
          * sample_ecc.ECC_SIZE = 256 :=
  (C17_parity_area_layout sample_ecc 184 [] kmalloc_ok 1 sample_header (List.replicate 72 0)
    256 none none
    ⟨by decide, fun c h => by cases h; decide⟩ (by decide) (by decide) (by decide) (by decide)
    (by decide)).2.1

/-! ## Error-correction tally during recovery: claim C15 -/

theorem bytes_at_memcpy_after (D : List Nat) (off : Nat) (src : List Nat) (n off' len : Nat)
    (h1 : off + n ≤ off') (h2 : off + n ≤ D.length) :
    bytes_at (memcpy D off src n) off' len = bytes_at D off' len := by
  unfold bytes_at memcpy
  have hl : (List.take off D ++ List.map (fun i => src.getD i 0) (List.range n)).length
      = off + n := by simp; omega
  have e : off' = (List.take off D ++ List.map (fun i => src.getD i 0) (List.range n)).length
      + (off' - (off + n)) := by rw [hl]; omega
  conv_lhs => rw [e, List.drop_append]
  rw [List.drop_drop]
  congr 2
  omega

theorem positive_sum_cons (r : Int) (rs : List Int) :
    positive_sum (r :: rs) = (if r > 0 then r else 0) + positive_sum rs := by
  unfold positive_sum
  by_cases h : r > 0
  · simp [List.filter_cons, h]
  · simp [List.filter_cons, h]

theorem negative_count_cons (r : Int) (rs : List Int) :
    negative_count (r :: rs) = (if r < 0 then 1 else 0) + negative_count rs := by
  unfold negative_count
  by_cases h : r < 0
  · simp [List.filter_cons, h]; omega
  · simp [List.filter_cons, h]

theorem block_result_after (c : ecc_config) (rs : Option rs_control) (C : Nat)
    (D : List Nat) (pb : List Nat) (j i : Nat) (src : List Nat) (n : Nat)
    (hn : n ≤ c.ECC_BLOCK_SIZE) (hl : j * c.ECC_BLOCK_SIZE + n ≤ D.length) (hi : j < i) :
    block_decode_result c rs C (memcpy D (j * c.ECC_BLOCK_SIZE) src n) pb i
      = block_decode_result c rs C D pb i := by
  unfold block_decode_result
  rw [bytes_at_memcpy_after _ _ _ _ _ _ _ hl]
  calc j * c.ECC_BLOCK_SIZE + n ≤ j * c.ECC_BLOCK_SIZE + c.ECC_BLOCK_SIZE := by omega
    _ = (j + 1) * c.ECC_BLOCK_SIZE := by rw [Nat.succ_mul]
    _ ≤ i * c.ECC_BLOCK_SIZE := Nat.mul_le_mul_right _ hi

theorem block_index_lt (size B j : Nat) (hB : 0 < B) :
    j < (size + B - 1) / B ↔ j * B < size := by
  rw [Nat.lt_iff_add_one_le, Nat.le_div_iff_mul_le hB, Nat.succ_mul]
  omega

theorem decode_loop_tally (c : ecc_config) (rs : Option rs_control) (C size : Nat)
    (pb : List Nat) (hC : C < U32) (hs : size ≤ C) :
    ∀ (fuel j : Nat) (D : List Nat) (cor bad : Int), D.length = C →
      size - j * c.ECC_BLOCK_SIZE ≤ fuel →
      (save_old_decode_loop c rs C size pb fuel (j * c.ECC_BLOCK_SIZE) (j * c.ECC_SIZE)
          (D, cor, bad)).2
        = (cor + positive_sum
              ((List.range' j ((size + c.ECC_BLOCK_SIZE - 1) / c.ECC_BLOCK_SIZE - j)).map
                (block_decode_result c rs C D pb)),
           bad + negative_count
              ((List.range' j ((size + c.ECC_BLOCK_SIZE - 1) / c.ECC_BLOCK_SIZE - j)).map
                (block_decode_result c rs C D pb))) := by
  have hb := c.block_pos
  intro fuel
  induction fuel with
  | zero =>
    intro j D cor bad _ hf
    have hj : ¬ j < (size + c.ECC_BLOCK_SIZE - 1) / c.ECC_BLOCK_SIZE := by
      rw [block_index_lt _ _ _ hb]; omega
    have e : (size + c.ECC_BLOCK_SIZE - 1) / c.ECC_BLOCK_SIZE - j = 0 := by omega
    rw [e]
    simp [save_old_decode_loop, positive_sum, negative_count]
  | succ f ih =>
    intro j D cor bad hD hf
    by_cases hlt : j * c.ECC_BLOCK_SIZE < size
    · have hj : j < (size + c.ECC_BLOCK_SIZE - 1) / c.ECC_BLOCK_SIZE :=
        (block_index_lt _ _ _ hb).mpr hlt
      have hsz : (if j * c.ECC_BLOCK_SIZE + c.ECC_BLOCK_SIZE > C
            then sub32 C (j * c.ECC_BLOCK_SIZE) else c.ECC_BLOCK_SIZE)
          = min c.ECC_BLOCK_SIZE (C - j * c.ECC_BLOCK_SIZE) := by
        split_ifs <;> simp only [sub32, U32] at * <;> omega
      have e1 : j * c.ECC_BLOCK_SIZE + c.ECC_BLOCK_SIZE = (j + 1) * c.ECC_BLOCK_SIZE :=
        (Nat.succ_mul j _).symm
      have e2 : j * c.ECC_SIZE + c.ECC_SIZE = (j + 1) * c.ECC_SIZE := (Nat.succ_mul j _).symm
      have er : (size + c.ECC_BLOCK_SIZE - 1) / c.ECC_BLOCK_SIZE - j
          = ((size + c.ECC_BLOCK_SIZE - 1) / c.ECC_BLOCK_SIZE - (j + 1)) + 1 := by omega
      simp only [save_old_decode_loop]
      rw [if_pos hlt, hsz, e1, e2]
      have hD' : (memcpy D (j * c.ECC_BLOCK_SIZE)
          (ram_console_decode_rs8 c rs
            (bytes_at D (j * c.ECC_BLOCK_SIZE)
              (min c.ECC_BLOCK_SIZE (C - j * c.ECC_BLOCK_SIZE)))
            (bytes_at pb (j * c.ECC_SIZE) c.ECC_SIZE)).2
          (min c.ECC_BLOCK_SIZE (C - j * c.ECC_BLOCK_SIZE))).length = C := by
        rw [memcpy_length]; omega
      rw [ih (j + 1) _ _ _ hD' (by rw [← e1]; omega)]
      have hmap : (List.range' (j + 1)
            ((size + c.ECC_BLOCK_SIZE - 1) / c.ECC_BLOCK_SIZE - (j + 1))).map
            (block_decode_result c rs C
              (memcpy D (j * c.ECC_BLOCK_SIZE)
                (ram_console_decode_rs8 c rs
                  (bytes_at D (j * c.ECC_BLOCK_SIZE)
                    (min c.ECC_BLOCK_SIZE (C - j * c.ECC_BLOCK_SIZE)))
                  (bytes_at pb (j * c.ECC_SIZE) c.ECC_SIZE)).2
                (min c.ECC_BLOCK_SIZE (C - j * c.ECC_BLOCK_SIZE))) pb)
          = (List.range' (j + 1)
            ((size + c.ECC_BLOCK_SIZE - 1) / c.ECC_BLOCK_SIZE - (j + 1))).map
            (block_decode_result c rs C D pb) := by
        apply List.map_congr_left
        intro i hi
        rw [List.mem_range'_1] at hi
        exact block_result_after c rs C D pb j i _ _ (Nat.min_le_left _ _) (by omega)
          (by omega)
      rw [hmap, er, List.range'_succ, List.map_cons, positive_sum_cons, negative_count_cons]
      have hr : (ram_console_decode_rs8 c rs
            (bytes_at D (j * c.ECC_BLOCK_SIZE)
              (min c.ECC_BLOCK_SIZE (C - j * c.ECC_BLOCK_SIZE)))
            (bytes_at pb (j * c.ECC_SIZE) c.ECC_SIZE)).1
          = block_decode_result c rs C D pb j := rfl
      rw [hr]
      generalize block_decode_result c rs C D pb j = r
      ext
      · simp only []
        split_ifs <;> omega
      · simp only []
        split_ifs <;> omega
    · have hj : ¬ j < (size + c.ECC_BLOCK_SIZE - 1) / c.ECC_BLOCK_SIZE := by
        rw [block_index_lt _ _ _ hb]; exact hlt
      have e : (size + c.ECC_BLOCK_SIZE - 1) / c.ECC_BLOCK_SIZE - j = 0 := by omega
      rw [e]
      simp only [save_old_decode_loop]
      rw [if_neg hlt]
      simp [positive_sum, negative_count]

theorem int_toString_length (x : Int) (h1 : -2147483648 ≤ x) (h2 : x < 2147483648) :
    (toString x).length ≤ 11 := by
  cases x with
  | ofNat m =>
    have hm : m < 10 ^ 10 := by
      have : (m : Int) < 2147483648 := h2
      omega
    exact (Nat.repr_length m 10 (by decide) hm).trans (by decide)
  | negSucc m =>
    have hm : m + 1 < 10 ^ 10 := by
      have : -2147483648 ≤ -((m : Int) + 1) := h1
      omega
    show ("-" ++ Nat.repr (m + 1)).length ≤ 11
    rw [String.length_append]
    have := Nat.repr_length (m + 1) 10 (by decide) hm
    have e : "-".length = 1 := by decide
    omega

theorem cstr_length (s : String) : (cstr s).length = s.length := by
  simp only [cstr, List.length_map]
  rfl

theorem diag_text_length (cb bb : Int) (h1 : -2147483648 ≤ cb) (h2 : cb < 2147483648)
    (h3 : -2147483648 ≤ bb) (h4 : bb < 2147483648) : (ecc_diag_text cb bb).length ≤ 79 := by
  unfold ecc_diag_text
  split_ifs
  · rw [cstr_length]
    simp only [String.length_append]
    have a := int_toString_length cb h1 h2
    have b := int_toString_length bb h3 h4
    have e1 : "\n".length = 1 := by decide
    have e2 : " Corrected bytes, ".length = 18 := by decide
    have e3 : " unrecoverable blocks\n".length = 22 := by decide
    omega
  · decide

theorem fill_diag (c : ecc_config) (label : List Nat) (st1 : ram_console_state)
    (bootinfo : Option (List Nat)) (d : List Nat) (hstart : st1.buffer.start ≤ st1.buffer.size)
    (hsize : st1.buffer.size ≤ st1.buffer.data.length) (hC : st1.buffer.data.length < U32) :
    bytes_at (save_old_fill (some c) label st1 bootinfo d) st1.buffer.size
        (save_old_strbuf (some c) st1).length
      = save_old_strbuf (some c) st1 := by
  have es : sub32 st1.buffer.size st1.buffer.start = st1.buffer.size - st1.buffer.start := by
    simp only [sub32, U32] at *; omega
  obtain ⟨_, h2⟩ := unwrap_copy d st1.buffer.data st1.buffer.start st1.buffer.size hstart hsize
  generalize hL : memcpy (memcpy d 0 (st1.buffer.data.drop st1.buffer.start)
      (st1.buffer.size - st1.buffer.start)) (st1.buffer.size - st1.buffer.start)
      st1.buffer.data st1.buffer.start = L at h2
  have hM : ∀ X : List Nat, st1.buffer.size ≤ X.length →
      bytes_at (memcpy X st1.buffer.size (save_old_strbuf (some c) st1)
          (save_old_strbuf (some c) st1).length) st1.buffer.size
          (save_old_strbuf (some c) st1).length = save_old_strbuf (some c) st1 := by
    intro X hX
    rw [memcpy_of_le _ _ _ _ (le_refl _), List.take_length]
    unfold bytes_at
    have hl : (X.take st1.buffer.size).length = st1.buffer.size := by simp; omega
    rw [List.append_assoc, List.drop_left' hl, List.take_left' rfl]
  unfold save_old_fill
  simp only [es, hL]
  cases bootinfo with
  | none => exact hM L h2
  | some b =>
    simp only []
    have key : ∀ (Y : List Nat) (off n : Nat) (src : List Nat),
        st1.buffer.size + (save_old_strbuf (some c) st1).length ≤ off →
        st1.buffer.size + (save_old_strbuf (some c) st1).length ≤ Y.length →
        bytes_at (memcpy Y off src n) st1.buffer.size (save_old_strbuf (some c) st1).length
          = bytes_at Y st1.buffer.size (save_old_strbuf (some c) st1).length := by
      intro Y off n src ho hY
      unfold bytes_at
      rw [List.take_drop, List.take_drop, memcpy_take_below _ _ _ _ _ ho hY]
    have hlen1 : st1.buffer.size + (save_old_strbuf (some c) st1).length
        ≤ (memcpy L st1.buffer.size (save_old_strbuf (some c) st1)
            (save_old_strbuf (some c) st1).length).length := by
      rw [memcpy_length]; omega
    rw [key _ _ _ _ (by omega) (memcpy_length_ge _ _ _ _ _ hlen1), key _ _ _ _ (by omega) hlen1]
    exact hM L h2

theorem setup_ecc_tally (c : ecc_config) (sizeof_buffer : Nat) (hdr : ram_console_header)
    (mem : List Nat) (buffer_size : Nat) (st : ram_console_state)
    (h : ram_console_setup (some c) sizeof_buffer hdr mem buffer_size = .ok st) :
    st.rs_decoder = c.init_rs ∧ c.init_rs ≠ none ∧
      st.corrected_bytes
        = positive_sum [header_decode_result c st.rs_decoder st.buffer_size hdr st.par_buffer] ∧
      st.bad_blocks
        = negative_count [header_decode_result c st.rs_decoder st.buffer_size hdr
            st.par_buffer] ∧
      st.buffer.toram_console_header
        = c.hdr_of_bytes (ram_console_decode_rs8 c st.rs_decoder (c.hdr_bytes hdr)
            (bytes_at st.par_buffer (DIV_ROUND_UP st.buffer_size c.ECC_BLOCK_SIZE * c.ECC_SIZE)
              c.ECC_SIZE)).2 := by
  unfold ram_console_setup at h
  simp only [] at h
  split_ifs at h
  cases hr : c.init_rs with
  | none => simp [hr] at h
  | some rs =>
    simp only [hr] at h
    rw [positive_sum_cons, negative_count_cons]
    split_ifs at h with h1 h2 <;>
    · cases h
      refine ⟨rfl, Option.some_ne_none rs, ?_, ?_, rfl⟩
      · simp only [header_decode_result, positive_sum, List.filter_nil, List.sum_nil,
          initial_statics]
        split_ifs
        all_goals omega
      · simp only [header_decode_result, negative_count, List.filter_nil, List.length_nil,
          initial_statics]
        split_ifs <;> first | rfl | omega

theorem save_old_tally (c : ecc_config) (label : List Nat) (kmalloc : Nat → Option (List Nat))
    (st : ram_console_state) (bootinfo dest : Option (List Nat)) (hC : st.buffer_size < U32)
    (hs : st.buffer.size ≤ st.buffer_size) (hl : st.buffer.data.length = st.buffer_size) :
    (ram_console_save_old (some c) label kmalloc st bootinfo dest).corrected_bytes
        = st.corrected_bytes + positive_sum
            ((List.range ((st.buffer.size + c.ECC_BLOCK_SIZE - 1) / c.ECC_BLOCK_SIZE)).map
              (block_decode_result c st.rs_decoder st.buffer_size st.buffer.data
                st.par_buffer)) ∧
      (ram_console_save_old (some c) label kmalloc st bootinfo dest).bad_blocks
        = st.bad_blocks + negative_count
            ((List.range ((st.buffer.size + c.ECC_BLOCK_SIZE - 1) / c.ECC_BLOCK_SIZE)).map
              (block_decode_result c st.rs_decoder st.buffer_size st.buffer.data
                st.par_buffer)) := by
  have ht := decode_loop_tally c st.rs_decoder st.buffer_size st.buffer.size st.par_buffer hC hs
    st.buffer.size 0 st.buffer.data st.corrected_bytes st.bad_blocks hl (by omega)
  rw [Nat.zero_mul, Nat.zero_mul, Nat.sub_zero, ← List.range_eq_range'] at ht
  have hd : (save_old_decode (some c) st).corrected_bytes
        = (save_old_decode_loop c st.rs_decoder st.buffer_size st.buffer.size st.par_buffer
            st.buffer.size 0 0 (st.buffer.data, st.corrected_bytes, st.bad_blocks)).2.1 ∧
      (save_old_decode (some c) st).bad_blocks
        = (save_old_decode_loop c st.rs_decoder st.buffer_size st.buffer.size st.par_buffer
            st.buffer.size 0 0 (st.buffer.data, st.corrected_bytes, st.bad_blocks)).2.2 :=
    ⟨rfl, rfl⟩
  rw [ht] at hd
  unfold ram_console_save_old
  simp only []
  cases save_old_dest kmalloc _ dest <;> exact hd

/-- C15: during recovery in a build with error correction (the decoder a
given function), over a header that passes validation: the header block is
decoded once and each of the `ceil(size / blockSize)` data blocks is decoded
once, on its stored contents and its own parity group, whatever the earlier
results were (`results` lists the numbers returned, header first); the
corrected total is the sum of the positive results and the bad-block count
is the number of negative results; the diagnostic line, stored in the
export buffer right behind the `size` log bytes, is
"N Corrected bytes, M unrecoverable blocks" (between two newlines) when
either count is non-zero and "No errors detected" otherwise; one corrected
byte and no bad block give "1 Corrected bytes, 0 unrecoverable blocks". -/
theorem C15_decode_tally_and_diagnostic_line (c : ecc_config) (sizeof_buffer : Nat)
    (label : List Nat) (kmalloc : Nat → Option (List Nat)) (reset_reason : Nat)
    (hdr : ram_console_header) (mem : List Nat) (buffer_size : Nat)
    (bootinfo old_buf : Option (List Nat)) (st r : ram_console_state) (results : List Int)
    (hsetup : ram_console_setup (some c) sizeof_buffer hdr mem buffer_size = .ok st)
    (hsig : st.buffer.sig = RAM_CONSOLE_SIG) (hsize : st.buffer.size ≤ st.buffer_size)
    (hstart : st.buffer.start ≤ st.buffer.size) (hC : st.buffer_size < U32)
    (hl : st.buffer.data.length = st.buffer_size)
    (hr : r = ram_console_init (some c) sizeof_buffer label kmalloc reset_reason hdr mem
      buffer_size bootinfo old_buf)
    (hres : results
      = header_decode_result c st.rs_decoder st.buffer_size hdr st.par_buffer
        :: (List.range ((st.buffer.size + c.ECC_BLOCK_SIZE - 1) / c.ECC_BLOCK_SIZE)).map
            (block_decode_result c st.rs_decoder st.buffer_size st.buffer.data st.par_buffer))
    (hcb : -2147483648 ≤ r.corrected_bytes ∧ r.corrected_bytes < 2147483648)
    (hbb : -2147483648 ≤ r.bad_blocks ∧ r.bad_blocks < 2147483648) :
    results.length = 1 + (st.buffer.size + c.ECC_BLOCK_SIZE - 1) / c.ECC_BLOCK_SIZE ∧
      r.corrected_bytes = positive_sum results ∧
      r.bad_blocks = negative_count results ∧
      (∀ log, r.old_log = some log →
        bytes_at log st.buffer.size (ecc_diag_text r.corrected_bytes r.bad_blocks).length
          = ecc_diag_text r.corrected_bytes r.bad_blocks) ∧
      ecc_diag_text r.corrected_bytes r.bad_blocks
        = (if r.corrected_bytes ≠ 0 ∨ r.bad_blocks ≠ 0 then
            cstr ("\n" ++ toString r.corrected_bytes ++ " Corrected bytes, "
              ++ toString r.bad_blocks ++ " unrecoverable blocks\n")
          else cstr "\nNo errors detected\n") ∧
      ecc_diag_text 1 0 = cstr "\n1 Corrected bytes, 0 unrecoverable blocks\n" := by
  obtain ⟨_, _, t1, t2, _⟩ := setup_ecc_tally c sizeof_buffer hdr mem buffer_size st hsetup
  obtain ⟨s1, s2⟩ := save_old_tally c label kmalloc st bootinfo old_buf hC hsize hl
  have hv : ¬ (st.buffer.size > st.buffer_size ∨ st.buffer.start > st.buffer.size) := by omega
  have hrec : r.corrected_bytes
        = (ram_console_save_old (some c) label kmalloc st bootinfo old_buf).corrected_bytes ∧
      r.bad_blocks = (ram_console_save_old (some c) label kmalloc st bootinfo old_buf).bad_blocks ∧
      r.old_log = (ram_console_save_old (some c) label kmalloc st bootinfo old_buf).old_log := by
    rw [hr, init_of_setup_ok _ _ _ _ _ _ _ _ _ _ st hsetup]
    unfold ram_console_recover
    simp only [init_boot_reason, hsig, hv, if_true, if_false]
    exact ⟨trivial, trivial, trivial⟩
  have hcor : r.corrected_bytes = positive_sum results := by
    rw [hrec.1, s1, t1, hres, positive_sum_cons, positive_sum_cons]
    simp [positive_sum]
  have hbad : r.bad_blocks = negative_count results := by
    rw [hrec.2.1, s2, t2, hres, negative_count_cons, negative_count_cons]
    simp [negative_count]
  refine ⟨by rw [hres]; simp; omega, hcor, hbad, ?_, rfl, by decide⟩
  intro log hlog
  rw [hrec.2.2] at hlog
  have hD := save_old_decode_length (some c) st hC hsize hl
  have hstr : save_old_strbuf (some c) (save_old_decode (some c) st)
      = ecc_diag_text r.corrected_bytes r.bad_blocks := by
    have e1 : (save_old_decode (some c) st).corrected_bytes = r.corrected_bytes := by
      rw [hrec.1]
      unfold ram_console_save_old
      simp only []
      cases save_old_dest kmalloc _ old_buf <;> rfl
    have e2 : (save_old_decode (some c) st).bad_blocks = r.bad_blocks := by
      rw [hrec.2.1]
      unfold ram_console_save_old
      simp only []
      cases save_old_dest kmalloc _ old_buf <;> rfl
    unfold save_old_strbuf
    simp only [e1, e2]
    exact List.take_of_length_le (diag_text_length _ _ hcb.1 hcb.2 hbb.1 hbb.2)
  have hfd := fill_diag c label (save_old_decode (some c) st) bootinfo
  simp only [save_old_decode_start, save_old_decode_size, hD, hstr] at hfd
  unfold ram_console_save_old at hlog
  simp only [] at hlog
  cases hdst : save_old_dest kmalloc
      (save_old_total_size (some c) label (save_old_decode (some c) st) bootinfo) old_buf with
  | none =>
    rw [hdst] at hlog
    simp only [] at hlog
    obtain ⟨h0, _⟩ := setup_statics (some c) sizeof_buffer hdr mem buffer_size st hsetup
    rw [(save_old_decode_statics (some c) st).2.1, h0] at hlog
    cases hlog
  | some d =>
    rw [hdst] at hlog
    simp only [Option.some.injEq] at hlog
    rw [← hlog]
    exact hfd d hstart hsize hC

set_option maxRecDepth 100000 in
/-- Instance of C15: the sample build over a zeroed region whose header says
`size = 4`: the header block fails its check, the one data block passes, so
no byte is corrected, one block is bad, and the line behind the four log
bytes is "0 Corrected bytes, 1 unrecoverable blocks". -/
theorem C15_witness :
    (ram_console_init (some sample_ecc) 184 [] kmalloc_ok 1 sample_header
        (List.replicate 72 0) 256 none none).corrected_bytes = 0 ∧
      (ram_console_init (some sample_ecc) 184 [] kmalloc_ok 1 sample_header
        (List.replicate 72 0) 256 none none).bad_blocks = 1 ∧
      ∀ log, (ram_console_init (some sample_ecc) 184 [] kmalloc_ok 1 sample_header
          (List.replicate 72 0) 256 none none).old_log = some log →
        bytes_at log 4 43 = cstr "\n0 Corrected bytes, 1 unrecoverable blocks\n" := by
  have hs : ram_console_setup (some sample_ecc) 184 sample_header (List.replicate 72 0) 256
      = .ok sample_ecc_setup := by
    obtain ⟨st, hs, _⟩ := setup_ok_of_accepted (some sample_ecc) 184 sample_header
      (List.replicate 72 0) 256 ⟨by decide, fun c h => by cases h; decide⟩
      (fun c h => by cases h; exact Option.some_ne_none _)
    unfold sample_ecc_setup
    rw [hs]
  have h := C15_decode_tally_and_diagnostic_line sample_ecc 184 [] kmalloc_ok 1 sample_header
    (List.replicate 72 0) 256 none none sample_ecc_setup _ _ hs (by decide) (by decide)
    (by decide) (by decide) (by decide) rfl rfl (by decide) (by decide)
  have hc : (ram_console_init (some sample_ecc) 184 [] kmalloc_ok 1 sample_header
      (List.replicate 72 0) 256 none none).corrected_bytes = 0 := by decide
  have hb : (ram_console_init (some sample_ecc) 184 [] kmalloc_ok 1 sample_header
      (List.replicate 72 0) 256 none none).bad_blocks = 1 := by decide
  refine ⟨hc, hb, ?_⟩
  intro log hlog
  have h4 := h.2.2.2.1 log hlog
  rw [hc, hb] at h4
  have e4 : sample_ecc_setup.buffer.size = 4 := by decide
  rw [e4] at h4
  have e5 : (ecc_diag_text 0 1).length = 43 := by decide
  have e6 : ecc_diag_text 0 1 = cstr "\n0 Corrected bytes, 1 unrecoverable blocks\n" := by decide
  rw [e5, e6] at h4
  exact h4

/-! ## The exported report: claim C18 -/

theorem digitChar_ne_nul (m : Nat) : (Nat.digitChar m).toNat ≠ 0 := by
  by_cases h : m < 16
  · interval_cases m <;> decide
  · have e : Nat.digitChar m = '*' := by
      unfold Nat.digitChar
      repeat rw [if_neg (by omega)]
    rw [e]
    decide

theorem toDigitsCore_ne_nul (b : Nat) : ∀ (fuel n : Nat) (ds : List Char),
    (∀ ch ∈ ds, ch.toNat ≠ 0) → ∀ ch ∈ Nat.toDigitsCore b fuel n ds, ch.toNat ≠ 0 := by
  intro fuel
  induction fuel with
  | zero => intro n ds h; simpa [Nat.toDigitsCore] using h
  | succ f ih =>
    intro n ds h
    have hd : ∀ ch ∈ Nat.digitChar (n % b) :: ds, ch.toNat ≠ 0 := by
      intro ch hch
      rcases List.mem_cons.1 hch with e | e
      · rw [e]; exact digitChar_ne_nul _
      · exact h ch e
    unfold Nat.toDigitsCore
    simp only []
    split_ifs
    · exact hd
    · exact ih _ _ hd

theorem nat_repr_ne_nul (n : Nat) : ∀ b ∈ cstr (Nat.repr n), b ≠ 0 := by
  intro b hb
  simp only [cstr, List.mem_map] at hb
  obtain ⟨ch, hch, rfl⟩ := hb
  exact toDigitsCore_ne_nul 10 _ _ [] (by simp) ch hch

theorem cstr_append (s t : String) : cstr (s ++ t) = cstr s ++ cstr t := by
  simp [cstr, String.data_append]

theorem int_toString_ne_nul (x : Int) : ∀ b ∈ cstr (toString x), b ≠ 0 := by
  cases x with
  | ofNat m => exact nat_repr_ne_nul m
  | negSucc m =>
    show ∀ b ∈ cstr ("-" ++ Nat.repr (m + 1)), b ≠ 0
    rw [cstr_append]
    intro b hb
    rcases List.mem_append.1 hb with h | h
    · have : ∀ b ∈ cstr "-", b ≠ 0 := by decide
      exact this b h
    · exact nat_repr_ne_nul _ b h

theorem diag_text_ne_nul (cb bb : Int) : ∀ b ∈ ecc_diag_text cb bb, b ≠ 0 := by
  unfold ecc_diag_text
  split_ifs
  · simp only [cstr_append]
    intro b hb
    simp only [List.mem_append] at hb
    have h1 : ∀ b ∈ cstr "\n", b ≠ 0 := by decide
    have h2 : ∀ b ∈ cstr " Corrected bytes, ", b ≠ 0 := by decide
    have h3 : ∀ b ∈ cstr " unrecoverable blocks\n", b ≠ 0 := by decide
    rcases hb with ((((h | h) | h) | h) | h)
    · exact h1 b h
    · exact int_toString_ne_nul _ b h
    · exact h2 b h
    · exact int_toString_ne_nul _ b h
    · exact h3 b h
  · decide

theorem diag_text_head (cb bb : Int) : ∃ t, ecc_diag_text cb bb = 10 :: t := by
  unfold ecc_diag_text
  split_ifs
  · simp only [cstr_append, List.append_assoc]
    exact ⟨_, rfl⟩
  · exact ⟨_, rfl⟩

theorem dropWhile_append_stop (p : Nat → Bool) (a : Nat) (t : List Nat) (ha : p a = false) :
    ∀ R : List Nat, (R ++ a :: t).dropWhile p = R.dropWhile p ++ a :: t := by
  intro R
  induction R with
  | nil => simp [List.dropWhile, ha]
  | cons x xs ih =>
    by_cases hx : p x = true
    · simp [List.dropWhile, hx, ih]
    · simp [List.dropWhile, hx]

theorem takeWhile_append_all (p : Nat → Bool) (B : List Nat) :
    ∀ A : List Nat, (∀ b ∈ A, p b = true) → (A ++ B).takeWhile p = A ++ B.takeWhile p := by
  intro A
  induction A with
  | nil => intro _; rfl
  | cons x xs ih =>
    intro h
    have hx := h x (List.mem_cons_self _ _)
    have := ih (fun b hb => h b (List.mem_cons_of_mem _ hb))
    simp [List.takeWhile, hx, this]

theorem init_ecc_export (c : ecc_config) (sizeof_buffer : Nat)
    (label : List Nat) (kmalloc : Nat → Option (List Nat)) (reset_reason : Nat)
    (hdr : ram_console_header) (mem : List Nat) (buffer_size : Nat)
    (bootinfo old_buf : Option (List Nat)) (st r : ram_console_state) (log : List Nat)
    (hsetup : ram_console_setup (some c) sizeof_buffer hdr mem buffer_size = .ok st)
    (hsig : st.buffer.sig = RAM_CONSOLE_SIG) (hsize : st.buffer.size ≤ st.buffer_size)
    (hstart : st.buffer.start ≤ st.buffer.size) (hC : st.buffer_size < U32)
    (hl : st.buffer.data.length = st.buffer_size)
    (hr : r = ram_console_init (some c) sizeof_buffer label kmalloc reset_reason hdr mem
      buffer_size bootinfo old_buf)
    (hcb : -2147483648 ≤ r.corrected_bytes ∧ r.corrected_bytes < 2147483648)
    (hbb : -2147483648 ≤ r.bad_blocks ∧ r.bad_blocks < 2147483648)
    (hlog : r.old_log = some log) :
    log.take st.buffer.size = unwrapped (save_old_decode (some c) st).buffer ∧
      bytes_at log st.buffer.size (ecc_diag_text r.corrected_bytes r.bad_blocks).length
        = ecc_diag_text r.corrected_bytes r.bad_blocks := by
  have hv : ¬ (st.buffer.size > st.buffer_size ∨ st.buffer.start > st.buffer.size) := by omega
  have hrec : r.corrected_bytes
        = (ram_console_save_old (some c) label kmalloc st bootinfo old_buf).corrected_bytes ∧
      r.bad_blocks = (ram_console_save_old (some c) label kmalloc st bootinfo old_buf).bad_blocks ∧
      r.old_log = (ram_console_save_old (some c) label kmalloc st bootinfo old_buf).old_log := by
    rw [hr, init_of_setup_ok _ _ _ _ _ _ _ _ _ _ st hsetup]
    unfold ram_console_recover
    simp only [init_boot_reason, hsig, hv, if_true, if_false]
    exact ⟨trivial, trivial, trivial⟩
  rw [hrec.2.2] at hlog
  have hD := save_old_decode_length (some c) st hC hsize hl
  have hstr : save_old_strbuf (some c) (save_old_decode (some c) st)
      = ecc_diag_text r.corrected_bytes r.bad_blocks := by
    have e1 : (save_old_decode (some c) st).corrected_bytes = r.corrected_bytes := by
      rw [hrec.1]
      unfold ram_console_save_old
      simp only []
      cases save_old_dest kmalloc _ old_buf <;> rfl
    have e2 : (save_old_decode (some c) st).bad_blocks = r.bad_blocks := by
      rw [hrec.2.1]
      unfold ram_console_save_old
      simp only []
      cases save_old_dest kmalloc _ old_buf <;> rfl
    unfold save_old_strbuf
    simp only [e1, e2]
    exact List.take_of_length_le (diag_text_length _ _ hcb.1 hcb.2 hbb.1 hbb.2)
  have hfd := fill_diag c label (save_old_decode (some c) st) bootinfo
  have hft := save_old_fill_take (some c) label (save_old_decode (some c) st) bootinfo
  simp only [save_old_decode_start, save_old_decode_size, hD, hstr] at hfd hft
  have hu : unwrapped (save_old_decode (some c) st).buffer
      = bytes_at (save_old_decode (some c) st).buffer.data st.buffer.start
          (st.buffer.size - st.buffer.start)
        ++ bytes_at (save_old_decode (some c) st).buffer.data 0 st.buffer.start := by
    unfold unwrapped
    simp only [save_old_decode_start, save_old_decode_size]
    have es : sub32 st.buffer.size st.buffer.start = st.buffer.size - st.buffer.start := by
      simp only [sub32, U32] at *; omega
    rw [es]
  unfold ram_console_save_old at hlog
  simp only [] at hlog
  cases hdst : save_old_dest kmalloc
      (save_old_total_size (some c) label (save_old_decode (some c) st) bootinfo) old_buf with
  | none =>
    rw [hdst] at hlog
    simp only [] at hlog
    obtain ⟨h0, _⟩ := setup_statics (some c) sizeof_buffer hdr mem buffer_size st hsetup
    rw [(save_old_decode_statics (some c) st).2.1, h0] at hlog
    cases hlog
  | some d =>
    rw [hdst] at hlog
    simp only [Option.some.injEq] at hlog
    rw [← hlog, hu]
    exact ⟨hft d hstart hsize hC, hfd d hstart hsize hC⟩

theorem split_three (l : List Nat) (a b : Nat) :
    l = l.take a ++ bytes_at l a b ++ l.drop (a + b) := by
  unfold bytes_at
  rw [List.append_assoc, ← List.drop_drop, List.take_append_drop, List.take_append_drop]

theorem boot_stat_show_text (F S : List Nat) (bs : boot_stat) :
    (boot_stat_show F S bs).2.1
      = if bs.reason < (FRESH_BOOT : Int) ∨ bs.reason ≥ (END_REASON : Int) then []
        else F ++ boot_stat_line bs.reason (boot_reason_str bs.reason.toNat)
            (bs.count bs.reason.toNat) ++ S
          ++ ((List.range END_REASON).map
              (fun (i : Nat) => boot_stat_line (i : Int) (boot_reason_str i) (bs.count i))).flatten := by
  unfold boot_stat_show
  simp only []
  split_ifs <;> rfl

/-- C18 (amended): the report `last_kmsg_show` writes is, in this order: the
time-info line, the boot-info line, the boot-parameters line, the text of
`boot_stat_show` (the current-reason line and the count table; nothing when
the current reason is out of range), the log label, and then the string at
the export buffer. After an initialisation with error correction that
recovered a log without a NUL byte, that string is the recovered log (its
leading spaces skipped), followed by the diagnostic line, followed by what
the buffer holds behind the line up to the first NUL: the diagnostic line
comes after the recovered log bytes. -/
theorem C18_report_section_order (c : ecc_config) (sizeof_buffer : Nat)
    (label : List Nat) (kmalloc : Nat → Option (List Nat)) (reset_reason : Nat)
    (hdr : ram_console_header) (mem : List Nat) (buffer_size : Nat)
    (bootinfo old_buf : Option (List Nat)) (st r : ram_console_state) (log : List Nat)
    (L : report_labels) (ti : time_info) (dump_time saved_command_line beyond : List Nat)
    (bs : boot_stat)
    (hsetup : ram_console_setup (some c) sizeof_buffer hdr mem buffer_size = .ok st)
    (hsig : st.buffer.sig = RAM_CONSOLE_SIG) (hsize : st.buffer.size ≤ st.buffer_size)
    (hstart : st.buffer.start ≤ st.buffer.size) (hC : st.buffer_size < U32)
    (hl : st.buffer.data.length = st.buffer_size)
    (hr : r = ram_console_init (some c) sizeof_buffer label kmalloc reset_reason hdr mem
      buffer_size bootinfo old_buf)
    (hcb : -2147483648 ≤ r.corrected_bytes ∧ r.corrected_bytes < 2147483648)
    (hbb : -2147483648 ≤ r.bad_blocks ∧ r.bad_blocks < 2147483648)
    (hlog : r.old_log = some log)
    (hnul : ∀ b ∈ unwrapped (save_old_decode (some c) st).buffer, b ≠ 0) :
    (last_kmsg_show L ti dump_time saved_command_line bs (log ++ beyond)).2
        = (L.TIME_INFO_LABEL ++ cstr "Boot@" ++ printf_s ti.boot_time ++ cstr "; Update@"
            ++ printf_s ti.update_time ++ cstr "; Dump@" ++ printf_s dump_time ++ cstr "\n")
          ++ (L.BOOT_INFO_LABEL ++ printf_s L.RAM_CONSOLE_BOOT_INFO)
          ++ (L.BOOT_PARM_LABEL ++ printf_s saved_command_line ++ cstr "\n")
          ++ (boot_stat_show L.BOOT_FROM_LABEL L.BOOT_STAT_LABEL bs).2.1
          ++ L.BOOT_KMSG_LABEL
          ++ (unwrapped (save_old_decode (some c) st).buffer).dropWhile (fun b => b == 32)
          ++ ecc_diag_text r.corrected_bytes r.bad_blocks
          ++ printf_s (log.drop
              (st.buffer.size + (ecc_diag_text r.corrected_bytes r.bad_blocks).length)
              ++ beyond) ∧
      (boot_stat_show L.BOOT_FROM_LABEL L.BOOT_STAT_LABEL bs).2.1
        = (if bs.reason < (FRESH_BOOT : Int) ∨ bs.reason ≥ (END_REASON : Int) then []
          else L.BOOT_FROM_LABEL
            ++ boot_stat_line bs.reason (boot_reason_str bs.reason.toNat)
                (bs.count bs.reason.toNat)
            ++ L.BOOT_STAT_LABEL
            ++ ((List.range END_REASON).map
                (fun (i : Nat) =>
                  boot_stat_line (i : Int) (boot_reason_str i) (bs.count i))).flatten) := by
  refine ⟨?_, boot_stat_show_text _ _ _⟩
  obtain ⟨h1, h2⟩ := init_ecc_export c sizeof_buffer label kmalloc reset_reason hdr mem
    buffer_size bootinfo old_buf st r log hsetup hsig hsize hstart hC hl hr hcb hbb hlog
  generalize hU : unwrapped (save_old_decode (some c) st).buffer = U at *
  generalize hT : ecc_diag_text r.corrected_bytes r.bad_blocks = T at *
  have h3 := split_three log st.buffer.size T.length
  rw [h1, h2] at h3
  obtain ⟨t, ht⟩ := diag_text_head r.corrected_bytes r.bad_blocks
  rw [hT] at ht
  have hTn : ∀ b ∈ T, b ≠ 0 := by
    rw [← hT]; exact diag_text_ne_nul _ _
  generalize hX : log.drop (st.buffer.size + T.length) = X at *
  have hp : printf_s ((log ++ beyond).dropWhile (fun b => b == 32))
      = U.dropWhile (fun b => b == 32) ++ T ++ printf_s (X ++ beyond) := by
    rw [h3, List.append_assoc, List.append_assoc, ht, List.cons_append,
      dropWhile_append_stop _ 10 _ (by decide), ← List.cons_append, ← ht]
    unfold printf_s
    rw [← List.append_assoc, takeWhile_append_all]
    intro b hb
    have hb0 : b ≠ 0 := by
      rcases List.mem_append.1 hb with h | h
      · exact hnul b ((List.dropWhile_sublist _).subset h)
      · exact hTn b h
    simpa using hb0
  unfold last_kmsg_show
  simp only [hp, List.append_assoc]

set_option maxRecDepth 1000000 in
/-- C18 as stated fails: for the sample region whose log is "ab\n" and whose
parity is intact, the report ends with the log label, then the recovered
log "ab\n", and only then the diagnostic line "No errors detected". -/
theorem C18_counterexample :
    (last_kmsg_show sample_labels ⟨cstr "t1", cstr "t2"⟩ (cstr "t3") (cstr "quiet")
        (ram_console_init (some sample_ecc) 184 [] kmalloc_ok 1 logged_header logged_memory
          256 none none).buffer.bs
        ((ram_console_init (some sample_ecc) 184 [] kmalloc_ok 1 logged_header logged_memory
          256 none none).old_log.getD [] ++ [0])).2
      = cstr ("T:Boot@t1; Update@t2; Dump@t3\nI:info\nP:quiet\nF:10, external reset, 1\nS:\n"
          ++ "0, fresh boot, 0\n1, software reboot, 0\n2, oops reboot, 0\n3, panic reboot, 0\n"
          ++ "4, halt reboot, 0\n5, poweroff reboot, 0\n6, kexec reboot, 0\n7, emerg reboot, 0\n"
          ++ "8, warm reset, 0\n9, watchdog reset, 0\n10, external reset, 1\n"
          ++ "11, sleep wakeup, 0\n12, deep idle wakeup, 0\n13, deep stop wakeup, 0\n"
          ++ "14, unknow reason, 0\nK:\n" ++ "ab\n" ++ "\nNo errors detected\n") := by
  decide

set_option maxRecDepth 1000000 in
/-- Instance of the amended C18 on the sample region: the report ends with
the log label, the recovered log "ab\n" and then the diagnostic line. -/
theorem C18_witness :
    ∃ head : List Nat,
      (last_kmsg_show sample_labels ⟨cstr "t1", cstr "t2"⟩ (cstr "t3") (cstr "quiet")
          boot_stat_zero (cstr "ab\n\nNo errors detected\n" ++ [0])).2
        = head ++ cstr "K:\n" ++ cstr "ab\n" ++ cstr "\nNo errors detected\n" := by
  have hs : ram_console_setup (some sample_ecc) 184 logged_header logged_memory 256
      = .ok logged_setup := by
    obtain ⟨st, hs, _⟩ := setup_ok_of_accepted (some sample_ecc) 184 logged_header
      logged_memory 256 ⟨by decide, fun c h => by cases h; decide⟩
      (fun c h => by cases h; exact Option.some_ne_none _)
    unfold logged_setup
    rw [hs]
  have h := (C18_report_section_order sample_ecc 184 [] kmalloc_ok 1 logged_header
    logged_memory 256 none none logged_setup _ (cstr "ab\n\nNo errors detected\n")
    sample_labels ⟨cstr "t1", cstr "t2"⟩ (cstr "t3") (cstr "quiet") [0] boot_stat_zero
    hs (by decide) (by decide) (by decide) (by decide) (by decide) rfl (by decide) (by decide)
    (by decide) (by decide)).1
  have e1 : (unwrapped (save_old_decode (some sample_ecc) logged_setup).buffer).dropWhile
      (fun b => b == 32) = cstr "ab\n" := by decide
  have e2 : ecc_diag_text
      (ram_console_init (some sample_ecc) 184 [] kmalloc_ok 1 logged_header logged_memory
        256 none none).corrected_bytes
      (ram_console_init (some sample_ecc) 184 [] kmalloc_ok 1 logged_header logged_memory
        256 none none).bad_blocks = cstr "\nNo errors detected\n" := by decide
  have e3 : logged_setup.buffer.size = 3 := by decide
  rw [e1, e2, e3] at h
  have e4 : printf_s ((cstr "ab\n\nNo errors detected\n").drop
      (3 + (cstr "\nNo errors detected\n").length) ++ [0]) = [] := by decide
  rw [e4, List.append_nil] at h
  exact ⟨_, h⟩

/-! ## Parity maintenance by the writer: claim C16 -/

theorem and_block_mask (k x : Nat) (hk : k ≤ 32) (hx : x < U32) :
    Nat.land x (U32 - 1 - (2 ^ k - 1)) = (x / 2 ^ k) * 2 ^ k := by
  have hm : U32 - 1 - (2 ^ k - 1) = 2 ^ k * (2 ^ (32 - k) - 1) := by
    have h1 : 2 ^ k * 2 ^ (32 - k) = U32 := by
      rw [← Nat.pow_add, Nat.add_sub_cancel' hk]; rfl
    have h2 : 0 < 2 ^ k := Nat.pow_pos (by decide)
    rw [Nat.mul_sub, h1, Nat.mul_one]
    omega
  rw [hm, Nat.mul_comm (x / 2 ^ k)]
  apply Nat.eq_of_testBit_eq
  intro i
  show (x &&& 2 ^ k * (2 ^ (32 - k) - 1)).testBit i = _
  rw [Nat.testBit_and, Nat.testBit_mul_pow_two, Nat.testBit_mul_pow_two,
    Nat.testBit_two_pow_sub_one, ← Nat.shiftRight_eq_div_pow, Nat.testBit_shiftRight]
  by_cases hi : k ≤ i
  · have e : k + (i - k) = i := by omega
    by_cases h32 : i < 32
    · have : i - k < 32 - k := by omega
      simp [hi, this, e]
    · have hf : x.testBit i = false := by
        apply Nat.testBit_lt_two_pow
        have h32le : 32 ≤ i := by omega
        have hp : (2 : Nat) ^ 32 ≤ 2 ^ i := Nat.pow_le_pow_right (by decide) h32le
        exact lt_of_lt_of_le hx hp
      simp [hi, e, hf]
  · simp [hi]

theorem encode_length (c : ecc_config) (r : rs_control) (data : List Nat) :
    (ram_console_encode_rs8 c (some r) data).length = c.ECC_SIZE := by
  simp [ram_console_encode_rs8]

theorem group_memcpy (pb enc : List Nat) (E j g : Nat) (hlen : (j + 1) * E ≤ pb.length)
    (henc : enc.length = E) :
    (memcpy pb (j * E) enc E).length = pb.length ∧
      bytes_at (memcpy pb (j * E) enc E) (g * E) E
        = if g = j then enc else bytes_at pb (g * E) E := by
  have hj : j * E + E ≤ pb.length := by rw [Nat.succ_mul] at hlen; exact hlen
  refine ⟨by rw [memcpy_length]; omega, ?_⟩
  by_cases h : g = j
  · subst h
    rw [if_pos rfl, memcpy_of_le _ _ _ _ (le_of_eq henc.symm)]
    unfold bytes_at
    have hl : (pb.take (g * E)).length = g * E := by simp; omega
    rw [List.append_assoc, List.drop_left' hl, List.take_of_length_le (le_of_eq henc),
      List.take_left' henc]
  · rw [if_neg h]
    rcases Nat.lt_or_gt_of_ne h with hlt | hgt
    · have h1 : (g + 1) * E ≤ j * E := Nat.mul_le_mul_right _ hlt
      rw [Nat.succ_mul] at h1
      unfold bytes_at
      rw [List.take_drop, List.take_drop, memcpy_take_below _ _ _ _ _ h1 (by omega)]
    · have h1 : (j + 1) * E ≤ g * E := Nat.mul_le_mul_right _ hgt
      rw [Nat.succ_mul] at h1
      exact bytes_at_memcpy_after _ _ _ _ _ _ h1 hj

theorem update_loop_groups (c : ecc_config) (r : rs_control) (C : Nat) (D : List Nat)
    (limit : Nat) (hC : C < U32) (hlim : limit ≤ C) :
    ∀ (fuel j size : Nat) (pb : List Nat), limit - j * c.ECC_BLOCK_SIZE < fuel →
      j * c.ECC_BLOCK_SIZE ≤ C →
      (size = c.ECC_BLOCK_SIZE ∨ C < j * c.ECC_BLOCK_SIZE + c.ECC_BLOCK_SIZE) →
      (C / c.ECC_BLOCK_SIZE + 1) * c.ECC_SIZE ≤ pb.length →
      (ram_console_update_loop c (some r) C D limit fuel (j * c.ECC_BLOCK_SIZE) size
          (j * c.ECC_SIZE) pb).length = pb.length ∧
        ∀ g, bytes_at (ram_console_update_loop c (some r) C D limit fuel
              (j * c.ECC_BLOCK_SIZE) size (j * c.ECC_SIZE) pb) (g * c.ECC_SIZE) c.ECC_SIZE
          = if g = j ∨ (j < g ∧ g * c.ECC_BLOCK_SIZE < limit) then
              ram_console_encode_rs8 c (some r)
                (bytes_at D (g * c.ECC_BLOCK_SIZE)
                  (min c.ECC_BLOCK_SIZE (C - g * c.ECC_BLOCK_SIZE)))
            else bytes_at pb (g * c.ECC_SIZE) c.ECC_SIZE := by
  intro fuel
  induction fuel with
  | zero => intro j size pb h; omega
  | succ n ih =>
    intro j size pb hf hj hs hpb
    have hB := c.block_pos
    have hsz : (if j * c.ECC_BLOCK_SIZE + c.ECC_BLOCK_SIZE > C
          then sub32 C (j * c.ECC_BLOCK_SIZE) else size)
        = min c.ECC_BLOCK_SIZE (C - j * c.ECC_BLOCK_SIZE) := by
      have es : sub32 C (j * c.ECC_BLOCK_SIZE) = C - j * c.ECC_BLOCK_SIZE := by
        simp only [sub32, U32] at *; omega
      split_ifs with h
      · rw [es]; omega
      · omega
    have hjE : (j + 1) * c.ECC_SIZE ≤ pb.length := by
      have : j ≤ C / c.ECC_BLOCK_SIZE := (Nat.le_div_iff_mul_le hB).2 hj
      exact (Nat.mul_le_mul_right _ (Nat.succ_le_succ this)).trans hpb
    have gm := fun g => group_memcpy pb
      (ram_console_encode_rs8 c (some r)
        (bytes_at D (j * c.ECC_BLOCK_SIZE) (min c.ECC_BLOCK_SIZE (C - j * c.ECC_BLOCK_SIZE))))
      c.ECC_SIZE j g hjE (encode_length _ _ _)
    have g1 := (gm 0).1
    have g2 := fun g => (gm g).2
    simp only [ram_console_update_loop, hsz]
    have e1 : j * c.ECC_BLOCK_SIZE + c.ECC_BLOCK_SIZE = (j + 1) * c.ECC_BLOCK_SIZE := by
      rw [Nat.succ_mul]
    have e2 : j * c.ECC_SIZE + c.ECC_SIZE = (j + 1) * c.ECC_SIZE := by rw [Nat.succ_mul]
    rw [e1, e2]
    by_cases hc : (j + 1) * c.ECC_BLOCK_SIZE < limit
    · rw [if_pos hc]
      have hs' : min c.ECC_BLOCK_SIZE (C - j * c.ECC_BLOCK_SIZE) = c.ECC_BLOCK_SIZE ∨
          C < (j + 1) * c.ECC_BLOCK_SIZE + c.ECC_BLOCK_SIZE := by
        left; omega
      obtain ⟨i1, i2⟩ := ih (j + 1) _ _ (by omega) (by omega) hs'
        (by rw [g1]; exact hpb)
      refine ⟨by rw [i1, g1], ?_⟩
      intro g
      rw [i2 g, g2 g]
      by_cases hg : g = j
      · subst hg
        have : ¬ (g = g + 1 ∨ g + 1 < g ∧ g * c.ECC_BLOCK_SIZE < limit) := by omega
        rw [if_neg this, if_pos rfl, if_pos (Or.inl rfl)]
      · rw [if_neg hg]
        by_cases hg2 : j < g ∧ g * c.ECC_BLOCK_SIZE < limit
        · have : g = j + 1 ∨ j + 1 < g ∧ g * c.ECC_BLOCK_SIZE < limit := by omega
          rw [if_pos this, if_pos (Or.inr hg2)]
        · have a : ¬ (g = j ∨ j < g ∧ g * c.ECC_BLOCK_SIZE < limit) := by
            rintro (h | h)
            · exact hg h
            · exact hg2 h
          have b : ¬ (g = j + 1 ∨ j + 1 < g ∧ g * c.ECC_BLOCK_SIZE < limit) := by
            rintro (h | h)
            · subst h; exact hg2 ⟨by omega, hc⟩
            · exact hg2 ⟨by omega, h.2⟩
          rw [if_neg a, if_neg b]
    · rw [if_neg hc]
      refine ⟨g1, ?_⟩
      intro g
      rw [g2 g]
      by_cases hg : g = j
      · rw [if_pos hg, if_pos (Or.inl hg), hg]
      · have a : ¬ (g = j ∨ j < g ∧ g * c.ECC_BLOCK_SIZE < limit) := by
          rintro (h | ⟨h1, h2⟩)
          · exact hg h
          · have : (j + 1) * c.ECC_BLOCK_SIZE ≤ g * c.ECC_BLOCK_SIZE :=
              Nat.mul_le_mul_right _ h1
            omega
        rw [if_neg hg, if_neg a]

theorem update_groups (c : ecc_config) (r : rs_control) (k : Nat) (st : ram_console_state)
    (s : List Nat) (count : Nat) (hB : c.ECC_BLOCK_SIZE = 2 ^ k)
    (hC : st.buffer_size + c.ECC_BLOCK_SIZE ≤ U32)
    (hcnt : st.buffer.start + count ≤ st.buffer_size) (hrs : st.rs_decoder = some r)
    (hpar : (st.buffer_size / c.ECC_BLOCK_SIZE + 1) * c.ECC_SIZE ≤ st.par_buffer.length) :
    (ram_console_update (some c) st s count).buffer.data
        = memcpy st.buffer.data st.buffer.start s count ∧
      (ram_console_update (some c) st s count).buffer.toram_console_header
        = st.buffer.toram_console_header ∧
      (ram_console_update (some c) st s count).buffer_size = st.buffer_size ∧
      (ram_console_update (some c) st s count).rs_decoder = st.rs_decoder ∧
      (ram_console_update (some c) st s count).par_buffer.length = st.par_buffer.length ∧
      ∀ g, bytes_at (ram_console_update (some c) st s count).par_buffer (g * c.ECC_SIZE)
            c.ECC_SIZE
        = if g = st.buffer.start / c.ECC_BLOCK_SIZE ∨
              (st.buffer.start / c.ECC_BLOCK_SIZE < g ∧
                g * c.ECC_BLOCK_SIZE < st.buffer.start + count) then
            ram_console_encode_rs8 c (some r)
              (bytes_at (memcpy st.buffer.data st.buffer.start s count) (g * c.ECC_BLOCK_SIZE)
                (min c.ECC_BLOCK_SIZE (st.buffer_size - g * c.ECC_BLOCK_SIZE)))
          else bytes_at st.par_buffer (g * c.ECC_SIZE) c.ECC_SIZE := by
  have hBp := c.block_pos
  have hk : k ≤ 32 := by
    have h1 : (2 : Nat) ^ k ≤ 2 ^ 32 := by
      rw [← hB]
      simp only [U32] at hC
      omega
    exact (Nat.pow_le_pow_iff_right (by decide)).1 h1
  have hCl : st.buffer_size < U32 := by omega
  have hm : Nat.land st.buffer.start (U32 - 1 - (c.ECC_BLOCK_SIZE - 1))
      = st.buffer.start / c.ECC_BLOCK_SIZE * c.ECC_BLOCK_SIZE := by
    rw [hB]
    exact and_block_mask k _ hk (by omega)
  have hj : st.buffer.start / c.ECC_BLOCK_SIZE * c.ECC_BLOCK_SIZE ≤ st.buffer_size :=
    (Nat.div_mul_le_self _ _).trans (by omega)
  obtain ⟨l1, l2⟩ := update_loop_groups c r st.buffer_size
    (memcpy st.buffer.data st.buffer.start s count) (st.buffer.start + count) hCl hcnt
    (st.buffer.start + count + 1) (st.buffer.start / c.ECC_BLOCK_SIZE) c.ECC_BLOCK_SIZE
    st.par_buffer (by omega) hj (Or.inl rfl) hpar
  unfold ram_console_update
  simp only [hm, hrs]
  exact ⟨trivial, trivial, trivial, trivial, l1, l2⟩

theorem write_par_nowrap (c : ecc_config) (st : ram_console_state) (s : List Nat)
    (count : Nat) (h1 : count ≤ st.buffer_size)
    (h2 : ¬ sub32 st.buffer_size st.buffer.start < count) :
    (ram_console_write (some c) st s count).buffer.data
        = (ram_console_update (some c) st s count).buffer.data ∧
      (ram_console_write (some c) st s count).par_buffer
        = memcpy (ram_console_update (some c) st s count).par_buffer
            (DIV_ROUND_UP st.buffer_size c.ECC_BLOCK_SIZE * c.ECC_SIZE)
            (ram_console_encode_rs8 c st.rs_decoder
              (c.hdr_bytes (ram_console_write (some c) st s count).buffer.toram_console_header))
            c.ECC_SIZE := by
  have h1' : ¬ count > st.buffer_size := by omega
  unfold ram_console_write
  simp only [h1', h2, if_false]
  by_cases hs : (ram_console_update (some c) st s count).buffer.size
      < (ram_console_update (some c) st s count).buffer_size
  · simp only [hs, if_true]
    exact ⟨rfl, rfl⟩
  · simp only [hs, if_false]
    exact ⟨rfl, rfl⟩

theorem write_par_wrap (c : ecc_config) (st u1 st1 u2 : ram_console_state) (s : List Nat)
    (count : Nat) (h1 : count ≤ st.buffer_size)
    (h2 : sub32 st.buffer_size st.buffer.start < count)
    (hu1 : u1 = ram_console_update (some c) st s (sub32 st.buffer_size st.buffer.start))
    (hst1 : st1 = { u1 with buffer := { u1.buffer with start := 0, size := u1.buffer_size % U32 } })
    (hu2 : u2 = ram_console_update (some c) st1 (s.drop (sub32 st.buffer_size st.buffer.start))
      (sub32 count (sub32 st.buffer_size st.buffer.start))) :
    (ram_console_write (some c) st s count).buffer.data = u2.buffer.data ∧
      (ram_console_write (some c) st s count).par_buffer
        = memcpy u2.par_buffer
            (DIV_ROUND_UP st.buffer_size c.ECC_BLOCK_SIZE * c.ECC_SIZE)
            (ram_console_encode_rs8 c st.rs_decoder
              (c.hdr_bytes (ram_console_write (some c) st s count).buffer.toram_console_header))
            c.ECC_SIZE := by
  have h1' : ¬ count > st.buffer_size := by omega
  subst hu1 hst1 hu2
  unfold ram_console_write
  simp only [h1', h2, if_false, if_true]
  split_ifs
  · exact ⟨rfl, rfl⟩
  · exact ⟨rfl, rfl⟩

theorem copies_truncate (st : ram_console_state) (s : List Nat) (count : Nat)
    (h : count > st.buffer_size) :
    ram_console_write_copies st s count
      = ram_console_write_copies st (s.drop (sub32 count st.buffer_size)) st.buffer_size := by
  unfold ram_console_write_copies
  simp only [h, if_true, gt_iff_lt, lt_irrefl, if_false]

theorem write_groups_core (c : ecc_config) (r : rs_control) (k : Nat) (st : ram_console_state)
    (s : List Nat) (count : Nat) (hB : c.ECC_BLOCK_SIZE = 2 ^ k)
    (hC : st.buffer_size + c.ECC_BLOCK_SIZE ≤ U32)
    (hstart : st.buffer.start ≤ st.buffer_size)
    (hl : st.buffer.data.length = st.buffer_size) (hrs : st.rs_decoder = some r)
    (hpar : (DIV_ROUND_UP st.buffer_size c.ECC_BLOCK_SIZE + 1) * c.ECC_SIZE
      ≤ st.par_buffer.length)
    (hcount : count ≤ st.buffer_size) :
    (∀ j, (∃ p ∈ ram_console_write_copies st s count,
          ∃ i, p.1 ≤ i ∧ i < p.1 + p.2.2 ∧ i / c.ECC_BLOCK_SIZE = j) →
        bytes_at (ram_console_write (some c) st s count).par_buffer (j * c.ECC_SIZE) c.ECC_SIZE
          = ram_console_encode_rs8 c (some r)
              (bytes_at (ram_console_write (some c) st s count).buffer.data
                (j * c.ECC_BLOCK_SIZE)
                (min c.ECC_BLOCK_SIZE (st.buffer_size - j * c.ECC_BLOCK_SIZE)))) ∧
      bytes_at (ram_console_write (some c) st s count).par_buffer
          (DIV_ROUND_UP st.buffer_size c.ECC_BLOCK_SIZE * c.ECC_SIZE) c.ECC_SIZE
        = ram_console_encode_rs8 c (some r)
            (c.hdr_bytes (ram_console_write (some c) st s count).buffer.toram_console_header) ∧
      (ram_console_write (some c) st s count).buffer.data
        = (ram_console_write_copies st s count).foldl
            (fun d p => memcpy d p.1 p.2.1 p.2.2) st.buffer.data ∧
      (∀ p ∈ ram_console_write_copies st s count, p.1 + p.2.2 ≤ st.buffer_size) := by
  have hBp := c.block_pos
  have hCl : st.buffer_size < U32 := by omega
  have hH : DIV_ROUND_UP st.buffer_size c.ECC_BLOCK_SIZE
      = (st.buffer_size + c.ECC_BLOCK_SIZE - 1) / c.ECC_BLOCK_SIZE := by
    unfold DIV_ROUND_UP
    rw [Nat.mod_eq_of_lt (by omega)]
  have hHge : st.buffer_size / c.ECC_BLOCK_SIZE
      ≤ DIV_ROUND_UP st.buffer_size c.ECC_BLOCK_SIZE := by
    rw [hH]; exact Nat.div_le_div_right (by omega)
  have hpar0 : (st.buffer_size / c.ECC_BLOCK_SIZE + 1) * c.ECC_SIZE ≤ st.par_buffer.length :=
    (Nat.mul_le_mul_right _ (Nat.succ_le_succ hHge)).trans hpar
  have hnotH : ∀ g, g * c.ECC_BLOCK_SIZE < st.buffer_size →
      g ≠ DIV_ROUND_UP st.buffer_size c.ECC_BLOCK_SIZE := by
    intro g hg
    have := (block_index_lt st.buffer_size c.ECC_BLOCK_SIZE g hBp).2 hg
    rw [hH]; omega
  have hdiv : ∀ i, i / c.ECC_BLOCK_SIZE * c.ECC_BLOCK_SIZE ≤ i := fun i =>
    Nat.div_mul_le_self _ _
  have erem : sub32 st.buffer_size st.buffer.start = st.buffer_size - st.buffer.start := by
    simp only [sub32, U32] at *; omega
  have hc' : ¬ count > st.buffer_size := by omega
  by_cases hw : sub32 st.buffer_size st.buffer.start < count
  · -- the write runs over the end of the region
    have hw' : st.buffer_size - st.buffer.start < count := by rw [erem] at hw; exact hw
    have ecnt : sub32 count (st.buffer_size - st.buffer.start)
        = count - (st.buffer_size - st.buffer.start) := by
      simp only [sub32, U32] at *; omega
    have hcopies : ram_console_write_copies st s count
        = [(st.buffer.start, s, st.buffer_size - st.buffer.start),
           (0, s.drop (st.buffer_size - st.buffer.start),
            count - (st.buffer_size - st.buffer.start))] := by
      unfold ram_console_write_copies
      simp only [hc', if_false, erem, hw', if_true, ecnt]
    obtain ⟨w1, w2⟩ := write_par_wrap c st _ _ _ s count hcount hw rfl rfl rfl
    simp only [erem, ecnt] at w1 w2
    rw [erem] at hw
    obtain ⟨a1, a2, a3, a4, a5, a6⟩ := update_groups c r k st s
      (st.buffer_size - st.buffer.start) hB hC (by omega) hrs hpar0
    generalize hu1 : ram_console_update (some c) st s (st.buffer_size - st.buffer.start)
      = u1 at *
    have hu1len : u1.buffer.data.length = st.buffer_size := by
      rw [a1, memcpy_length]; omega
    obtain ⟨b1, b2, b3, b4, b5, b6⟩ := update_groups c r k
      ({ u1 with buffer := { u1.buffer with start := 0, size := u1.buffer_size % U32 } })
      (s.drop (st.buffer_size - st.buffer.start))
      (count - (st.buffer_size - st.buffer.start)) hB
      (by simp only [a3]; exact hC) (by simp only [a3]; omega)
      (by simp only [a4]; exact hrs) (by simp only [a3, a5]; exact hpar0)
    generalize hu2 : ram_console_update (some c)
      ({ u1 with buffer := { u1.buffer with start := 0, size := u1.buffer_size % U32 } })
      (s.drop (st.buffer_size - st.buffer.start))
      (count - (st.buffer_size - st.buffer.start)) = u2 at *
    simp only [a3, Nat.zero_div, Nat.zero_add] at b1 b3 b5 b6
    obtain ⟨m1, m2⟩ : (memcpy u2.par_buffer
          (DIV_ROUND_UP st.buffer_size c.ECC_BLOCK_SIZE * c.ECC_SIZE)
          (ram_console_encode_rs8 c (some r)
            (c.hdr_bytes (ram_console_write (some c) st s count).buffer.toram_console_header))
          c.ECC_SIZE).length = u2.par_buffer.length ∧
        ∀ g, bytes_at (memcpy u2.par_buffer
            (DIV_ROUND_UP st.buffer_size c.ECC_BLOCK_SIZE * c.ECC_SIZE)
            (ram_console_encode_rs8 c (some r)
              (c.hdr_bytes (ram_console_write (some c) st s count).buffer.toram_console_header))
            c.ECC_SIZE) (g * c.ECC_SIZE) c.ECC_SIZE
          = if g = DIV_ROUND_UP st.buffer_size c.ECC_BLOCK_SIZE then
              ram_console_encode_rs8 c (some r)
                (c.hdr_bytes
                  (ram_console_write (some c) st s count).buffer.toram_console_header)
            else bytes_at u2.par_buffer (g * c.ECC_SIZE) c.ECC_SIZE := by
      refine ⟨(group_memcpy _ _ _ _ 0 (by rw [b5, a5]; exact hpar) (encode_length _ _ _)).1,
        fun g => (group_memcpy _ _ _ _ g (by rw [b5, a5]; exact hpar) (encode_length _ _ _)).2⟩
    rw [hrs] at w2
    refine ⟨?_, ?_, ?_, ?_⟩
    · rintro j ⟨p, hp, i, hi1, hi2, hij⟩
      have hjB : j * c.ECC_BLOCK_SIZE ≤ i := by rw [← hij]; exact hdiv i
      rw [hcopies] at hp
      have hi : i < st.buffer_size := by
        simp only [List.mem_cons, List.mem_singleton, List.not_mem_nil, or_false] at hp
        rcases hp with rfl | rfl
        · simp only [] at hi1 hi2; omega
        · simp only [] at hi1 hi2; omega
      rw [w2, m2 j, if_neg (hnotH j (by omega)), w1, b6 j]
      by_cases hj2 : j = 0 ∨ 0 < j ∧
          j * c.ECC_BLOCK_SIZE < count - (st.buffer_size - st.buffer.start)
      · rw [if_pos hj2, b1]
      · rw [if_neg hj2]
        have hj0 : 0 < j := by omega
        have hjc : count - (st.buffer_size - st.buffer.start) ≤ j * c.ECC_BLOCK_SIZE := by
          by_contra hcon
          exact hj2 (Or.inr ⟨hj0, by omega⟩)
        have hfirst : st.buffer.start ≤ i := by
          simp only [List.mem_cons, List.mem_singleton, List.not_mem_nil, or_false] at hp
          rcases hp with rfl | rfl
          · exact hi1
          · simp only [] at hi1 hi2
            omega
        have hj1 : j = st.buffer.start / c.ECC_BLOCK_SIZE ∨
            (st.buffer.start / c.ECC_BLOCK_SIZE < j ∧
              j * c.ECC_BLOCK_SIZE < st.buffer.start + (st.buffer_size - st.buffer.start)) := by
          have : st.buffer.start / c.ECC_BLOCK_SIZE ≤ j := by
            rw [← hij]; exact Nat.div_le_div_right hfirst
          rcases Nat.eq_or_lt_of_le this with h | h
          · exact Or.inl h.symm
          · exact Or.inr ⟨h, by omega⟩
        rw [a6 j, if_pos hj1, b1, a1]
        congr 1
        exact (bytes_at_memcpy_after _ _ _ _ _ _ (by omega)
          (by rw [memcpy_length]; omega)).symm
    · rw [w2, m2, if_pos rfl]
    · rw [w1, b1, a1, hcopies]
      rfl
    · intro p hp
      rw [hcopies] at hp
      simp only [List.mem_cons, List.mem_singleton, List.not_mem_nil, or_false] at hp
      rcases hp with rfl | rfl
      · simp only []; omega
      · simp only []; omega
  · -- the write fits before the end of the region
    have hcopies : ram_console_write_copies st s count = [(st.buffer.start, s, count)] := by
      unfold ram_console_write_copies
      simp only [hc', if_false, hw]
    obtain ⟨w1, w2⟩ := write_par_nowrap c st s count hcount hw
    rw [erem] at hw
    obtain ⟨a1, a2, a3, a4, a5, a6⟩ := update_groups c r k st s count hB hC (by omega) hrs
      hpar0
    generalize hu1 : ram_console_update (some c) st s count = u1 at *
    obtain ⟨m1, m2⟩ : (memcpy u1.par_buffer
          (DIV_ROUND_UP st.buffer_size c.ECC_BLOCK_SIZE * c.ECC_SIZE)
          (ram_console_encode_rs8 c (some r)
            (c.hdr_bytes (ram_console_write (some c) st s count).buffer.toram_console_header))
          c.ECC_SIZE).length = u1.par_buffer.length ∧
        ∀ g, bytes_at (memcpy u1.par_buffer
            (DIV_ROUND_UP st.buffer_size c.ECC_BLOCK_SIZE * c.ECC_SIZE)
            (ram_console_encode_rs8 c (some r)
              (c.hdr_bytes (ram_console_write (some c) st s count).buffer.toram_console_header))
            c.ECC_SIZE) (g * c.ECC_SIZE) c.ECC_SIZE
          = if g = DIV_ROUND_UP st.buffer_size c.ECC_BLOCK_SIZE then
              ram_console_encode_rs8 c (some r)
                (c.hdr_bytes
                  (ram_console_write (some c) st s count).buffer.toram_console_header)
            else bytes_at u1.par_buffer (g * c.ECC_SIZE) c.ECC_SIZE := by
      refine ⟨(group_memcpy _ _ _ _ 0 (by rw [a5]; exact hpar) (encode_length _ _ _)).1,
        fun g => (group_memcpy _ _ _ _ g (by rw [a5]; exact hpar) (encode_length _ _ _)).2⟩
    rw [hrs] at w2
    refine ⟨?_, ?_, ?_, ?_⟩
    · rintro j ⟨p, hp, i, hi1, hi2, hij⟩
      have hjB : j * c.ECC_BLOCK_SIZE ≤ i := by rw [← hij]; exact hdiv i
      rw [hcopies] at hp
      simp only [List.mem_singleton] at hp
      subst hp
      simp only [] at hi1 hi2
      have hj1 : j = st.buffer.start / c.ECC_BLOCK_SIZE ∨
          (st.buffer.start / c.ECC_BLOCK_SIZE < j ∧
            j * c.ECC_BLOCK_SIZE < st.buffer.start + count) := by
        have : st.buffer.start / c.ECC_BLOCK_SIZE ≤ j := by
          rw [← hij]; exact Nat.div_le_div_right hi1
        rcases Nat.eq_or_lt_of_le this with h | h
        · exact Or.inl h.symm
        · exact Or.inr ⟨h, by omega⟩
      rw [w2, m2 j, if_neg (hnotH j (by omega)), w1, a6 j, if_pos hj1, a1]
    · rw [w2, m2, if_pos rfl]
    · rw [w1, a1, hcopies]
      rfl
    · intro p hp
      rw [hcopies] at hp
      simp only [List.mem_singleton] at hp
      subst hp
      simp only []; omega

/-- C16: with error correction compiled in (the encoder a given function)
and a block size that is a power of two, after `ram_console_write` from a
state with `start ≤ C`: every block of the data region that contains a byte
stored by one of the copies of this write (block `j` contains the indices
`i` with `i / blockSize = j`) has its parity group `j` equal to the encoding
of the block as it stands after the write, of length
`min(blockSize, C - j * blockSize)`; and the parity group at index
`ceil(C / blockSize)` is the encoding of the header as it stands after the
write, with `start` and `size` updated. The copies are those that produce
the data region of the result, and each of them ends within the region. -/
theorem C16_write_reencodes_touched_blocks (c : ecc_config) (r : rs_control) (k : Nat)
    (st w : ram_console_state) (s : List Nat) (count : Nat)
    (hB : c.ECC_BLOCK_SIZE = 2 ^ k)
    (hC : st.buffer_size + c.ECC_BLOCK_SIZE ≤ U32)
    (hstart : st.buffer.start ≤ st.buffer_size)
    (hl : st.buffer.data.length = st.buffer_size) (hrs : st.rs_decoder = some r)
    (hpar : (DIV_ROUND_UP st.buffer_size c.ECC_BLOCK_SIZE + 1) * c.ECC_SIZE
      ≤ st.par_buffer.length)
    (hcount : count < U32) (hw : w = ram_console_write (some c) st s count) :
    (∀ j, (∃ p ∈ ram_console_write_copies st s count,
          ∃ i, p.1 ≤ i ∧ i < p.1 + p.2.2 ∧ i / c.ECC_BLOCK_SIZE = j) →
        bytes_at w.par_buffer (j * c.ECC_SIZE) c.ECC_SIZE
          = ram_console_encode_rs8 c (some r)
              (bytes_at w.buffer.data (j * c.ECC_BLOCK_SIZE)
                (min c.ECC_BLOCK_SIZE (st.buffer_size - j * c.ECC_BLOCK_SIZE)))) ∧
      bytes_at w.par_buffer (DIV_ROUND_UP st.buffer_size c.ECC_BLOCK_SIZE * c.ECC_SIZE)
          c.ECC_SIZE
        = ram_console_encode_rs8 c (some r) (c.hdr_bytes w.buffer.toram_console_header) ∧
      w.buffer.data
        = (ram_console_write_copies st s count).foldl
            (fun d p => memcpy d p.1 p.2.1 p.2.2) st.buffer.data ∧
      (∀ p ∈ ram_console_write_copies st s count, p.1 + p.2.2 ≤ st.buffer_size) := by
  by_cases h : count > st.buffer_size
  · have e : sub32 count st.buffer_size = count - st.buffer_size := by
      simp only [sub32, U32] at *; omega
    rw [hw, write_truncate (some c) st s count h hcount, copies_truncate st s count h, e]
    exact write_groups_core c r k st _ st.buffer_size hB hC hstart hl hrs hpar (le_refl _)
  · rw [hw]
    exact write_groups_core c r k st s count hB hC hstart hl hrs hpar (by omega)

set_option maxRecDepth 1000000 in
/-- Instance of C16: in the sample build, writing "hello" to a session whose
cursor stands two bytes before the end of the 48-byte region stores two
bytes in block 2 and three in block 0; afterwards the parity groups 2 and 0
are the encodings of these blocks and group 3 is the encoding of the
header. -/
theorem C16_witness :
    bytes_at (ram_console_write (some sample_ecc) parity_session (cstr "hello") 5).par_buffer
        (2 * 4) 4
      = ram_console_encode_rs8 sample_ecc (some checksum_rs)
          (bytes_at (ram_console_write (some sample_ecc) parity_session (cstr "hello")
            5).buffer.data (2 * 16) (min 16 (48 - 2 * 16))) ∧
      bytes_at (ram_console_write (some sample_ecc) parity_session (cstr "hello") 5).par_buffer
        (0 * 4) 4
      = ram_console_encode_rs8 sample_ecc (some checksum_rs)
          (bytes_at (ram_console_write (some sample_ecc) parity_session (cstr "hello")
            5).buffer.data (0 * 16) (min 16 (48 - 0 * 16))) ∧
      bytes_at (ram_console_write (some sample_ecc) parity_session (cstr "hello") 5).par_buffer
        (3 * 4) 4
      = ram_console_encode_rs8 sample_ecc (some checksum_rs)
          (arm_hdr_bytes (ram_console_write (some sample_ecc) parity_session (cstr "hello")
            5).buffer.toram_console_header) := by
  have h := C16_write_reencodes_touched_blocks sample_ecc checksum_rs 4 parity_session _
    (cstr "hello") 5 rfl (by decide) (by decide) (by decide) rfl (by decide) (by decide) rfl
  have hc : ram_console_write_copies parity_session (cstr "hello") 5
      = [(46, cstr "hello", 2), (0, (cstr "hello").drop 2, 3)] := by decide
  refine ⟨?_, ?_, h.2.1⟩
  · exact h.1 2 ⟨_, by rw [hc]; exact List.mem_cons_self _ _, 46, by decide, by decide,
      by decide⟩
  · exact h.1 0 ⟨_, by rw [hc]; exact List.mem_cons_of_mem _ (List.mem_cons_self _ _), 1,
      by decide, by decide, by decide⟩

/-! ## The codec round trip: claim C20 -/

theorem rs_eval_acc (G : galois_field) (x : G.F) : ∀ (l : List G.F) (acc : G.F),
    l.foldl (fun acc c => acc * x + c) acc = acc * x ^ l.length + rs_eval G l x := by
  intro l
  induction l with
  | nil => intro acc; simp [rs_eval]
  | cons a l ih =>
    intro acc
    unfold rs_eval
    rw [List.foldl_cons, List.foldl_cons, ih, ih (0 * x + a), List.length_cons]
    ring

theorem rs_eval_cons (G : galois_field) (x a : G.F) (l : List G.F) :
    rs_eval G (a :: l) x = a * x ^ l.length + rs_eval G l x := by
  have h := rs_eval_acc G x l (0 * x + a)
  unfold rs_eval at *
  rw [List.foldl_cons, h]
  ring

theorem rs_eval_nil (G : galois_field) (x : G.F) : rs_eval G [] x = 0 := rfl

theorem rs_eval_append (G : galois_field) (x : G.F) (m p : List G.F) :
    rs_eval G (m ++ p) x = rs_eval G m x * x ^ p.length + rs_eval G p x := by
  have h := rs_eval_acc G x p (rs_eval G m x)
  unfold rs_eval at *
  rw [List.foldl_append, h]

theorem rs_eval_add (G : galois_field) (x : G.F) : ∀ (a b : List G.F), a.length = b.length →
    rs_eval G (List.zipWith (fun u v => u + v) a b) x = rs_eval G a x + rs_eval G b x := by
  intro a
  induction a with
  | nil =>
    intro b h
    cases b with
    | nil => simp [rs_eval]
    | cons _ _ => simp at h
  | cons u a ih =>
    intro b h
    cases b with
    | nil => simp at h
    | cons v b =>
      have hl : a.length = b.length := by simpa using h
      rw [List.zipWith_cons_cons, rs_eval_cons, rs_eval_cons, rs_eval_cons, ih b hl,
        List.length_zipWith, hl, Nat.min_self]
      ring

theorem rs_eval_sub (G : galois_field) (x : G.F) : ∀ (a b : List G.F), a.length = b.length →
    rs_eval G (List.zipWith (fun u v => u - v) a b) x = rs_eval G a x - rs_eval G b x := by
  intro a
  induction a with
  | nil =>
    intro b h
    cases b with
    | nil => simp [rs_eval]
    | cons _ _ => simp at h
  | cons u a ih =>
    intro b h
    cases b with
    | nil => simp at h
    | cons v b =>
      have hl : a.length = b.length := by simpa using h
      rw [List.zipWith_cons_cons, rs_eval_cons, rs_eval_cons, rs_eval_cons, ih b hl,
        List.length_zipWith, hl, Nat.min_self]
      ring

theorem rs_eval_scale (G : galois_field) (x c : G.F) : ∀ l : List G.F,
    rs_eval G (l.map (fun g => c * g)) x = c * rs_eval G l x := by
  intro l
  induction l with
  | nil => simp [rs_eval]
  | cons a l ih =>
    rw [List.map_cons, rs_eval_cons, rs_eval_cons, ih, List.length_map]
    ring

theorem rs_mul_root_spec (G : galois_field) (t : List G.F) (root x : G.F) :
    (rs_mul_root G t root).length = t.length + 1 ∧
      x ^ (t.length + 1) + rs_eval G (rs_mul_root G t root) x
        = (x ^ t.length + rs_eval G t x) * (x - root) := by
  have hl : (t ++ [0]).length = (root :: t.map (fun c => root * c)).length := by simp
  unfold rs_mul_root
  refine ⟨by simp, ?_⟩
  rw [rs_eval_sub G x _ _ hl, rs_eval_append, rs_eval_cons G x root, rs_eval_scale,
    List.length_map, List.length_singleton, rs_eval_cons, rs_eval_nil]
  simp only [List.length_nil]
  ring

theorem rs_fold_roots (G : galois_field) (x : G.F) : ∀ (roots : List G.F) (t : List G.F),
    (roots.foldl (rs_mul_root G) t).length = t.length + roots.length ∧
      (x ^ t.length + rs_eval G t x = 0 ∨ x ∈ roots →
        x ^ (roots.foldl (rs_mul_root G) t).length
          + rs_eval G (roots.foldl (rs_mul_root G) t) x = 0) := by
  intro roots
  induction roots with
  | nil =>
    intro t
    refine ⟨rfl, ?_⟩
    rintro (h | h)
    · exact h
    · simp at h
  | cons r rs ih =>
    intro t
    obtain ⟨m1, m2⟩ := rs_mul_root_spec G t r x
    obtain ⟨i1, i2⟩ := ih (rs_mul_root G t r)
    rw [List.foldl_cons]
    refine ⟨by rw [i1, m1, List.length_cons]; omega, ?_⟩
    intro h
    apply i2
    rw [m1, m2]
    rcases h with h | h
    · left; rw [h, zero_mul]
    · rcases List.mem_cons.1 h with e | e
      · left; rw [e, sub_self, mul_zero]
      · right; exact e

theorem rs_genpoly_spec (G : galois_field) (nroots : Nat) :
    (rs_genpoly G nroots).length = nroots ∧
      ∀ x ∈ rs_roots G nroots, x ^ nroots + rs_eval G (rs_genpoly G nroots) x = 0 := by
  have hl : (rs_genpoly G nroots).length = nroots := by
    have := (rs_fold_roots G 0 (rs_roots G nroots) []).1
    unfold rs_genpoly
    rw [this]
    simp [rs_roots]
  refine ⟨hl, ?_⟩
  intro x hx
  have := (rs_fold_roots G x (rs_roots G nroots) []).2 (Or.inr hx)
  unfold rs_genpoly at hl ⊢
  rw [hl] at this
  exact this

theorem rs_encode_step_spec (G : galois_field) (gen par : List G.F) (d x : G.F)
    (hlen : par.length = gen.length) (hroot : x ^ gen.length + rs_eval G gen x = 0) :
    (rs_encode_step G gen par d).length = gen.length ∧
      rs_eval G (rs_encode_step G gen par d) x = rs_eval G par x * x - d * x ^ gen.length := by
  have hg : rs_eval G gen x = - x ^ gen.length := eq_neg_of_add_eq_zero_right hroot
  cases par with
  | nil =>
    have h0 : gen.length = 0 := by simpa using hlen.symm
    have hnil : gen = [] := List.length_eq_zero.1 h0
    subst hnil
    have h1 : (1 : G.F) = 0 := by simp [rs_eval] at hroot
    have hd : d = 0 := by rw [← mul_one d, h1, mul_zero]
    subst hd
    simp [rs_encode_step, rs_eval]
  | cons a tl =>
    have hl : (tl ++ [0]).length = (gen.map (fun g => (d - a) * g)).length := by
      simp only [List.length_append, List.length_singleton, List.length_map]
      simpa using hlen
    have hn : gen.length = tl.length + 1 := by simpa using hlen.symm
    unfold rs_encode_step
    simp only [List.headD_cons, List.tail_cons]
    refine ⟨by rw [List.length_zipWith, hl, Nat.min_self, List.length_map], ?_⟩
    rw [rs_eval_add G x _ _ hl, rs_eval_append, rs_eval_scale, hg, rs_eval_cons G x a,
      rs_eval_cons, rs_eval_nil, hn]
    simp only [List.length_nil, List.length_singleton]
    ring

theorem rs_encode_fold (G : galois_field) (gen : List G.F) (x : G.F)
    (hroot : x ^ gen.length + rs_eval G gen x = 0) :
    ∀ (data m par : List G.F), par.length = gen.length →
      rs_eval G m x * x ^ gen.length + rs_eval G par x = 0 →
      (data.foldl (rs_encode_step G gen) par).length = gen.length ∧
        rs_eval G (m ++ data) x * x ^ gen.length
          + rs_eval G (data.foldl (rs_encode_step G gen) par) x = 0 := by
  intro data
  induction data with
  | nil =>
    intro m par hl h
    rw [List.append_nil]
    exact ⟨hl, h⟩
  | cons d ds ih =>
    intro m par hl h
    obtain ⟨s1, s2⟩ := rs_encode_step_spec G gen par d x hl hroot
    have h2 : rs_eval G (m ++ [d]) x * x ^ gen.length
        + rs_eval G (rs_encode_step G gen par d) x = 0 := by
      rw [s2, rs_eval_append, rs_eval_cons, rs_eval_nil]
      simp only [List.length_nil, List.length_singleton]
      have : rs_eval G par x = - (rs_eval G m x * x ^ gen.length) :=
        eq_neg_of_add_eq_zero_right h
      rw [this]
      ring
    obtain ⟨i1, i2⟩ := ih (m ++ [d]) _ s1 h2
    rw [List.foldl_cons]
    refine ⟨i1, ?_⟩
    rw [List.append_assoc] at i2
    exact i2

theorem rs_length_fold (G : galois_field) (gen : List G.F) :
    ∀ (data par : List G.F), par.length = gen.length →
      (data.foldl (rs_encode_step G gen) par).length = gen.length := by
  intro data
  induction data with
  | nil => intro par h; exact h
  | cons d ds ih =>
    intro par h
    rw [List.foldl_cons]
    apply ih
    unfold rs_encode_step
    rw [List.length_zipWith]
    simp only [List.length_append, List.length_singleton, List.length_map, List.length_tail]
    cases par with
    | nil =>
      have : gen.length = 0 := by simpa using h.symm
      rw [this]; rfl
    | cons a tl =>
      have : gen.length = tl.length + 1 := by simpa using h.symm
      simp only [List.length_cons]
      omega

theorem rs_codeword_syndromes (G : galois_field) (nroots : Nat) (data : List G.F) :
    (rs_syndromes G nroots
      (data ++ data.foldl (rs_encode_step G (rs_genpoly G nroots))
        (List.replicate nroots 0))).all (fun s => s = 0) = true := by
  obtain ⟨g1, g2⟩ := rs_genpoly_spec G nroots
  rw [List.all_eq_true]
  intro s hs
  unfold rs_syndromes at hs
  obtain ⟨x, hx, rfl⟩ := List.mem_map.1 hs
  have hroot := g2 x hx
  rw [← g1] at hroot
  have hz : rs_eval G (List.replicate nroots (0 : G.F)) x = 0 := by
    have : ∀ n : Nat, rs_eval G (List.replicate n (0 : G.F)) x = 0 := by
      intro n
      induction n with
      | zero => rfl
      | succ k ih => rw [List.replicate_succ, rs_eval_cons, ih]; ring
    exact this nroots
  obtain ⟨f1, f2⟩ := rs_encode_fold G (rs_genpoly G nroots) x
    (by rw [g1] at hroot ⊢; exact hroot) data [] (List.replicate nroots 0)
    (by rw [List.length_replicate, g1]) (by rw [rs_eval_nil, hz]; ring)
  rw [List.nil_append] at f2
  rw [rs_eval_append, f1]
  simpa using f2

theorem range_getD (P : List Nat) (n : Nat) (h : P.length = n) :
    (List.range n).map (fun i => P.getD i 0) = P := by
  apply List.ext_getElem
  · simp [h]
  · intro i h1 h2
    simp only [List.getElem_map, List.getElem_range]
    exact (List.getD_eq_getElem _ _ h2)

theorem range_getD_mod (P : List Nat) (n : Nat) (h : P.length = n) (hb : ∀ b ∈ P, b < 256) :
    (List.range n).map (fun i => P.getD i 0 % 256) = P := by
  apply List.ext_getElem
  · simp [h]
  · intro i h1 h2
    simp only [List.getElem_map, List.getElem_range]
    rw [List.getD_eq_getElem _ _ h2]
    exact Nat.mod_eq_of_lt (hb _ (List.getElem_mem h2))

/-- C20: for every block, `ram_console_decode_rs8` applied to the block and
to the parity bytes `ram_console_encode_rs8` produced for it returns the
count 0 and the block unchanged. The library behind the two functions is the
Reed-Solomon codec over any symbol field whose symbols are at most 8 bits
wide, so that a parity symbol survives being stored in a byte; the parity
has `ECC_SIZE` bytes. -/
theorem C20_encode_decode_round_trip (G : galois_field) (c : ecc_config) (block : List Nat)
    (hsym : G.symsize ≤ 8) :
    ram_console_decode_rs8 c (some (rs_codec G c.ECC_SIZE)) block
        (ram_console_encode_rs8 c (some (rs_codec G c.ECC_SIZE)) block)
        = ((0 : Int), block) ∧
      (ram_console_encode_rs8 c (some (rs_codec G c.ECC_SIZE)) block).length = c.ECC_SIZE := by
  have hz : (List.replicate c.ECC_SIZE 0).map G.sym = List.replicate c.ECC_SIZE (0 : G.F) := by
    rw [List.map_replicate, G.sym_zero]
  have hQ : ((block.map G.sym).foldl (rs_encode_step G (rs_genpoly G c.ECC_SIZE))
      (List.replicate c.ECC_SIZE (0 : G.F))).length = c.ECC_SIZE := by
    have := rs_length_fold G (rs_genpoly G c.ECC_SIZE) (block.map G.sym)
      (List.replicate c.ECC_SIZE 0)
      (by rw [List.length_replicate, (rs_genpoly_spec G c.ECC_SIZE).1])
    rw [this, (rs_genpoly_spec G c.ECC_SIZE).1]
  have hP : (encode_rs8 G c.ECC_SIZE block (List.replicate c.ECC_SIZE 0)).length
      = c.ECC_SIZE := by
    unfold encode_rs8
    rw [List.length_map, hz, hQ]
  have hb : ∀ b ∈ encode_rs8 G c.ECC_SIZE block (List.replicate c.ECC_SIZE 0), b < 256 := by
    intro b hb
    unfold encode_rs8 at hb
    obtain ⟨y, _, rfl⟩ := List.mem_map.1 hb
    have h1 := G.val_lt y
    have h2 : 2 ^ G.symsize ≤ 2 ^ 8 := Nat.pow_le_pow_right (by decide) hsym
    omega
  have henc : ram_console_encode_rs8 c (some (rs_codec G c.ECC_SIZE)) block
      = encode_rs8 G c.ECC_SIZE block (List.replicate c.ECC_SIZE 0) := by
    unfold ram_console_encode_rs8
    simp only [rs_codec]
    exact range_getD_mod _ _ hP hb
  rw [henc]
  refine ⟨?_, hP⟩
  unfold ram_console_decode_rs8
  simp only [rs_codec]
  rw [range_getD _ _ hP]
  have hw : (encode_rs8 G c.ECC_SIZE block (List.replicate c.ECC_SIZE 0)).map G.sym
      = (block.map G.sym).foldl (rs_encode_step G (rs_genpoly G c.ECC_SIZE))
          (List.replicate c.ECC_SIZE (0 : G.F)) := by
    unfold encode_rs8
    rw [List.map_map, hz]
    have : G.sym ∘ G.val = id := funext G.sym_val
    rw [this, List.map_id]
  unfold decode_rs8
  simp only [hw]
  rw [if_pos (rs_codeword_syndromes G c.ECC_SIZE (block.map G.sym))]

/-- Instance of C20: the codec over the field with four elements, on the
one-byte block `[2]`. -/
theorem C20_witness :
    ram_console_decode_rs8 gf4_ecc gf4_ecc.init_rs [2]
        (ram_console_encode_rs8 gf4_ecc gf4_ecc.init_rs [2]) = ((0 : Int), [2]) :=
  (C20_encode_decode_round_trip gf4_symbols gf4_ecc [2] (by decide)).1

/-! ## The stores of `ram_console_save_old`: claim C21 -/

theorem save_old_fill_copies (cfg : Option ecc_config) (label : List Nat)
    (st1 : ram_console_state) (bootinfo : Option (List Nat)) (d : List Nat) :
    save_old_fill cfg label st1 bootinfo d
      = (save_old_copies cfg label st1 bootinfo).foldl
          (fun d p => memcpy d p.1 p.2.1 p.2.2) d := by
  unfold save_old_fill save_old_copies
  cases cfg <;> cases bootinfo <;> rfl

theorem save_old_copies_end (cfg : Option ecc_config) (label : List Nat)
    (st1 : ram_console_state) (b : List Nat) (hstart : st1.buffer.start ≤ st1.buffer.size)
    (hfit : st1.buffer.size + (save_old_strbuf cfg st1).length + strlen b + strlen label < U32) :
    (∀ p ∈ save_old_copies cfg label st1 none,
        p.1 + p.2.2 ≤ save_old_total_size cfg label st1 none) ∧
      save_old_total_size cfg label st1 (some b)
        = st1.buffer.size + (save_old_strbuf cfg st1).length + strlen b + strlen label ∧
      (save_old_copies cfg label st1 (some b)).getLast?
        = some (st1.buffer.size + (save_old_strbuf cfg st1).length + strlen label, b,
            strlen b + strlen label) ∧
      (st1.buffer.size + (save_old_strbuf cfg st1).length + strlen label)
          + (strlen b + strlen label)
        = save_old_total_size cfg label st1 (some b) + strlen label := by
  have es : sub32 st1.buffer.size st1.buffer.start = st1.buffer.size - st1.buffer.start := by
    simp only [sub32, U32] at *; omega
  have et : save_old_total_size cfg label st1 (some b)
      = st1.buffer.size + (save_old_strbuf cfg st1).length + strlen b + strlen label := by
    simp only [save_old_total_size, save_old_bootinfo_size, add32, U32] at *
    omega
  have et0 : save_old_total_size cfg label st1 none
      = st1.buffer.size + (save_old_strbuf cfg st1).length := by
    simp only [save_old_total_size, save_old_bootinfo_size, add32, U32] at *
    omega
  have eb : save_old_bootinfo_size label (some b) = strlen b + strlen label := by
    simp only [save_old_bootinfo_size, add32, U32] at *
    omega
  refine ⟨?_, et, ?_, by rw [et]; omega⟩
  · intro p hp
    rw [et0]
    unfold save_old_copies at hp
    cases cfg with
    | none =>
      simp only [List.append_nil, List.mem_cons, List.mem_singleton, List.not_mem_nil,
        or_false, es] at hp
      rcases hp with rfl | rfl
      · simp only []; omega
      · simp only []; omega
    | some c =>
      simp only [List.append_nil, List.cons_append, List.nil_append, List.mem_cons,
        List.mem_singleton, List.not_mem_nil, or_false, es] at hp
      rcases hp with rfl | rfl | rfl
      · simp only []; omega
      · simp only []; omega
      · simp only []; omega
  · unfold save_old_copies
    simp only [eb]
    cases cfg <;> rfl

set_option maxRecDepth 1000000 in
/-- C21 at a failing input: the sample region with the log "ab\n" and intact
parity, the label "B:" and the boot info "v1". `ram_console_save_old`
allocates `total_size = 3 + 20 + 2 + 2 = 27` bytes; its five copies go to
the offsets 0 (0 bytes), 0 (3), 3 (20), 23 (2) and 25 with the length
`bootinfo_size = 4`, so the last one stores the offsets 25..28, two bytes
beyond the 27 allocated, and reads four bytes from the three bytes of
"v1" and its terminator. -/
theorem C21_bootinfo_copy_overruns :
    save_old_total_size (some sample_ecc) (cstr "B:")
        (save_old_decode (some sample_ecc) logged_setup) (some (cstr "v1" ++ [0])) = 27 ∧
      (ram_console_save_old (some sample_ecc) (cstr "B:") kmalloc_ok logged_setup
        (some (cstr "v1" ++ [0])) none).old_log_size = 27 ∧
      (save_old_copies (some sample_ecc) (cstr "B:")
          (save_old_decode (some sample_ecc) logged_setup) (some (cstr "v1" ++ [0]))).map
        (fun p => (p.1, p.2.2)) = [(0, 0), (0, 3), (3, 20), (23, 2), (25, 4)] ∧
      25 + 4 > 27 ∧
      4 > (cstr "v1" ++ [0]).length ∧
      (ram_console_save_old (some sample_ecc) (cstr "B:") kmalloc_ok logged_setup
        (some (cstr "v1" ++ [0])) none).old_log
        = some (cstr "ab\n\nNo errors detected\nB:v1" ++ [0, 0]) ∧
      (cstr "ab\n\nNo errors detected\nB:v1" ++ [0, 0]).length = 29 := by
  decide

/-! ## Bounds of the writer's copies: claim C22 -/

theorem write_copies_core (cfg : Option ecc_config) (st : ram_console_state) (s : List Nat)
    (count : Nat) (hC : st.buffer_size < U32) (hstart : st.buffer.start ≤ st.buffer_size)
    (hcount : count ≤ st.buffer_size) :
    (∀ p ∈ ram_console_write_copies st s count, p.1 + p.2.2 ≤ st.buffer_size) ∧
      (ram_console_write cfg st s count).buffer.data
        = (ram_console_write_copies st s count).foldl
            (fun d p => memcpy d p.1 p.2.1 p.2.2) st.buffer.data ∧
      (ram_console_write cfg st s count).buffer.start ≤ st.buffer_size := by
  have erem : sub32 st.buffer_size st.buffer.start = st.buffer_size - st.buffer.start := by
    simp only [sub32, U32] at *; omega
  have hc' : ¬ count > st.buffer_size := by omega
  by_cases hw : sub32 st.buffer_size st.buffer.start < count
  · have hw' : st.buffer_size - st.buffer.start < count := by rw [erem] at hw; exact hw
    have ecnt : sub32 count (st.buffer_size - st.buffer.start)
        = count - (st.buffer_size - st.buffer.start) := by
      simp only [sub32, U32] at *; omega
    have hcopies : ram_console_write_copies st s count
        = [(st.buffer.start, s, st.buffer_size - st.buffer.start),
           (0, s.drop (st.buffer_size - st.buffer.start),
            count - (st.buffer_size - st.buffer.start))] := by
      unfold ram_console_write_copies
      simp only [hc', if_false, erem, hw', if_true, ecnt]
    obtain ⟨w1, _, w3⟩ := write_wrap cfg st s count hcount hC hw
    simp only [erem, ecnt] at w1 w3
    refine ⟨?_, ?_, ?_⟩
    · intro p hp
      rw [hcopies] at hp
      simp only [List.mem_cons, List.mem_singleton, List.not_mem_nil, or_false] at hp
      rcases hp with rfl | rfl
      · simp only []; omega
      · simp only []; omega
    · rw [w3, hcopies]; rfl
    · rw [w1]
      simp only [add32, U32] at *
      omega
  · have hw' : ¬ st.buffer_size - st.buffer.start < count := by rw [erem] at hw; exact hw
    have hcopies : ram_console_write_copies st s count = [(st.buffer.start, s, count)] := by
      unfold ram_console_write_copies
      simp only [hc', if_false, hw]
    obtain ⟨w1, _, w3⟩ := write_nowrap cfg st s count hcount hw
    refine ⟨?_, ?_, ?_⟩
    · intro p hp
      rw [hcopies] at hp
      simp only [List.mem_singleton] at hp
      subst hp
      simp only []; omega
    · rw [w3, hcopies]; rfl
    · rw [w1]
      simp only [add32, U32] at *
      omega

theorem fold_copies_length (C : Nat) : ∀ (copies : List (Nat × List Nat × Nat)) (d : List Nat),
    d.length = C → (∀ p ∈ copies, p.1 + p.2.2 ≤ C) →
    (copies.foldl (fun d p => memcpy d p.1 p.2.1 p.2.2) d).length = C := by
  intro copies
  induction copies with
  | nil => intro d h _; exact h
  | cons p ps ih =>
    intro d h hb
    rw [List.foldl_cons]
    apply ih
    · have := hb p (List.mem_cons_self _ _)
      rw [memcpy_length]; omega
    · intro q hq
      exact hb q (List.mem_cons_of_mem _ hq)

/-- C22: for every build, every state with `start ≤ C` and every chunk of any
length (`count` an unsigned int): each `memcpy` into the data region that
`ram_console_write` makes satisfies `offset + length ≤ C`, in the wrapped
and in the unwrapped branch, so every byte it stores lands at a data index
in `[0, C)`; these copies are all the stores into the data region (folding
them gives the data region of the result, which still has `C` bytes); and
the resulting state has `start ≤ C` over the same capacity. -/
theorem C22_write_stays_in_data_region (cfg : Option ecc_config) (st w : ram_console_state)
    (s : List Nat) (count : Nat) (hC : st.buffer_size < U32)
    (hstart : st.buffer.start ≤ st.buffer_size) (hcount : count < U32)
    (hw : w = ram_console_write cfg st s count) :
    (∀ p ∈ ram_console_write_copies st s count,
        p.1 + p.2.2 ≤ st.buffer_size ∧
        ∀ i, p.1 ≤ i → i < p.1 + p.2.2 → i < st.buffer_size) ∧
      w.buffer.data
        = (ram_console_write_copies st s count).foldl
            (fun d p => memcpy d p.1 p.2.1 p.2.2) st.buffer.data ∧
      (st.buffer.data.length = st.buffer_size → w.buffer.data.length = st.buffer_size) ∧
      w.buffer.start ≤ w.buffer_size ∧
      w.buffer_size = st.buffer_size := by
  have key : (∀ p ∈ ram_console_write_copies st s count, p.1 + p.2.2 ≤ st.buffer_size) ∧
      w.buffer.data
        = (ram_console_write_copies st s count).foldl
            (fun d p => memcpy d p.1 p.2.1 p.2.2) st.buffer.data ∧
      w.buffer.start ≤ st.buffer_size := by
    by_cases h : count > st.buffer_size
    · rw [hw, write_truncate cfg st s count h hcount, copies_truncate st s count h]
      have e : sub32 count st.buffer_size = count - st.buffer_size := by
        simp only [sub32, U32] at *; omega
      rw [e]
      exact write_copies_core cfg st _ st.buffer_size hC hstart (le_refl _)
    · rw [hw]
      exact write_copies_core cfg st s count hC hstart (by omega)
  obtain ⟨k1, k2, k3⟩ := key
  have hbs : w.buffer_size = st.buffer_size := by rw [hw]; exact write_buffer_size cfg st s count
  refine ⟨fun p hp => ⟨k1 p hp, fun i _ hi => by have := k1 p hp; omega⟩, k2, ?_, ?_, hbs⟩
  · intro hl
    rw [k2]
    exact fold_copies_length st.buffer_size _ _ hl k1
  · rw [hbs]; exact k3

set_option maxRecDepth 1000000 in
/-- Instance of C22: a chunk of 50 bytes written to the sample session whose
cursor stands at 46 of 48: the chunk is cut to its last 48 bytes, which go
to the offsets 46..47 and 0..45, and the cursor ends at 46. -/
theorem C22_witness :
    (ram_console_write_copies parity_session (List.replicate 50 121) 50).map
        (fun p => (p.1, p.2.2)) = [(46, 2), (0, 46)] ∧
      (∀ p ∈ ram_console_write_copies parity_session (List.replicate 50 121) 50,
        p.1 + p.2.2 ≤ 48) ∧
      (ram_console_write (some sample_ecc) parity_session (List.replicate 50 121) 50).buffer.start
        ≤ (ram_console_write (some sample_ecc) parity_session (List.replicate 50 121)
            50).buffer_size :=
  have h := C22_write_stays_in_data_region (some sample_ecc) parity_session _
    (List.replicate 50 121) 50 (by decide) (by decide) (by decide) rfl
  ⟨by decide, fun p hp => (h.1 p hp).1, h.2.2.2.1⟩

end RamConsole
